import Mathlib

/-!
# sqltor: composition of SQL filters into one statement

A shallow embedding of `filter.go` and `errors.go`.

* Go strings are modelled as `List Char` (`Str`); the functions of package
  `strings` and `fmt` that the code calls are written out below.  The code
  searches for the ASCII strings `"?"` and `"(?"` only, and no byte of a
  multi-byte UTF-8 character is an ASCII byte, so scanning characters and
  scanning bytes find the same occurrences.
* A Go slice is a `List`.  The argument slice returned by `CreateQuery` starts
  out `nil` and only ever grows through `append`, so it is `nil` exactly when
  it is empty: `[]` stands for `nil`.
* `container/list` is modelled with explicit element identities: an
  `*list.Element` is `none` (nil) or `some id`, where `id` is the allocation
  number of the element.
* The registry `f` is read only through `f.get`; it is a parameter
  `reg : Str → Option Filter` (`none` is the nil `*Filter`).
* A run-time panic (index out of range, nil dereference, negative `Repeat`
  count) is an explicit outcome.
-/

namespace Sqltor

abbrev Str := List Char

/-! ## package `strings` and `fmt` -/

/-- Go's `strings.Contains(s, substr)`. -/
def Contains : Str → Str → Bool
  | [], substr => substr.isPrefixOf []
  | c :: s, substr => substr.isPrefixOf (c :: s) || Contains s substr

/-- Go's `strings.Repeat(s, count)` for a count that is not negative. -/
def Repeat (s : Str) : Nat → Str
  | 0 => []
  | n + 1 => s ++ Repeat s n

/-- Scan of `strings.ReplaceAll` for a non-empty `old`: `skip` counts the
characters of the current occurrence of `old` that are still to be dropped. -/
def replaceScan (old new : Str) : Nat → Str → Str
  | _, [] => []
  | k + 1, _ :: s => replaceScan old new k s
  | 0, c :: s =>
    if old.isPrefixOf (c :: s) then new ++ replaceScan old new (old.length - 1) s
    else c :: replaceScan old new 0 s

/-- Go's `strings.ReplaceAll(s, old, new)` for a non-empty `old`: the occurrences of
`old` are replaced from left to right, without overlap. -/
def ReplaceAll (s old new : Str) : Str := replaceScan old new 0 s

/-- Go's `strings.Join(elems, sep)`. -/
def Join : List Str → Str → Str
  | [], _ => []
  | [a], _ => a
  | a :: b :: rest, sep => a ++ sep ++ Join (b :: rest) sep

/-- The placeholder marker. -/
def qmark : Str := ['?']

/-- The variadic template `"(?"`. -/
def openQ : Str := ['(', '?']

/-! ## `errors.go` -/

/-- The sentinel errors: `errors.Is(err, ErrX)` is `err.kind = ErrX`. -/
inductive ErrKind
  | ErrTooManyArgs
  | ErrNotEnoughArgs
  | ErrNoFilters
  | ErrFilterDoesNotExist
  | ErrZeroTables
  | ErrCannotJoin
  | ErrCannotConvertToString
  deriving DecidableEq

/-- An error value: the sentinel it wraps and the data its message is formatted
from.  `keysToString` ranges over a Go map, whose order of iteration is not
fixed, so `CannotJoinTablesErr` holds the available tables without an order. -/
inductive Err
  | TooManyArgs (provided needed : Nat)
  | NotEnoughArgs (provided needed : Nat)
  | NoFiltersErr
  | FilterDoesNotExistErr (filter : Str)
  | ZeroTablesErr (filter : Str)
  | CannotJoinTablesErr (table : Str) (availableTables : Multiset Str)
  | CannotConvertErr
  deriving DecidableEq

def Err.kind : Err → ErrKind
  | .TooManyArgs _ _ => .ErrTooManyArgs
  | .NotEnoughArgs _ _ => .ErrNotEnoughArgs
  | .NoFiltersErr => .ErrNoFilters
  | .FilterDoesNotExistErr _ => .ErrFilterDoesNotExist
  | .ZeroTablesErr _ => .ErrZeroTables
  | .CannotJoinTablesErr _ _ => .ErrCannotJoin
  | .CannotConvertErr => .ErrCannotConvertToString

/-- The ways a call can abort instead of returning. -/
inductive Panic
  | indexOutOfRange
  | nilDereference
  | negativeRepeatCount
  deriving DecidableEq

/-- Early exit of a loop body: a `return "", nil, err` or a panic. -/
inductive Stop
  | err (e : Err)
  | panic (p : Panic)
  deriving DecidableEq

/-! ## `container/list` -/

/-- A `*list.Element`: nil or the identity of an element. -/
abbrev ElemPtr := Option Nat

structure Element where
  id : Nat
  Value : Str
  deriving DecidableEq

/-- A `list.List`: its elements front to back and the identity the next
allocated element gets. -/
structure GoList where
  elems : List Element
  nextId : Nat
  deriving DecidableEq

/-- The empty list of `list.New()`. -/
def GoList.New : GoList := ⟨[], 0⟩

/-- The call `l.PushBack(v)`: the list after it and the new element. -/
def GoList.PushBack (l : GoList) (v : Str) : GoList × ElemPtr :=
  (⟨l.elems ++ [⟨l.nextId, v⟩], l.nextId + 1⟩, some l.nextId)

def insertAfterId (e : Element) (mark : Nat) : List Element → List Element
  | [] => []
  | x :: xs => if x.id = mark then x :: e :: xs else x :: insertAfterId e mark xs

/-- The call `l.InsertAfter(v, mark)`: reading `mark.list` of a nil mark panics; a mark
that is not an element of `l` leaves the list alone and yields nil. -/
def GoList.InsertAfter (l : GoList) (v : Str) (mark : ElemPtr) : Except Panic (GoList × ElemPtr) :=
  match mark with
  | none => .error .nilDereference
  | some m =>
    if l.elems.any (fun x => x.id == m) then
      .ok (⟨insertAfterId ⟨l.nextId, v⟩ m l.elems, l.nextId + 1⟩, some l.nextId)
    else .ok (l, none)

/-- The loop of `CreateQuery` that renders the chain: `joinStmt += e.Value`.
Every value put into the list is a string, so the type assertion holds. -/
def GoList.render (l : GoList) : Str := (l.elems.map Element.Value).flatten

/-! ## `map[string]*list.Element` -/

abbrev TableMap := List (Str × ElemPtr)

/-- The `ok` of `_, ok := m[k]`. -/
def TableMap.has (m : TableMap) (k : Str) : Bool := (m.lookup k).isSome

/-- The value of `m[k]`: nil for a missing key. -/
def TableMap.get (m : TableMap) (k : Str) : ElemPtr := (m.lookup k).join

/-- The assignment `m[k] = v`. -/
def TableMap.set (m : TableMap) (k : Str) (v : ElemPtr) : TableMap :=
  (k, v) :: m.filter (fun p => p.1 != k)

/-- The keys collected by `keysToString`: Go ranges over the map in an order
that is not fixed, so they form a collection without an order. -/
def TableMap.keys (m : TableMap) : Multiset Str := (m.map Prod.fst : List Str)

/-! ## `filter.go` -/

structure Filter where
  SelectedColumns : List Str
  Tables : List Str
  JoinsOn : List Str
  WhereClauses : List Str
  deriving DecidableEq

/-- One iteration of the loop of `sqlJoin`, for index `i`. -/
def sqlJoinBody (filter : Filter) (i : Nat) (l : GoList) (u : TableMap) :
    Except Panic (GoList × TableMap) :=
  match filter.Tables[i]? with
  | none => .error .indexOutOfRange
  | some table =>
    if u.has table then .ok (l, u)
    else
      match filter.Tables[i - 1]? with
      | none => .error .indexOutOfRange
      | some prev =>
        match l.InsertAfter (" join ".toList ++ table) (u.get prev) with
        | .error p => .error p
        | .ok (l1, j) =>
          match filter.JoinsOn[i - 1]? with
          | none => .error .indexOutOfRange
          | some cond =>
            match l1.InsertAfter (" on ".toList ++ cond) j with
            | .error p => .error p
            | .ok (l2, newEl) => .ok (l2, u.set table newEl)

/-- The loop `for i := 1; i < len(filter.Tables); i++` of `sqlJoin`, with `n`
iterations to go from index `i`. -/
def sqlJoinLoop (filter : Filter) : Nat → Nat → GoList → TableMap → Except Panic (GoList × TableMap)
  | 0, _, l, u => .ok (l, u)
  | n + 1, i, l, u =>
    match sqlJoinBody filter i l u with
    | .error p => .error p
    | .ok (l1, u1) => sqlJoinLoop filter n (i + 1) l1 u1

/-- The call `sqlJoin(filter, list, usedTables)`: the list and the map after the call and
the returned error. -/
def sqlJoin (filter : Filter) (l : GoList) (u : TableMap) :
    Except Panic (GoList × TableMap × Option Err) :=
  match filter.Tables[0]? with
  | none => .error .indexOutOfRange
  | some firstTable =>
    if !u.has firstTable then .ok (l, u, some (.CannotJoinTablesErr firstTable u.keys))
    else
      match sqlJoinLoop filter (filter.Tables.length - 1) 1 l u with
      | .error p => .error p
      | .ok (l1, u1) => .ok (l1, u1, none)

/-- The loop over `filter.SelectedColumns`, on `(selectsSet, selectsSlice)`. -/
def selectLoop : List Str → List Str × List Str → List Str × List Str
  | [], st => st
  | s :: rest, (selectsSet, selectsSlice) =>
    if s ∈ selectsSet then selectLoop rest (selectsSet, selectsSlice)
    else selectLoop rest (s :: selectsSet, selectsSlice ++ [s])

/-- The loop over `filter.WhereClauses`, on `(argInd, retArgs, wheresSlice)`. -/
def whereLoop {α : Type} (args : List (List α)) :
    List Str → Nat × List α × List Str → Except Stop (Nat × List α × List Str)
  | [], st => .ok st
  | w :: rest, (argInd, retArgs, wheresSlice) =>
    if Contains w qmark then
      match args[argInd]? with
      | none => .error (.err (.NotEnoughArgs args.length (argInd + 1)))
      | some a =>
        if a.length = 0 then .error (.panic .negativeRepeatCount)
        else
          whereLoop args rest
            (argInd + 1, retArgs ++ a,
              wheresSlice ++ [ReplaceAll w openQ (openQ ++ Repeat ", ?".toList (a.length - 1))])
    else whereLoop args rest (argInd, retArgs, wheresSlice ++ [w])

/-- The local variables of `CreateQuery` that live across the filter loop. -/
structure Session (α : Type) where
  retArgs : List α
  selectsSet : List Str
  selectsSlice : List Str
  wheresSlice : List Str
  usedTables : TableMap
  filterList : GoList
  argInd : Nat

/-- The loop `for _, key := range filters` of `CreateQuery`. -/
def filterLoop {α : Type} (reg : Str → Option Filter) (args : List (List α)) :
    List Str → Session α → Except Stop (Session α)
  | [], s => .ok s
  | key :: rest, s =>
    match reg key with
    | none => .error (.err (.FilterDoesNotExistErr key))
    | some filter =>
      if filter.Tables.length = 0 then .error (.err (.ZeroTablesErr key))
      else
        match sqlJoin filter s.filterList s.usedTables with
        | .error p => .error (.panic p)
        | .ok (_, _, some e) => .error (.err e)
        | .ok (l1, u1, none) =>
          match selectLoop filter.SelectedColumns (s.selectsSet, s.selectsSlice) with
          | (set1, slice1) =>
            match whereLoop args filter.WhereClauses (s.argInd, s.retArgs, s.wheresSlice) with
            | .error st => .error st
            | .ok (argInd1, retArgs1, wheres1) =>
              filterLoop reg args rest
                { retArgs := retArgs1, selectsSet := set1, selectsSlice := slice1,
                  wheresSlice := wheres1, usedTables := u1, filterList := l1, argInd := argInd1 }

/-- What a call of `CreateQuery` does: it returns its three results or panics. -/
inductive Outcome (α : Type)
  | returned (query : Str) (args : List α) (err : Option Err)
  | panicked (p : Panic)
  deriving DecidableEq

/-- The statement `fmt.Sprintf("select %v from %v where %v", cols, joinStmt, wheres)`. -/
def Sprintf (cols joinStmt wheres : Str) : Str :=
  "select ".toList ++ cols ++ " from ".toList ++ joinStmt ++ " where ".toList ++ wheres

/-- The session `CreateQuery` enters its filter loop with, once the first
filter's anchor is pushed on the chain. -/
def seed (α : Type) (anchor : Str) : Session α :=
  let pushed := GoList.New.PushBack anchor
  { retArgs := [], selectsSet := [], selectsSlice := [], wheresSlice := [],
    usedTables := TableMap.set [] anchor pushed.2, filterList := pushed.1, argInd := 0 }

/-- The call `CreateQuery(filters, args)`. -/
def CreateQuery {α : Type} (reg : Str → Option Filter) (filters : List Str)
    (args : List (List α)) : Outcome α :=
  match filters with
  | [] => .returned [] [] (some .NoFiltersErr)
  | key0 :: _ =>
    match reg key0 with
    | none => .returned [] [] (some (.FilterDoesNotExistErr key0))
    | some firstFilter =>
      match firstFilter.Tables with
      | [] => .returned [] [] (some (.ZeroTablesErr key0))
      | anchor :: _ =>
        match filterLoop reg args filters (seed α anchor) with
        | .error (.err e) => .returned [] [] (some e)
        | .error (.panic p) => .panicked p
        | .ok s =>
          if s.argInd < args.length then
            .returned [] [] (some (.TooManyArgs args.length s.argInd))
          else
            .returned
              (Sprintf (Join s.selectsSlice ", ".toList) s.filterList.render
                (Join s.wheresSlice " and ".toList))
              s.retArgs none

/-- The filters a name list resolves to, in order (`f.get` of every name). -/
def resolved (reg : Str → Option Filter) (filters : List Str) : List Filter :=
  filters.filterMap reg

/-- A list with every duplicate after its first occurrence removed. -/
def firstOccurrences : List Str → List Str
  | [] => []
  | x :: xs => x :: (firstOccurrences xs).filter (fun y => y != x)

/-! ## The filters of `filter_test.go` -/

def f1 : Filter :=
  { SelectedColumns := ["t1.id".toList],
    Tables := ["t1".toList, "t2".toList],
    JoinsOn := ["t1.t2_id = t2.id".toList],
    WhereClauses := ["t2.col > ?".toList, "t1.col2 = 'colcol'".toList] }

def f2 : Filter :=
  { SelectedColumns := ["t1.id".toList],
    Tables := ["t1".toList],
    JoinsOn := [],
    WhereClauses := ["t1.col > ?".toList] }

def f3 : Filter :=
  { SelectedColumns := ["t1.id".toList],
    Tables := ["t1".toList, "t3".toList, "t4".toList],
    JoinsOn := ["t1.t3_id = t3.id".toList, "t3.t4_id = t4.id".toList],
    WhereClauses := ["t4.col = ?".toList] }

def f6 : Filter :=
  { SelectedColumns := ["table.column".toList],
    Tables := ["table".toList],
    JoinsOn := [],
    WhereClauses := ["table.column = x".toList] }

def f7 : Filter :=
  { SelectedColumns := ["table.column".toList],
    Tables := [],
    JoinsOn := [],
    WhereClauses := ["table.column = x".toList] }

/-- The registry after `RegisterFilter("f1", &f1)`, ..., as far as the proofs use it. -/
def testReg : Str → Option Filter := fun key =>
  if key = "f1".toList then some f1
  else if key = "f2".toList then some f2
  else if key = "f3".toList then some f3
  else if key = "f6".toList then some f6
  else if key = "f7".toList then some f7
  else none

/-- The name list `{"f1", "f2", "f3"}` of `TestCreateQuery`. -/
def testNames : List Str := ["f1".toList, "f2".toList, "f3".toList]

/-- The statement `TestCreateQuery` expects for `f1`, `f2`, `f3`. -/
def testQuery : Str :=
  ("select t1.id from t1 join t3 on t1.t3_id = t3.id join t4 on t3.t4_id = t4.id" ++
    " join t2 on t1.t2_id = t2.id where t2.col > ? and t1.col2 = 'colcol' and t1.col > ?" ++
    " and t4.col = ?").toList

/-! ## The shape of the chain -/

/-- A joined table of the chain: the table and the condition of its two
fragments, and the identities of the two list elements. -/
structure Link where
  table : Str
  cond : Str
  joinId : Nat
  onId : Nat

/-- The two chain elements of a joined table: `" join T"`, then `" on C"`. -/
def Link.elems (k : Link) : List Element :=
  [⟨k.joinId, " join ".toList ++ k.table⟩, ⟨k.onId, " on ".toList ++ k.cond⟩]

def Link.ids (k : Link) : List Nat := [k.joinId, k.onId]

/-- The list `l` and the map `u` form the chain that starts with the bare
`anchor` and goes on with the fragment pairs of `links`; `u` records the anchor
element for the anchor and the `" on"` element for every joined table. -/
structure Rep (l : GoList) (u : TableMap) (anchor : Str) (aid : Nat) (links : List Link) :
    Prop where
  elems_eq : l.elems = ⟨aid, anchor⟩ :: links.flatMap Link.elems
  ids_nodup : (aid :: links.flatMap Link.ids).Nodup
  ids_lt : ∀ i ∈ aid :: links.flatMap Link.ids, i < l.nextId
  tables_nodup : (anchor :: links.map Link.table).Nodup
  lookup_eq : ∀ t p, u.lookup t = some p ↔
    (t = anchor ∧ p = some aid) ∨ ∃ k ∈ links, k.table = t ∧ p = some k.onId

def Link.pair (k : Link) : Str × Str := (k.table, k.cond)

/-- The filter `f` lists the table `t` right after the table `p`, with `c` as
the join condition of `t`: `Tables[i] = p`, `Tables[i+1] = t`, `JoinsOn[i] = c`. -/
def Introduces (f : Filter) (p t c : Str) : Prop :=
  ∃ i, f.Tables[i]? = some p ∧ f.Tables[i + 1]? = some t ∧ f.JoinsOn[i]? = some c

/-- Every pair `(t, c)` of the chain is introduced by a filter of `F` that lists
`t` right after a table that stands earlier in the chain (`seen` holds the
tables before the first pair). -/
def Linked (F : List Filter) : List Str → List (Str × Str) → Prop
  | _, [] => True
  | seen, (t, c) :: rest =>
    (∃ f ∈ F, ∃ p ∈ seen, Introduces f p t c) ∧ Linked F (t :: seen) rest

/-- The chain state of a session whose filters so far all belong to `F`. -/
def ChainInv (F : List Filter) (anchor : Str) (l : GoList) (u : TableMap) : Prop :=
  ∃ aid links, Rep l u anchor aid links ∧ Linked F [anchor] (links.map Link.pair)

/-! ## Filters with surplus join conditions -/

/-- The filter with `JoinsOn` cut to its first `len(Tables) - 1` entries. -/
def trimJoins (f : Filter) : Filter :=
  { f with JoinsOn := f.JoinsOn.take (f.Tables.length - 1) }

/-- A filter with one table and one join condition. -/
def surplusFilter : Filter :=
  { SelectedColumns := ["t.id".toList],
    Tables := ["t".toList],
    JoinsOn := ["t.x = u.y".toList],
    WhereClauses := ["t.id = 1".toList] }

def surplusReg : Str → Option Filter := fun key =>
  if key = "g".toList then some surplusFilter else none

/-! ## Counting placeholder predicates -/

/-- The number of `WHERE` predicates of `F` that contain `?`. -/
def placeholderCount (F : List Filter) : Nat :=
  ((F.flatMap Filter.WhereClauses).filter (fun w => Contains w qmark)).length

/-- Every filter of the list has an anchor, and the anchor is among `seen` or
among the tables of the filters before it. -/
def Reachable : List Str → List Filter → Prop
  | _, [] => True
  | seen, f :: fs => (∃ t ts, f.Tables = t :: ts ∧ t ∈ seen) ∧ Reachable (seen ++ f.Tables) fs

/-- Every anchor is reachable: the first filter's anchor seeds the chain, the
anchor of a later filter is a table of an earlier filter. -/
def AnchorsReachable : List Filter → Prop
  | [] => True
  | f0 :: fs => Reachable (f0.Tables.take 1) (f0 :: fs)

/-! ## Counting markers -/

/-- Scan of `strings.Count` for a non-empty `substr`, in step with `replaceScan`. -/
def countScan (substr : Str) : Nat → Str → Nat
  | _, [] => 0
  | k + 1, _ :: s => countScan substr k s
  | 0, c :: s =>
    if substr.isPrefixOf (c :: s) then 1 + countScan substr (substr.length - 1) s
    else countScan substr 0 s

/-- Go's `strings.Count(s, substr)` for a non-empty `substr`: the number of
occurrences of `substr` in `s` that `strings.ReplaceAll` replaces. -/
def Count (s substr : Str) : Nat := countScan substr 0 s

/-- The predicates that contain `?`, in traversal order: the ones that are
matched, one by one, with the argument groups. -/
def placeholderPredicates (F : List Filter) : List Str :=
  (F.flatMap Filter.WhereClauses).filter (fun w => Contains w qmark)

/-- A filter whose only predicate has one `?` that no `(` precedes. -/
def plainFilter : Filter :=
  { SelectedColumns := ["t.id".toList],
    Tables := ["t".toList],
    JoinsOn := [],
    WhereClauses := ["t.x = ?".toList] }

def plainReg : Str → Option Filter := fun key =>
  if key = "p".toList then some plainFilter else none

/-! ## The staged builder

The methods change the filter behind the pointer and return the pointer; here
they return the changed filter. -/

/-- The filter `&Filter{}` of `NewFilter()`. -/
def NewFilter : Filter :=
  { SelectedColumns := [], Tables := [], JoinsOn := [], WhereClauses := [] }

/-- The method `f.Select(columns...)`. -/
def Filter.Select (f : Filter) (columns : List Str) : Filter :=
  { f with SelectedColumns := f.SelectedColumns ++ columns }

/-- The method `f.From(table)`. -/
def Filter.From (f : Filter) (table : Str) : Filter :=
  { f with Tables := f.Tables ++ [table] }

/-- The method `f.Join(table)`. -/
def Filter.Join (f : Filter) (table : Str) : Filter :=
  { f with Tables := f.Tables ++ [table] }

/-- The method `f.On(cond)`. -/
def Filter.On (f : Filter) (cond : Str) : Filter :=
  { f with JoinsOn := f.JoinsOn ++ [cond] }

/-- The method `f.Where(conds...)`. -/
def Filter.Where (f : Filter) (conds : List Str) : Filter :=
  { f with WhereClauses := f.WhereClauses ++ conds }

/-- The calls `.Join(t1).On(c1)...Join(tn).On(cn)` of a builder chain. -/
def joinChain : Filter → List (Str × Str) → Filter
  | f, [] => f
  | f, (t, c) :: rest => joinChain ((f.Join t).On c) rest

/-! ## A filter that lists a joined table again -/

/-- The filter `f` with the join condition at index `j` replaced by `c`. -/
def withCondition (f : Filter) (j : Nat) (c : Str) : Filter :=
  { f with JoinsOn := f.JoinsOn.set j c }

/-- The registry `reg` with `key` bound to `f`. -/
def rebind (reg : Str → Option Filter) (key : Str) (f : Filter) : Str → Option Filter :=
  fun k => if k = key then some f else reg k

/-- A filter that lists `t2` after `t1`, as `f1` does. -/
def g2 : Filter :=
  { SelectedColumns := ["t2.id".toList],
    Tables := ["t1".toList, "t2".toList],
    JoinsOn := ["t1.t2_id = t2.id".toList],
    WhereClauses := ["t2.col = 1".toList] }

def conflictReg : Str → Option Filter := fun key =>
  if key = "f1".toList then some f1
  else if key = "g".toList then some g2
  else none

/-! ## The two-phase variant

The specification compares `CreateQuery`, which merges and composes filter by
filter, with a variant that runs the join merge for all filters first and the
composition of columns, predicates and arguments for all filters afterwards. -/

/-- The first phase of the two-phase variant: every name is resolved and its
filter merged into the chain by `sqlJoin`, in the order of the names. -/
def mergeLoop (reg : Str → Option Filter) :
    List Str → GoList × TableMap → Except Stop (GoList × TableMap)
  | [], st => .ok st
  | key :: rest, (l, u) =>
    match reg key with
    | none => .error (.err (.FilterDoesNotExistErr key))
    | some filter =>
      if filter.Tables.length = 0 then .error (.err (.ZeroTablesErr key))
      else
        match sqlJoin filter l u with
        | .error p => .error (.panic p)
        | .ok (_, _, some e) => .error (.err e)
        | .ok (l1, u1, none) => mergeLoop reg rest (l1, u1)

/-- The variables of the composition of columns, predicates and arguments. -/
structure Composition (α : Type) where
  selectsSet : List Str
  selectsSlice : List Str
  wheresSlice : List Str
  retArgs : List α
  argInd : Nat

/-- The composition variables of a session. -/
def Session.composition {α : Type} (s : Session α) : Composition α :=
  { selectsSet := s.selectsSet, selectsSlice := s.selectsSlice, wheresSlice := s.wheresSlice,
    retArgs := s.retArgs, argInd := s.argInd }

/-- The second phase of the two-phase variant: the columns, predicates and
arguments of every filter are composed, in the order of the names. -/
def composeLoop {α : Type} (reg : Str → Option Filter) (args : List (List α)) :
    List Str → Composition α → Except Stop (Composition α)
  | [], c => .ok c
  | key :: rest, c =>
    match reg key with
    | none => .error (.err (.FilterDoesNotExistErr key))
    | some filter =>
      match whereLoop args filter.WhereClauses (c.argInd, c.retArgs, c.wheresSlice) with
      | .error st => .error st
      | .ok (argInd1, retArgs1, wheres1) =>
        composeLoop reg args rest
          { selectsSet := (selectLoop filter.SelectedColumns (c.selectsSet, c.selectsSlice)).1,
            selectsSlice := (selectLoop filter.SelectedColumns (c.selectsSet, c.selectsSlice)).2,
            wheresSlice := wheres1, retArgs := retArgs1, argInd := argInd1 }

/-- The two-phase variant of `CreateQuery`: the checks of the name list and of
the first filter, the merge of all filters, the composition of all filters,
the check of the argument count, the rendering. -/
def CreateQueryTwoPhase {α : Type} (reg : Str → Option Filter) (filters : List Str)
    (args : List (List α)) : Outcome α :=
  match filters with
  | [] => .returned [] [] (some .NoFiltersErr)
  | key0 :: _ =>
    match reg key0 with
    | none => .returned [] [] (some (.FilterDoesNotExistErr key0))
    | some firstFilter =>
      match firstFilter.Tables with
      | [] => .returned [] [] (some (.ZeroTablesErr key0))
      | anchor :: _ =>
        match mergeLoop reg filters
            ((seed α anchor).filterList, (seed α anchor).usedTables) with
        | .error (.err e) => .returned [] [] (some e)
        | .error (.panic p) => .panicked p
        | .ok (l, _) =>
          match composeLoop reg args filters (seed α anchor).composition with
          | .error (.err e) => .returned [] [] (some e)
          | .error (.panic p) => .panicked p
          | .ok c =>
            if c.argInd < args.length then
              .returned [] [] (some (.TooManyArgs args.length c.argInd))
            else
              .returned
                (Sprintf (Join c.selectsSlice ", ".toList) l.render
                  (Join c.wheresSlice " and ".toList))
                c.retArgs none

/-- The filter `g2` with `t1.other = t2.id` as the join condition of `t2`. -/
def g3 : Filter := withCondition g2 0 "t1.other = t2.id".toList

/-- The registry of `f1` and, under the name `g`, the filter `g3`, whose
condition for `t2` differs from the one `f1` gives. -/
def clashReg : Str → Option Filter := rebind conflictReg "g".toList g3

/-! ## Unfolding a successful run -/

theorem filterLoop_cons_ok {α : Type} {reg : Str → Option Filter} {args : List (List α)}
    {key : Str} {rest : List Str} {s s' : Session α}
    (h : filterLoop reg args (key :: rest) s = .ok s') :
    ∃ filter l1 u1 argInd1 retArgs1 wheres1,
      reg key = some filter ∧ filter.Tables ≠ [] ∧
      sqlJoin filter s.filterList s.usedTables = .ok (l1, u1, none) ∧
      whereLoop args filter.WhereClauses (s.argInd, s.retArgs, s.wheresSlice)
        = .ok (argInd1, retArgs1, wheres1) ∧
      filterLoop reg args rest
        { retArgs := retArgs1,
          selectsSet := (selectLoop filter.SelectedColumns (s.selectsSet, s.selectsSlice)).1,
          selectsSlice := (selectLoop filter.SelectedColumns (s.selectsSet, s.selectsSlice)).2,
          wheresSlice := wheres1, usedTables := u1, filterList := l1, argInd := argInd1 }
        = .ok s' := by
  unfold filterLoop at h
  cases hr : reg key with
  | none => simp [hr] at h
  | some filter =>
    simp only [hr] at h
    by_cases hz : filter.Tables.length = 0
    · simp [hz] at h
    · simp only [hz, if_false] at h
      cases hj : sqlJoin filter s.filterList s.usedTables with
      | error p => simp [hj] at h
      | ok r =>
        obtain ⟨l1, u1, e⟩ := r
        cases e with
        | some e => simp [hj] at h
        | none =>
          simp only [hj] at h
          cases hw : whereLoop args filter.WhereClauses (s.argInd, s.retArgs, s.wheresSlice) with
          | error st => simp [hw] at h
          | ok r =>
            obtain ⟨argInd1, retArgs1, wheres1⟩ := r
            simp only [hw] at h
            exact ⟨filter, l1, u1, argInd1, retArgs1, wheres1, rfl,
              fun h0 => hz (by simp [h0]), hj, hw, h⟩

theorem CreateQuery_ok_inv {α : Type} {reg : Str → Option Filter} {filters : List Str}
    {args : List (List α)} {q : Str} {a : List α}
    (h : CreateQuery reg filters args = .returned q a none) :
    ∃ key0 rest firstFilter anchor tl s,
      filters = key0 :: rest ∧ reg key0 = some firstFilter ∧
      firstFilter.Tables = anchor :: tl ∧
      filterLoop reg args filters (seed α anchor) = .ok s ∧
      ¬ s.argInd < args.length ∧
      q = Sprintf (Join s.selectsSlice ", ".toList) s.filterList.render
            (Join s.wheresSlice " and ".toList) ∧
      a = s.retArgs := by
  unfold CreateQuery at h
  cases filters with
  | nil => simp at h
  | cons key0 rest =>
    simp only at h
    cases hr : reg key0 with
    | none => simp [hr] at h
    | some firstFilter =>
      simp only [hr] at h
      cases ht : firstFilter.Tables with
      | nil => simp [ht] at h
      | cons anchor tl =>
        simp only [ht] at h
        cases hl : filterLoop reg args (key0 :: rest) (seed α anchor) with
        | error st =>
          cases st <;> simp [hl] at h
        | ok s =>
          simp only [hl] at h
          by_cases hlt : s.argInd < args.length
          · simp [hlt] at h
          · simp only [hlt, if_false, Outcome.returned.injEq, and_true] at h
            exact ⟨key0, rest, firstFilter, anchor, tl, s, rfl, hr, ht, hl, hlt,
              h.1.symm, h.2.symm⟩

/-! ## The argument cursor -/

theorem whereLoop_args {α : Type} (args : List (List α)) :
    ∀ (ws : List Str) (i : Nat) (r : List α) (w : List Str) (i' : Nat) (r' : List α)
      (w' : List Str),
      whereLoop args ws (i, r, w) = .ok (i', r', w') →
      i ≤ args.length → r = (args.take i).flatten →
      i' ≤ args.length ∧ r' = (args.take i').flatten := by
  intro ws
  induction ws with
  | nil =>
    intro i r w i' r' w' h hi hr
    simp only [whereLoop, Except.ok.injEq, Prod.mk.injEq] at h
    obtain ⟨rfl, rfl, -⟩ := h
    exact ⟨hi, hr⟩
  | cons x rest ih =>
    intro i r w i' r' w' h hi hr
    unfold whereLoop at h
    by_cases hc : Contains x qmark = true
    · simp only [hc, if_true] at h
      cases ha : args[i]? with
      | none => simp [ha] at h
      | some a =>
        simp only [ha] at h
        by_cases hz : a.length = 0
        · simp [hz] at h
        · simp only [hz, if_false] at h
          have hlt : i < args.length := by
            by_contra hge
            have : args[i]? = none := List.getElem?_eq_none (by omega)
            simp [this] at ha
          refine ih _ _ _ _ _ _ h hlt ?_
          rw [List.take_succ, List.flatten_append, ← hr, ha]
          simp
    · simp only [hc] at h
      exact ih _ _ _ _ _ _ h hi hr

theorem filterLoop_args {α : Type} (reg : Str → Option Filter) (args : List (List α)) :
    ∀ (filters : List Str) (s s' : Session α),
      filterLoop reg args filters s = .ok s' →
      s.argInd ≤ args.length → s.retArgs = (args.take s.argInd).flatten →
      s'.argInd ≤ args.length ∧ s'.retArgs = (args.take s'.argInd).flatten := by
  intro filters
  induction filters with
  | nil =>
    intro s s' h hi hr
    simp only [filterLoop, Except.ok.injEq] at h
    subst h
    exact ⟨hi, hr⟩
  | cons key rest ih =>
    intro s s' h hi hr
    obtain ⟨filter, l1, u1, argInd1, retArgs1, wheres1, -, -, -, hw, hrest⟩ :=
      filterLoop_cons_ok h
    obtain ⟨h1, h2⟩ := whereLoop_args args _ _ _ _ _ _ _ hw hi hr
    exact ih _ _ hrest h1 h2

/-- C5: on success the returned arguments are the supplied groups, concatenated in order. -/
theorem CreateQuery_args_concat {α : Type} (reg : Str → Option Filter) (filters : List Str)
    (args : List (List α)) (q : Str) (a : List α)
    (h : CreateQuery reg filters args = .returned q a none) :
    a = args.flatten := by
  obtain ⟨key0, rest, firstFilter, anchor, tl, s, -, -, -, hl, hlt, -, ha⟩ := CreateQuery_ok_inv h
  obtain ⟨h1, h2⟩ := filterLoop_args reg args filters _ s hl (Nat.zero_le _) (by simp [seed])
  have : s.argInd = args.length := by omega
  rw [ha, h2, this, List.take_length]

theorem testQuery_run :
    CreateQuery testReg testNames [[1], [2], [3]] = .returned testQuery [1, 2, 3] none := by
  rfl

/-- C5 at the filters `f1`, `f2`, `f3` of the test with the groups `[[1], [2], [3]]`. -/
theorem CreateQuery_args_concat_witness :
    CreateQuery testReg testNames [[1], [2], [3]] = .returned testQuery [1, 2, 3] none ∧
      [1, 2, 3] = [[1], [2], [3]].flatten :=
  ⟨testQuery_run, CreateQuery_args_concat testReg testNames [[1], [2], [3]] testQuery [1, 2, 3]
    testQuery_run⟩

/-! ## Column deduplication -/

theorem mem_firstOccurrences (x : Str) : ∀ l : List Str, x ∈ firstOccurrences l ↔ x ∈ l := by
  intro l
  induction l with
  | nil => simp [firstOccurrences]
  | cons a l ih =>
    simp only [firstOccurrences, List.mem_cons, List.mem_filter, ih, bne_iff_ne, ne_eq,
      decide_eq_true_eq]
    constructor
    · rintro (h | ⟨h, -⟩)
      · exact Or.inl h
      · exact Or.inr h
    · intro h
      by_cases hx : x = a
      · exact Or.inl hx
      · rcases h with h | h
        · exact absurd h hx
        · exact Or.inr ⟨h, hx⟩

theorem firstOccurrences_snoc (s : Str) :
    ∀ pre : List Str, firstOccurrences (pre ++ [s]) =
      if s ∈ pre then firstOccurrences pre else firstOccurrences pre ++ [s] := by
  intro pre
  induction pre with
  | nil => simp [firstOccurrences]
  | cons a pre ih =>
    rw [List.cons_append, firstOccurrences, ih, firstOccurrences]
    by_cases hs : s ∈ pre
    · simp [hs]
    · by_cases ha : s = a
      · subst ha
        simp [hs, List.filter_append]
      · simp [hs, ha, List.filter_append]

theorem firstOccurrences_nodup : ∀ l : List Str, (firstOccurrences l).Nodup := by
  intro l
  induction l with
  | nil => simp [firstOccurrences]
  | cons a l ih =>
    simp only [firstOccurrences, List.nodup_cons, List.mem_filter, bne_iff_ne, ne_eq,
      not_true_eq_false, and_false, not_false_eq_true, true_and]
    exact ih.filter _

theorem selectLoop_spec :
    ∀ (cols pre set slice : List Str),
      (∀ x, x ∈ set ↔ x ∈ pre) → slice = firstOccurrences pre →
      (∀ x, x ∈ (selectLoop cols (set, slice)).1 ↔ x ∈ pre ++ cols) ∧
        (selectLoop cols (set, slice)).2 = firstOccurrences (pre ++ cols) := by
  intro cols
  induction cols with
  | nil =>
    intro pre set slice hset hslice
    simpa [selectLoop, hslice] using hset
  | cons c rest ih =>
    intro pre set slice hset hslice
    have happ : pre ++ c :: rest = (pre ++ [c]) ++ rest := by simp
    unfold selectLoop
    by_cases hc : c ∈ set
    · simp only [hc, if_true]
      rw [happ]
      refine ih (pre ++ [c]) set slice ?_ ?_
      · intro x
        simp only [List.mem_append, List.mem_singleton, hset]
        constructor
        · exact Or.inl
        · rintro (h | rfl)
          · exact h
          · exact (hset _).1 hc
      · rw [firstOccurrences_snoc, if_pos ((hset _).1 hc), hslice]
    · simp only [hc, if_false]
      rw [happ]
      refine ih (pre ++ [c]) (c :: set) (slice ++ [c]) ?_ ?_
      · intro x
        simp [hset, or_comm]
      · rw [firstOccurrences_snoc, if_neg (fun h => hc ((hset _).2 h)), hslice]

theorem filterLoop_selects {α : Type} (reg : Str → Option Filter) (args : List (List α)) :
    ∀ (filters : List Str) (s s' : Session α) (pre : List Str),
      filterLoop reg args filters s = .ok s' →
      (∀ x, x ∈ s.selectsSet ↔ x ∈ pre) → s.selectsSlice = firstOccurrences pre →
      s'.selectsSlice =
        firstOccurrences (pre ++ (resolved reg filters).flatMap Filter.SelectedColumns) := by
  intro filters
  induction filters with
  | nil =>
    intro s s' pre h hset hslice
    simp only [filterLoop, Except.ok.injEq] at h
    subst h
    simpa [resolved] using hslice
  | cons key rest ih =>
    intro s s' pre h hset hslice
    obtain ⟨filter, l1, u1, argInd1, retArgs1, wheres1, hreg, -, -, -, hrest⟩ :=
      filterLoop_cons_ok h
    obtain ⟨h1, h2⟩ := selectLoop_spec filter.SelectedColumns pre _ _ hset hslice
    have := ih _ _ (pre ++ filter.SelectedColumns) hrest h1 h2
    simpa [resolved, List.filterMap_cons, hreg, List.flatMap_cons, List.append_assoc] using this

/-- C8: on success the select list of the statement is the composed filters'
`SelectedColumns`, concatenated in filter order, with every duplicate after its
first occurrence removed; so every column occurs in it once. -/
theorem CreateQuery_select_list {α : Type} (reg : Str → Option Filter) (filters : List Str)
    (args : List (List α)) (q : Str) (a : List α)
    (h : CreateQuery reg filters args = .returned q a none) :
    ∃ joinStmt wheres cols,
      cols = firstOccurrences ((resolved reg filters).flatMap Filter.SelectedColumns) ∧
      q = Sprintf (Join cols ", ".toList) joinStmt wheres ∧ cols.Nodup ∧
      ∀ c, c ∈ cols ↔ ∃ f ∈ resolved reg filters, c ∈ f.SelectedColumns := by
  obtain ⟨key0, rest, firstFilter, anchor, tl, s, -, -, -, hl, -, hq, -⟩ := CreateQuery_ok_inv h
  have hs := filterLoop_selects reg args filters _ s [] hl (by simp [seed]) (by simp [seed, firstOccurrences])
  rw [List.nil_append] at hs
  refine ⟨s.filterList.render, Join s.wheresSlice " and ".toList, _, rfl, ?_,
    firstOccurrences_nodup _, ?_⟩
  · rw [hq, hs]
  · intro c
    simp [mem_firstOccurrences, List.mem_flatMap]

/-- C8 at the filters `f1`, `f2`, `f3` of the test, which all select `t1.id`. -/
theorem CreateQuery_select_list_witness :
    ∃ joinStmt wheres cols,
      cols = firstOccurrences ((resolved testReg testNames).flatMap Filter.SelectedColumns) ∧
      testQuery = Sprintf (Join cols ", ".toList) joinStmt wheres ∧ cols.Nodup ∧
      ∀ c, c ∈ cols ↔ ∃ f ∈ resolved testReg testNames, c ∈ f.SelectedColumns :=
  CreateQuery_select_list testReg testNames [[1], [2], [3]] testQuery [1, 2, 3] testQuery_run

/-! ## Strings -/

theorem Contains_qmark (s : Str) : Contains s qmark = true ↔ '?' ∈ s := by
  induction s with
  | nil => simp [Contains, qmark, List.isPrefixOf]
  | cons c s ih =>
    simp only [Contains, Bool.or_eq_true, ih, List.mem_cons]
    simp only [qmark, List.isPrefixOf, Bool.and_true, beq_iff_eq]

theorem replaceScan_openQ_hit (new s : Str) :
    replaceScan openQ new 0 ('(' :: '?' :: s) = new ++ replaceScan openQ new 0 s := by
  simp [replaceScan, openQ, List.isPrefixOf]

theorem replaceScan_openQ_miss (new : Str) (c : Char) (s : Str)
    (h : c ≠ '(' ∨ s.head? ≠ some '?') :
    replaceScan openQ new 0 (c :: s) = c :: replaceScan openQ new 0 s := by
  have : openQ.isPrefixOf (c :: s) = false := by
    cases s with
    | nil => simp [openQ, List.isPrefixOf]
    | cons d t =>
      simp only [openQ, List.isPrefixOf, Bool.and_true, Bool.and_eq_false_imp, beq_iff_eq]
      intro hc
      rcases h with h | h
      · exact absurd hc.symm h
      · simp only [List.head?_cons, ne_eq, Option.some.injEq] at h
        simpa using fun hd : '?' = d => h hd.symm
  simp [replaceScan, this]

theorem replaceScan_openQ_append (new : Str) :
    ∀ (pre s : Str), '?' ∉ pre → s.head? ≠ some '?' →
      replaceScan openQ new 0 (pre ++ s) = pre ++ replaceScan openQ new 0 s := by
  intro pre
  induction pre with
  | nil => intro s _ _; rfl
  | cons c pre ih =>
    intro s hq hs
    have hq' : '?' ∉ pre := fun h => hq (List.mem_cons_of_mem _ h)
    rw [List.cons_append, replaceScan_openQ_miss, ih s hq' hs, List.cons_append]
    right
    cases pre with
    | nil => simpa using hs
    | cons d t =>
      simp only [List.cons_append, List.head?_cons, ne_eq, Option.some.injEq]
      intro hd
      exact hq (by simp [hd])

theorem Repeat_marks (K : Nat) :
    openQ ++ Repeat ", ?".toList K = '(' :: Join (List.replicate (K + 1) qmark) ", ".toList := by
  have key : ∀ K, qmark ++ Repeat ", ?".toList K = Join (List.replicate (K + 1) qmark) ", ".toList := by
    intro K
    induction K with
    | zero => simp [Repeat, Join, List.replicate]
    | succ n ih =>
      rw [List.replicate_succ, List.replicate_succ, Join, ← List.replicate_succ, ← ih]
      simp [Repeat, qmark]
  rw [← key]
  rfl

theorem count_Join_marks (K : Nat) :
    (Join (List.replicate K qmark) ", ".toList).count '?' = K := by
  induction K with
  | zero => simp [Join]
  | succ n ih =>
    cases n with
    | zero => simp [Join, qmark]
    | succ m =>
      rw [List.replicate_succ, List.replicate_succ, Join, ← List.replicate_succ,
        List.count_append, List.count_append, ih]
      simp [qmark]
      omega

/-- One iteration of the predicate loop on `col ++ " in (?)"`: the state the
loop goes on with, and the markers of the emitted predicate. -/
theorem whereLoop_variadic_step {α : Type} (args : List (List α)) (col : Str) (rest : List Str)
    (argInd : Nat) (retArgs : List α) (wheres : List Str) (a : List α)
    (hcol : '?' ∉ col) (ha : args[argInd]? = some a) (hK : 1 ≤ a.length) :
    whereLoop args ((col ++ " in (?)".toList) :: rest) (argInd, retArgs, wheres) =
      whereLoop args rest
        (argInd + 1, retArgs ++ a,
          wheres ++ [col ++ " in (".toList ++
            Join (List.replicate a.length qmark) ", ".toList ++ ")".toList]) ∧
    (col ++ " in (".toList ++
        Join (List.replicate a.length qmark) ", ".toList ++ ")".toList).count '?' = a.length := by
  constructor
  · have hc : Contains (col ++ " in (?)".toList) qmark = true := by
      rw [Contains_qmark]; simp
    have hz : ¬ a.length = 0 := by omega
    have hr : ReplaceAll (col ++ " in (?)".toList) openQ
        (openQ ++ Repeat ", ?".toList (a.length - 1)) =
        col ++ " in (".toList ++ Join (List.replicate a.length qmark) ", ".toList ++
          ")".toList := by
      unfold ReplaceAll
      rw [replaceScan_openQ_append _ col _ hcol (by simp)]
      have h4 : " in (?)".toList = ' ' :: 'i' :: 'n' :: ' ' :: '(' :: '?' :: [')'] := rfl
      rw [h4, replaceScan_openQ_miss _ _ _ (Or.inl (by decide)),
        replaceScan_openQ_miss _ _ _ (Or.inl (by decide)),
        replaceScan_openQ_miss _ _ _ (Or.inl (by decide)),
        replaceScan_openQ_miss _ _ _ (Or.inl (by decide)),
        replaceScan_openQ_hit, replaceScan_openQ_miss _ _ _ (Or.inl (by decide)), Repeat_marks,
        Nat.sub_add_cancel hK]
      simp [replaceScan]
    rw [whereLoop]
    simp only [hc, if_true, ha, hz, if_false, hr]
  · have hcount : col.count '?' = 0 := List.count_eq_zero.2 hcol
    rw [List.count_append, List.count_append, List.count_append, count_Join_marks, hcount]
    have h1 : List.count '?' " in (".toList = 0 := by decide
    have h2 : List.count '?' ")".toList = 0 := by decide
    omega

/-! ## The table map -/

theorem lookup_filter_ne (k t : Str) (h : t ≠ k) :
    ∀ m : TableMap, List.lookup t (m.filter (fun p => p.1 != k)) = List.lookup t m := by
  intro m
  induction m with
  | nil => rfl
  | cons p m ih =>
    obtain ⟨a, b⟩ := p
    by_cases ha : a = k
    · subst ha
      have hne : (t == a) = false := by simpa using h
      simp [List.filter_cons, List.lookup_cons, hne, ih]
    · have h1 : (a != k) = true := by simpa using ha
      simp only [List.filter_cons, h1, if_true, List.lookup_cons, ih]

theorem TableMap.lookup_set (m : TableMap) (k : Str) (v : ElemPtr) (t : Str) :
    (TableMap.set m k v).lookup t = if t = k then some v else m.lookup t := by
  unfold TableMap.set
  by_cases h : t = k
  · subst h; simp
  · have hne : (t == k) = false := by simpa using h
    rw [List.lookup_cons, hne, if_neg h]
    exact lookup_filter_ne k t h m

theorem TableMap.has_iff (m : TableMap) (t : Str) :
    m.has t = true ↔ ∃ p, m.lookup t = some p := by
  unfold TableMap.has
  cases m.lookup t <;> simp

theorem TableMap.has_set (m : TableMap) (k : Str) (v : ElemPtr) (t : Str) :
    (TableMap.set m k v).has t = true ↔ t = k ∨ m.has t = true := by
  rw [TableMap.has_iff, TableMap.has_iff, TableMap.lookup_set]
  by_cases h : t = k
  · simp [h]
  · simp [h]

theorem TableMap.mem_keys (m : TableMap) (t : Str) : t ∈ m.keys ↔ m.has t = true := by
  unfold TableMap.keys TableMap.has
  rw [Multiset.mem_coe]
  induction m with
  | nil => simp
  | cons p m ih =>
    obtain ⟨a, b⟩ := p
    by_cases h : t = a
    · subst h; simp
    · have hne : (t == a) = false := by simpa using h
      simp only [List.map_cons, List.mem_cons, h, false_or, ih, List.lookup_cons, hne]

/-! ## Insertion into the list -/

theorem insertAfterId_split (e : Element) (m : Nat) :
    ∀ (pre : List Element) (x : Element) (post : List Element),
      (∀ y ∈ pre, y.id ≠ m) → x.id = m →
      insertAfterId e m (pre ++ x :: post) = pre ++ x :: e :: post := by
  intro pre
  induction pre with
  | nil =>
    intro x post _ hx
    simp [insertAfterId, hx]
  | cons a pre ih =>
    intro x post hpre hx
    have ha : a.id ≠ m := hpre a (List.mem_cons_self _ _)
    rw [List.cons_append, insertAfterId, if_neg ha,
      ih x post (fun y hy => hpre y (List.mem_cons_of_mem _ hy)) hx]
    rfl

theorem InsertAfter_split (l : GoList) (v : Str) (m : Nat) (pre : List Element) (x : Element)
    (post : List Element) (hl : l.elems = pre ++ x :: post) (hpre : ∀ y ∈ pre, y.id ≠ m)
    (hx : x.id = m) :
    l.InsertAfter v (some m) =
      .ok (⟨pre ++ x :: ⟨l.nextId, v⟩ :: post, l.nextId + 1⟩, some l.nextId) := by
  have hany : l.elems.any (fun y => y.id == m) = true := by
    rw [List.any_eq_true]
    exact ⟨x, by simp [hl], by simp [hx]⟩
  simp only [GoList.InsertAfter, hany, if_true]
  rw [hl, insertAfterId_split ⟨l.nextId, v⟩ m pre x post hpre hx]

/-! ## One insertion into a well-formed chain -/

theorem Rep.has_table_iff {l : GoList} {u : TableMap} {anchor : Str} {aid : Nat} {links : List Link}
    (h : Rep l u anchor aid links) (t : Str) :
    u.has t = true ↔ t = anchor ∨ t ∈ links.map Link.table := by
  rw [TableMap.has_iff]
  constructor
  · rintro ⟨p, hp⟩
    rcases (h.lookup_eq t p).1 hp with ⟨ht, -⟩ | ⟨k, hk, hkt, -⟩
    · exact Or.inl ht
    · exact Or.inr (List.mem_map.2 ⟨k, hk, hkt⟩)
  · rintro (ht | ht)
    · exact ⟨some aid, (h.lookup_eq t _).2 (Or.inl ⟨ht, rfl⟩)⟩
    · obtain ⟨k, hk, hkt⟩ := List.mem_map.1 ht
      exact ⟨some k.onId, (h.lookup_eq t _).2 (Or.inr ⟨k, hk, hkt, rfl⟩)⟩

theorem Rep.get_eq {l : GoList} {u : TableMap} {anchor : Str} {aid : Nat} {links : List Link}
    (h : Rep l u anchor aid links) (t : Str) (m : Nat)
    (hm : (t = anchor ∧ m = aid) ∨ ∃ k ∈ links, k.table = t ∧ m = k.onId) :
    u.get t = some m := by
  have : u.lookup t = some (some m) := by
    rw [h.lookup_eq]
    rcases hm with ⟨h1, h2⟩ | ⟨k, hk, h1, h2⟩
    · exact Or.inl ⟨h1, by rw [h2]⟩
    · exact Or.inr ⟨k, hk, h1, by rw [h2]⟩
  simp [TableMap.get, this]

/-- The chain element recorded for a table that is in the map splits the chain:
it is the anchor element at the front, or the `" on"` element of that table's
own pair. -/
theorem Rep.split {l : GoList} {u : TableMap} {anchor : Str} {aid : Nat} {links : List Link}
    (h : Rep l u anchor aid links) (prev : Str) (hp : u.has prev = true) :
    ∃ (L1 L2 : List Link) (pre : List Element) (x : Element),
      links = L1 ++ L2 ∧ u.get prev = some x.id ∧
      pre ++ [x] = ⟨aid, anchor⟩ :: L1.flatMap Link.elems ∧
      ((prev = anchor ∧ L1 = [] ∧ pre = [] ∧ x = ⟨aid, anchor⟩) ∨
        ∃ L0 k0, L1 = L0 ++ [k0] ∧ k0.table = prev ∧
          pre = ⟨aid, anchor⟩ :: L0.flatMap Link.elems ++
            [⟨k0.joinId, " join ".toList ++ k0.table⟩] ∧
          x = ⟨k0.onId, " on ".toList ++ k0.cond⟩) := by
  rcases (h.has_table_iff prev).1 hp with hpa | hpl
  · refine ⟨[], links, [], ⟨aid, anchor⟩, by simp, ?_, by simp, Or.inl ⟨hpa, rfl, rfl, rfl⟩⟩
    exact h.get_eq prev aid (Or.inl ⟨hpa, rfl⟩)
  · obtain ⟨k0, hk0, hkt⟩ := List.mem_map.1 hpl
    obtain ⟨L0, L2, hL⟩ := List.append_of_mem hk0
    refine ⟨L0 ++ [k0], L2,
      ⟨aid, anchor⟩ :: L0.flatMap Link.elems ++ [⟨k0.joinId, " join ".toList ++ k0.table⟩],
      ⟨k0.onId, " on ".toList ++ k0.cond⟩, by simp [hL], ?_, ?_,
      Or.inr ⟨L0, k0, rfl, hkt, rfl, rfl⟩⟩
    · exact h.get_eq prev k0.onId (Or.inr ⟨k0, hk0, hkt, rfl⟩)
    · simp [List.flatMap_append, Link.elems]

theorem Rep.elem_ids {l : GoList} {u : TableMap} {anchor : Str} {aid : Nat} {links : List Link}
    (h : Rep l u anchor aid links) :
    l.elems.map Element.id = aid :: links.flatMap Link.ids := by
  rw [h.elems_eq, List.map_cons, List.map_flatMap]
  rfl

/-- Inserting the pair of a table that is not in the map after the position of
a table that is: the two `InsertAfter` calls and the state they leave. -/
theorem Rep.insert {l : GoList} {u : TableMap} {anchor : Str} {aid : Nat} {links : List Link}
    (h : Rep l u anchor aid links) (prev table cond : Str)
    (hp : u.has prev = true) (ht : u.has table = false) :
    ∃ (L1 L2 : List Link) (pre : List Element) (x : Element),
      links = L1 ++ L2 ∧ u.get prev = some x.id ∧
      pre ++ [x] = ⟨aid, anchor⟩ :: L1.flatMap Link.elems ∧
      ((prev = anchor ∧ L1 = [] ∧ pre = [] ∧ x = ⟨aid, anchor⟩) ∨
        ∃ L0 k0, L1 = L0 ++ [k0] ∧ k0.table = prev ∧
          pre = ⟨aid, anchor⟩ :: L0.flatMap Link.elems ++
            [⟨k0.joinId, " join ".toList ++ k0.table⟩] ∧
          x = ⟨k0.onId, " on ".toList ++ k0.cond⟩) ∧
      l.elems = pre ++ x :: L2.flatMap Link.elems ∧
      l.InsertAfter (" join ".toList ++ table) (u.get prev) =
        .ok (⟨pre ++ x :: ⟨l.nextId, " join ".toList ++ table⟩ :: L2.flatMap Link.elems,
              l.nextId + 1⟩, some l.nextId) ∧
      GoList.InsertAfter
          ⟨pre ++ x :: ⟨l.nextId, " join ".toList ++ table⟩ :: L2.flatMap Link.elems,
            l.nextId + 1⟩ (" on ".toList ++ cond) (some l.nextId) =
        .ok (⟨pre ++ x :: ⟨l.nextId, " join ".toList ++ table⟩ ::
                ⟨l.nextId + 1, " on ".toList ++ cond⟩ :: L2.flatMap Link.elems,
              l.nextId + 1 + 1⟩, some (l.nextId + 1)) ∧
      Rep ⟨pre ++ x :: ⟨l.nextId, " join ".toList ++ table⟩ ::
              ⟨l.nextId + 1, " on ".toList ++ cond⟩ :: L2.flatMap Link.elems, l.nextId + 1 + 1⟩
        (u.set table (some (l.nextId + 1))) anchor aid
        (L1 ++ ⟨table, cond, l.nextId, l.nextId + 1⟩ :: L2) := by
  obtain ⟨L1, L2, pre, x, hL, hget, hpre, hcase⟩ := h.split prev hp
  have helems : l.elems = pre ++ x :: L2.flatMap Link.elems := by
    rw [h.elems_eq, hL, List.flatMap_append, ← List.cons_append, ← hpre]
    simp
  have hids := h.elem_ids
  have hnd : (l.elems.map Element.id).Nodup := by rw [hids]; exact h.ids_nodup
  have hlt : ∀ y ∈ l.elems, y.id < l.nextId := by
    intro y hy
    apply h.ids_lt
    rw [← hids]
    exact List.mem_map_of_mem _ hy
  have hpre_ne : ∀ y ∈ pre, y.id ≠ x.id := by
    intro y hy heq
    rw [helems, List.map_append, List.map_cons, List.nodup_append] at hnd
    exact hnd.2.2 (List.mem_map_of_mem _ hy) (by rw [heq]; exact List.mem_cons_self _ _)
  have htab : table ≠ anchor ∧ table ∉ links.map Link.table := by
    have := (h.has_table_iff table).not.1 (by simp [ht])
    exact ⟨fun h1 => this (Or.inl h1), fun h1 => this (Or.inr h1)⟩
  refine ⟨L1, L2, pre, x, hL, hget, hpre, hcase, helems, ?_, ?_, ?_⟩
  · rw [hget]
    exact InsertAfter_split l _ x.id pre x _ helems hpre_ne rfl
  · have := InsertAfter_split
      ⟨pre ++ x :: ⟨l.nextId, " join ".toList ++ table⟩ :: L2.flatMap Link.elems, l.nextId + 1⟩
      (" on ".toList ++ cond) l.nextId (pre ++ [x]) ⟨l.nextId, " join ".toList ++ table⟩
      (L2.flatMap Link.elems) (by simp) ?_ rfl
    · simpa using this
    · intro y hy
      have : y ∈ l.elems := by
        rw [helems]
        simp only [List.mem_append, List.mem_singleton] at hy
        simp only [List.mem_append, List.mem_cons]
        rcases hy with hy | hy
        · exact Or.inl hy
        · exact Or.inr (Or.inl hy)
      exact Nat.ne_of_lt (hlt y this)
  · have hA : aid :: (L1 ++ L2).flatMap Link.ids = (aid :: L1.flatMap Link.ids) ++ L2.flatMap Link.ids := by
      simp [List.flatMap_append]
    have hfresh : ∀ n, l.nextId ≤ n → n ∉ (aid :: L1.flatMap Link.ids) ++ L2.flatMap Link.ids := by
      intro n hn hmem
      rw [← hA, ← hL] at hmem
      exact absurd (h.ids_lt n hmem) (by omega)
    constructor
    · show pre ++ x :: _ = _
      rw [List.flatMap_append, List.flatMap_cons, ← List.cons_append, ← hpre]
      simp [Link.elems]
    · have hnd0 := h.ids_nodup
      rw [hL, hA] at hnd0
      have e : aid :: (L1 ++ ⟨table, cond, l.nextId, l.nextId + 1⟩ :: L2).flatMap Link.ids =
          (aid :: L1.flatMap Link.ids) ++ l.nextId :: ([] ++ (l.nextId + 1) :: L2.flatMap Link.ids) := by
        simp [List.flatMap_append, Link.ids]
      rw [e, List.nodup_middle, List.nodup_cons]
      refine ⟨?_, ?_⟩
      · intro hmem
        simp only [List.nil_append, List.mem_append] at hmem
        have := hfresh l.nextId (le_refl _)
        simp only [List.mem_append] at this
        rcases hmem with hmem | hmem
        · exact this (Or.inl hmem)
        rw [List.mem_cons] at hmem
        rcases hmem with hmem | hmem
        · omega
        · exact this (Or.inr hmem)
      · rw [List.nil_append, List.nodup_middle, List.nodup_cons]
        exact ⟨hfresh _ (Nat.le_succ _), hnd0⟩
    · intro i hi
      have e : aid :: (L1 ++ ⟨table, cond, l.nextId, l.nextId + 1⟩ :: L2).flatMap Link.ids =
          (aid :: L1.flatMap Link.ids) ++ l.nextId :: (l.nextId + 1) :: L2.flatMap Link.ids := by
        simp [List.flatMap_append, Link.ids]
      rw [e] at hi
      show i < l.nextId + 1 + 1
      have hold : ∀ j, j ∈ (aid :: L1.flatMap Link.ids) ++ L2.flatMap Link.ids → j < l.nextId := by
        intro j hj
        rw [← hA, ← hL] at hj
        exact h.ids_lt j hj
      rw [List.mem_append] at hi
      rcases hi with hi | hi
      · have := hold i (List.mem_append_left _ hi); omega
      rw [List.mem_cons] at hi
      rcases hi with hi | hi
      · omega
      rw [List.mem_cons] at hi
      rcases hi with hi | hi
      · omega
      · have := hold i (List.mem_append_right _ hi); omega
    · have hnd0 := h.tables_nodup
      rw [hL] at hnd0 htab
      rw [List.map_append] at hnd0 htab
      rw [List.map_append, List.map_cons, ← List.cons_append, List.nodup_middle, List.nodup_cons]
      refine ⟨?_, by simpa using hnd0⟩
      simp only [List.cons_append, List.mem_cons, not_or]
      exact htab
    · intro t p
      rw [TableMap.lookup_set]
      by_cases htt : t = table
      · subst htt
        simp only [if_true, Option.some.injEq]
        constructor
        · intro hp
          exact Or.inr ⟨⟨t, cond, l.nextId, l.nextId + 1⟩, by simp, rfl, hp.symm⟩
        · rintro (⟨h1, -⟩ | ⟨k, hk, h1, h2⟩)
          · exact absurd h1 htab.1
          · simp only [List.mem_append, List.mem_cons] at hk
            rcases hk with hk | hk | hk
            · exact absurd (List.mem_map.2 ⟨k, by rw [hL]; simp [hk], h1⟩) htab.2
            · rw [h2, hk]
            · exact absurd (List.mem_map.2 ⟨k, by rw [hL]; simp [hk], h1⟩) htab.2
      · simp only [htt, if_false]
        rw [h.lookup_eq, hL]
        constructor
        · rintro (h1 | ⟨k, hk, h1, h2⟩)
          · exact Or.inl h1
          · refine Or.inr ⟨k, ?_, h1, h2⟩
            simp only [List.mem_append, List.mem_cons] at hk ⊢
            rcases hk with hk | hk
            · exact Or.inl hk
            · exact Or.inr (Or.inr hk)
        · rintro (h1 | ⟨k, hk, h1, h2⟩)
          · exact Or.inl h1
          · refine Or.inr ⟨k, ?_, h1, h2⟩
            simp only [List.mem_append, List.mem_cons] at hk ⊢
            rcases hk with hk | hk | hk
            · exact Or.inl hk
            · subst hk; exact absurd h1.symm htt
            · exact Or.inr hk

/-! ## Provenance of the pairs -/

theorem Linked.mono_seen (F : List Filter) :
    ∀ (L : List (Str × Str)) (seen seen' : List Str),
      (∀ x ∈ seen, x ∈ seen') → Linked F seen L → Linked F seen' L := by
  intro L
  induction L with
  | nil => intro _ _ _ _; trivial
  | cons a L ih =>
    intro seen seen' hsub h
    obtain ⟨t, c⟩ := a
    obtain ⟨⟨f, hf, p, hp, hi⟩, hrest⟩ := h
    refine ⟨⟨f, hf, p, hsub p hp, hi⟩, ih _ _ ?_ hrest⟩
    intro x hx
    rcases List.mem_cons.1 hx with hx | hx
    · exact List.mem_cons.2 (Or.inl hx)
    · exact List.mem_cons.2 (Or.inr (hsub x hx))

theorem Linked.insert_pair (F : List Filter) (t c : Str) (B : List (Str × Str)) :
    ∀ (A : List (Str × Str)) (seen : List Str),
      Linked F seen (A ++ B) →
      (∃ f ∈ F, ∃ p, (p ∈ seen ∨ p ∈ A.map Prod.fst) ∧ Introduces f p t c) →
      Linked F seen (A ++ (t, c) :: B) := by
  intro A
  induction A with
  | nil =>
    intro seen h ⟨f, hf, p, hp, hi⟩
    refine ⟨⟨f, hf, p, ?_, hi⟩, Linked.mono_seen F B seen _ (fun x hx => List.mem_cons_of_mem _ hx) h⟩
    rcases hp with hp | hp
    · exact hp
    · simp at hp
  | cons a A ih =>
    intro seen h ⟨f, hf, p, hp, hi⟩
    obtain ⟨t', c'⟩ := a
    obtain ⟨h1, h2⟩ := h
    refine ⟨h1, ih (t' :: seen) h2 ⟨f, hf, p, ?_, hi⟩⟩
    rcases hp with hp | hp
    · exact Or.inl (List.mem_cons_of_mem _ hp)
    · rcases List.mem_cons.1 hp with hp | hp
      · exact Or.inl (List.mem_cons.2 (Or.inl hp))
      · exact Or.inr hp

theorem Linked.mono_filters (F F' : List Filter) (hF : ∀ f ∈ F, f ∈ F') :
    ∀ (L : List (Str × Str)) (seen : List Str), Linked F seen L → Linked F' seen L := by
  intro L
  induction L with
  | nil => intro _ _; trivial
  | cons a L ih =>
    intro seen h
    obtain ⟨t, c⟩ := a
    obtain ⟨⟨f, hf, p, hp, hi⟩, hrest⟩ := h
    exact ⟨⟨f, hF f hf, p, hp, hi⟩, ih _ hrest⟩

theorem Linked.at (F : List Filter) :
    ∀ (L : List (Str × Str)) (seen : List Str), Linked F seen L →
      ∀ (n : Nat) (t c : Str), L[n]? = some (t, c) →
        ∃ f ∈ F, ∃ p, (p ∈ seen ∨ p ∈ (L.take n).map Prod.fst) ∧ Introduces f p t c := by
  intro L
  induction L with
  | nil => intro seen _ n t c hn; simp at hn
  | cons a L ih =>
    intro seen h n t c hn
    obtain ⟨t', c'⟩ := a
    obtain ⟨⟨f, hf, p, hp, hi⟩, hrest⟩ := h
    cases n with
    | zero =>
      simp only [List.getElem?_cons_zero, Option.some.injEq, Prod.mk.injEq] at hn
      obtain ⟨rfl, rfl⟩ := hn
      exact ⟨f, hf, p, Or.inl hp, hi⟩
    | succ n =>
      simp only [List.getElem?_cons_succ] at hn
      obtain ⟨g, hg, q, hq, hi'⟩ := ih _ hrest n t c hn
      refine ⟨g, hg, q, ?_, hi'⟩
      rcases hq with hq | hq
      · rcases List.mem_cons.1 hq with hq | hq
        · exact Or.inr (by simp [hq])
        · exact Or.inl hq
      · exact Or.inr (by simp only [List.take_succ_cons, List.map_cons]; exact List.mem_cons_of_mem _ hq)

/-! ## `sqlJoin` on a well-formed chain -/

theorem sqlJoinBody_skip (f : Filter) (i : Nat) (l : GoList) (u : TableMap) (table : Str)
    (hti : f.Tables[i]? = some table) (ht : u.has table = true) :
    sqlJoinBody f i l u = .ok (l, u) := by
  simp [sqlJoinBody, hti, ht]

theorem sqlJoinBody_spec {l : GoList} {u : TableMap} {anchor : Str} {aid : Nat}
    {links : List Link} (h : Rep l u anchor aid links) (f : Filter) (i : Nat)
    (table prev : Str) (hti : f.Tables[i]? = some table) (hpi : f.Tables[i - 1]? = some prev)
    (hp : u.has prev = true) (ht : u.has table = false) :
    (f.JoinsOn[i - 1]? = none ∧ sqlJoinBody f i l u = .error .indexOutOfRange) ∨
    ∃ cond L1 L2 l2, f.JoinsOn[i - 1]? = some cond ∧ links = L1 ++ L2 ∧
      (prev = anchor ∨ prev ∈ L1.map Link.table) ∧
      sqlJoinBody f i l u = .ok (l2, u.set table (some (l.nextId + 1))) ∧
      Rep l2 (u.set table (some (l.nextId + 1))) anchor aid
        (L1 ++ ⟨table, cond, l.nextId, l.nextId + 1⟩ :: L2) := by
  cases hc : f.JoinsOn[i - 1]? with
  | none =>
    left
    obtain ⟨L1, L2, pre, x, -, -, -, -, -, hins1, -, -⟩ := h.insert prev table [] hp ht
    simp only [sqlJoinBody, hti, ht, hpi, hins1, hc, Bool.false_eq_true, if_false, and_self]
  | some cond =>
    right
    obtain ⟨L1, L2, pre, x, hL, -, -, hcase, -, hins1, hins2, hrep⟩ :=
      h.insert prev table cond hp ht
    refine ⟨cond, L1, L2, _, rfl, hL, ?_, ?_, hrep⟩
    · rcases hcase with ⟨h1, -⟩ | ⟨L0, k0, h1, h2, -⟩
      · exact Or.inl h1
      · exact Or.inr (by rw [h1]; simp [h2])
    · simp only [sqlJoinBody, hti, ht, hpi, hins1, hc, hins2, Bool.false_eq_true, if_false]

theorem mem_drop_of_getElem? {α : Type} :
    ∀ (L : List α) (i : Nat) (a : α), L[i]? = some a →
      ∀ t, t ∈ L.drop i ↔ t = a ∨ t ∈ L.drop (i + 1) := by
  intro L
  induction L with
  | nil => intro i a h; simp at h
  | cons x L ih =>
    intro i a h t
    cases i with
    | zero =>
      simp only [List.getElem?_cons_zero, Option.some.injEq] at h
      subst h
      simp
    | succ i =>
      simp only [List.getElem?_cons_succ] at h
      simpa using ih i a h t

theorem sqlJoinLoop_spec (F : List Filter) (f : Filter) (hf : f ∈ F) (anchor : Str) :
    ∀ (n i : Nat) (l : GoList) (u : TableMap), ChainInv F anchor l u → 1 ≤ i →
      i + n = f.Tables.length →
      (∃ prev, f.Tables[i - 1]? = some prev ∧ u.has prev = true) →
      (∃ l' u', sqlJoinLoop f n i l u = .ok (l', u') ∧ ChainInv F anchor l' u' ∧
        ∀ t, u'.has t = true ↔ (u.has t = true ∨ t ∈ f.Tables.drop i)) ∨
      (sqlJoinLoop f n i l u = .error .indexOutOfRange ∧
        f.JoinsOn.length + 1 < f.Tables.length) := by
  intro n
  induction n with
  | zero =>
    intro i l u hinv _ hlen _
    left
    refine ⟨l, u, rfl, hinv, ?_⟩
    intro t
    have : f.Tables.drop i = [] := List.drop_eq_nil_of_le (by omega)
    simp [this]
  | succ n ih =>
    intro i l u hinv hi hlen ⟨prev, hpi, hp⟩
    have hlt : i < f.Tables.length := by omega
    obtain ⟨table, hti⟩ : ∃ table, f.Tables[i]? = some table :=
      ⟨f.Tables[i], List.getElem?_eq_getElem hlt⟩
    have hdrop := mem_drop_of_getElem? f.Tables i table hti
    have hti' : f.Tables[i + 1 - 1]? = some table := by simpa using hti
    by_cases ht : u.has table = true
    · have hbody := sqlJoinBody_skip f i l u table hti ht
      rcases ih (i + 1) l u hinv (by omega) (by omega) ⟨table, hti', ht⟩ with
        ⟨l', u', hloop, hinv', hkeys⟩ | ⟨hloop, hbad⟩
      · left
        refine ⟨l', u', by simp only [sqlJoinLoop, hbody, hloop], hinv', ?_⟩
        intro t
        rw [hkeys, hdrop]
        constructor
        · rintro (h1 | h1)
          · exact Or.inl h1
          · exact Or.inr (Or.inr h1)
        · rintro (h1 | h1 | h1)
          · exact Or.inl h1
          · exact Or.inl (h1 ▸ ht)
          · exact Or.inr h1
      · right
        exact ⟨by simp only [sqlJoinLoop, hbody, hloop], hbad⟩
    · have ht' : u.has table = false := by simpa using ht
      obtain ⟨aid, links, hrep, hlinked⟩ := hinv
      rcases sqlJoinBody_spec hrep f i table prev hti hpi hp ht' with
        ⟨hnone, hbody⟩ | ⟨cond, L1, L2, l2, hc, hL, hprev, hbody, hrep2⟩
      · right
        refine ⟨by simp only [sqlJoinLoop, hbody], ?_⟩
        have := List.getElem?_eq_none_iff.1 hnone
        omega
      · have hinv2 : ChainInv F anchor l2 (u.set table (some (l.nextId + 1))) := by
          refine ⟨aid, _, hrep2, ?_⟩
          rw [List.map_append, List.map_cons]
          rw [hL, List.map_append] at hlinked
          refine Linked.insert_pair F table cond _ _ _ hlinked ⟨f, hf, prev, ?_, i - 1, hpi, ?_, hc⟩
          · rcases hprev with h1 | h1
            · exact Or.inl (by simp [h1])
            · right
              obtain ⟨k, hk, hkt⟩ := List.mem_map.1 h1
              exact List.mem_map.2 ⟨k.pair, List.mem_map_of_mem _ hk, hkt⟩
          · have : i - 1 + 1 = i := by omega
            rw [this]; exact hti
        have hset : (u.set table (some (l.nextId + 1))).has table = true := by
          rw [TableMap.has_set]; exact Or.inl rfl
        rcases ih (i + 1) l2 _ hinv2 (by omega) (by omega) ⟨table, hti', hset⟩ with
          ⟨l', u', hloop, hinv', hkeys⟩ | ⟨hloop, hbad⟩
        · left
          refine ⟨l', u', by simp only [sqlJoinLoop, hbody, hloop], hinv', ?_⟩
          intro t
          rw [hkeys, hdrop, TableMap.has_set]
          constructor
          · rintro ((h1 | h1) | h1)
            · exact Or.inr (Or.inl h1)
            · exact Or.inl h1
            · exact Or.inr (Or.inr h1)
          · rintro (h1 | h1 | h1)
            · exact Or.inl (Or.inr h1)
            · exact Or.inl (Or.inl h1)
            · exact Or.inr h1
        · right
          exact ⟨by simp only [sqlJoinLoop, hbody, hloop], hbad⟩

theorem sqlJoin_spec (F : List Filter) (f : Filter) (hf : f ∈ F) (anchor : Str)
    (l : GoList) (u : TableMap) (hinv : ChainInv F anchor l u) (first : Str) (tl : List Str)
    (hT : f.Tables = first :: tl) :
    (u.has first = false ∧
      sqlJoin f l u = .ok (l, u, some (.CannotJoinTablesErr first u.keys))) ∨
    (u.has first = true ∧ ∃ l' u', sqlJoin f l u = .ok (l', u', none) ∧
      ChainInv F anchor l' u' ∧ ∀ t, u'.has t = true ↔ (u.has t = true ∨ t ∈ f.Tables)) ∨
    (u.has first = true ∧ sqlJoin f l u = .error .indexOutOfRange ∧
      f.JoinsOn.length + 1 < f.Tables.length) := by
  have h0 : f.Tables[0]? = some first := by rw [hT]; simp
  by_cases hfirst : u.has first = true
  · right
    rcases sqlJoinLoop_spec F f hf anchor (f.Tables.length - 1) 1 l u hinv (le_refl _)
        (by rw [hT]; simp; omega) ⟨first, by simpa using h0, hfirst⟩ with
      ⟨l', u', hloop, hinv', hkeys⟩ | ⟨hloop, hbad⟩
    · left
      refine ⟨hfirst, l', u', by simp only [sqlJoin, h0, hfirst, hloop, Bool.not_true,
        Bool.false_eq_true, if_false], hinv', ?_⟩
      intro t
      rw [hkeys, hT]
      simp only [List.drop_succ_cons, List.drop_zero, List.mem_cons]
      constructor
      · rintro (h1 | h1)
        · exact Or.inl h1
        · exact Or.inr (Or.inr h1)
      · rintro (h1 | h1 | h1)
        · exact Or.inl h1
        · exact Or.inl (h1 ▸ hfirst)
        · exact Or.inr h1
    · right
      exact ⟨hfirst, by simp only [sqlJoin, h0, hfirst, hloop, Bool.not_true,
        Bool.false_eq_true, if_false], hbad⟩
  · left
    have hfirst' : u.has first = false := by simpa using hfirst
    exact ⟨hfirst', by simp only [sqlJoin, h0, hfirst', Bool.not_false, if_true]⟩

/-! ## The chain across the filter loop -/

theorem seed_rep (α : Type) (anchor : Str) :
    Rep (seed α anchor).filterList (seed α anchor).usedTables anchor 0 [] := by
  refine ⟨rfl, by simp, by simp [seed, GoList.PushBack, GoList.New], by simp, ?_⟩
  intro t p
  simp only [seed, GoList.PushBack, GoList.New]
  rw [TableMap.lookup_set]
  by_cases h : t = anchor
  · simp [h, eq_comm]
  · simp [h]

theorem seed_inv (α : Type) (F : List Filter) (anchor : Str) :
    ChainInv F anchor (seed α anchor).filterList (seed α anchor).usedTables :=
  ⟨0, [], seed_rep α anchor, trivial⟩

theorem seed_has (α : Type) (anchor t : Str) :
    (seed α anchor).usedTables.has t = true ↔ t = anchor := by
  rw [(seed_rep α anchor).has_table_iff]
  simp

theorem mem_resolved_cons {reg : Str → Option Filter} {key : Str} (rest : List Str)
    {filter : Filter} (h : reg key = some filter) :
    resolved reg (key :: rest) = filter :: resolved reg rest := by
  simp [resolved, List.filterMap_cons, h]

theorem filterLoop_chain {α : Type} (reg : Str → Option Filter) (args : List (List α))
    (F : List Filter) (anchor : Str) :
    ∀ (filters : List Str) (s s' : Session α),
      filterLoop reg args filters s = .ok s' →
      (∀ f ∈ resolved reg filters, f ∈ F) →
      ChainInv F anchor s.filterList s.usedTables →
      ChainInv F anchor s'.filterList s'.usedTables ∧
        ∀ t, s'.usedTables.has t = true ↔
          (s.usedTables.has t = true ∨ ∃ f ∈ resolved reg filters, t ∈ f.Tables) := by
  intro filters
  induction filters with
  | nil =>
    intro s s' h _ hinv
    simp only [filterLoop, Except.ok.injEq] at h
    subst h
    exact ⟨hinv, by simp [resolved]⟩
  | cons key rest ih =>
    intro s s' h hF hinv
    obtain ⟨filter, l1, u1, argInd1, retArgs1, wheres1, hreg, hne, hj, -, hrest⟩ :=
      filterLoop_cons_ok h
    have hres := mem_resolved_cons rest hreg
    rw [hres] at hF
    obtain ⟨first, tl, hT⟩ : ∃ first tl, filter.Tables = first :: tl := by
      cases hT : filter.Tables with
      | nil => exact absurd hT hne
      | cons a b => exact ⟨a, b, rfl⟩
    rcases sqlJoin_spec F filter (hF _ (List.mem_cons_self _ _)) anchor _ _ hinv first tl hT with
      ⟨-, hbad⟩ | ⟨-, l', u', hok, hinv', hkeys⟩ | ⟨-, hbad, -⟩
    · rw [hbad] at hj; simp at hj
    · rw [hok] at hj
      simp only [Except.ok.injEq, Prod.mk.injEq, and_true] at hj
      obtain ⟨rfl, rfl⟩ := hj
      obtain ⟨h1, h2⟩ := ih _ _ hrest (fun f hf => hF f (List.mem_cons_of_mem _ hf)) hinv'
      refine ⟨h1, ?_⟩
      intro t
      rw [h2, hres]
      simp only [hkeys, List.mem_cons, exists_eq_or_imp]
      exact or_assoc
    · rw [hbad] at hj; simp at hj

theorem render_links : ∀ links : List Link,
    ((links.flatMap Link.elems).map Element.Value).flatten =
      (links.map Link.pair).flatMap
        (fun p => " join ".toList ++ p.1 ++ " on ".toList ++ p.2) := by
  intro links
  induction links with
  | nil => rfl
  | cons k ks ih =>
    rw [List.flatMap_cons, List.map_append, List.flatten_append, ih, List.map_cons,
      List.flatMap_cons]
    simp [Link.elems, Link.pair]

/-- The rendering of a chain: the anchor, then `" join T on C"` for every pair. -/
theorem Rep.render {l : GoList} {u : TableMap} {anchor : Str} {aid : Nat} {links : List Link}
    (h : Rep l u anchor aid links) :
    l.render = anchor ++ (links.map Link.pair).flatMap
      (fun p => " join ".toList ++ p.1 ++ " on ".toList ++ p.2) := by
  unfold GoList.render
  rw [h.elems_eq, List.map_cons, List.flatten_cons, render_links]

/-- What a successful run leaves: the final session, its chain and the
facts that tie the chain to the composed filters. -/
theorem CreateQuery_ok_chain {α : Type} {reg : Str → Option Filter} {filters : List Str}
    {args : List (List α)} {q : Str} {a : List α}
    (h : CreateQuery reg filters args = .returned q a none) :
    ∃ (f0 : Filter) (more : List Filter) (anchor : Str) (tl : List Str) (s : Session α)
      (aid : Nat) (links : List Link),
      resolved reg filters = f0 :: more ∧ f0.Tables = anchor :: tl ∧
      q = Sprintf (Join s.selectsSlice ", ".toList) s.filterList.render
            (Join s.wheresSlice " and ".toList) ∧
      Rep s.filterList s.usedTables anchor aid links ∧
      Linked (resolved reg filters) [anchor] (links.map Link.pair) ∧
      (∀ t, (t = anchor ∨ t ∈ links.map Link.table) ↔
        ∃ f ∈ resolved reg filters, t ∈ f.Tables) ∧
      filterLoop reg args filters (seed α anchor) = .ok s ∧
      s.argInd = args.length ∧ a = s.retArgs := by
  obtain ⟨key0, rest, firstFilter, anchor, tl, s, hf, hreg, hT, hl, hlt, hq, ha⟩ :=
    CreateQuery_ok_inv h
  have hind : s.argInd = args.length := by
    have := (filterLoop_args reg args filters _ s hl (Nat.zero_le _) (by simp [seed])).1
    omega
  obtain ⟨⟨aid, links, hrep, hlinked⟩, hkeys⟩ :=
    filterLoop_chain reg args (resolved reg filters) anchor filters _ s hl (fun f hf => hf)
      (seed_inv α _ anchor)
  have hres : resolved reg filters = firstFilter :: resolved reg rest := by
    rw [hf]; exact mem_resolved_cons rest hreg
  refine ⟨firstFilter, resolved reg rest, anchor, tl, s, aid, links, hres, hT, hq, hrep,
    hlinked, ?_, hl, hind, ha⟩
  intro t
  rw [← hrep.has_table_iff, hkeys, seed_has]
  constructor
  · rintro (h1 | h1)
    · exact ⟨firstFilter, by rw [hres]; exact List.mem_cons_self _ _, by rw [hT, h1]; simp⟩
    · exact h1
  · exact Or.inr

/-! ## The join chain: C2, C3, C4 -/

theorem testChain_run :
    (filterLoop testReg [[1], [2], [3]] testNames (seed Nat "t1".toList)).map
        (fun s => s.filterList.render) =
      .ok ("t1 join t3 on t1.t3_id = t3.id join t4 on t3.t4_id = t4.id" ++
        " join t2 on t1.t2_id = t2.id").toList := by
  rfl

/-- C2: in `sqlJoin`, on a chain state as `CreateQuery` builds it (`Rep`, kept by
every step, see `filterLoop_chain`), for a table `Tables[i]` that is not yet in the chain, the
fragments `" join <Tables[i]>"` and `" on <JoinsOn[i-1]>"` are inserted, adjacent
and in that order, right after the element recorded for `Tables[i-1]` (the seed
element, or the `" on"` element of that table's own pair) and ahead of all that
followed it; the new `" on"` element is recorded for `Tables[i]`.  Composing
`f1`, `f2`, `f3` renders the chain `t1 join t3 ... join t4 ... join t2 ...`. -/
theorem sqlJoinBody_inserts {l : GoList} {u : TableMap} {anchor : Str} {aid : Nat}
    {links : List Link} (h : Rep l u anchor aid links) (f : Filter) (i : Nat)
    (table prev cond : Str) (hti : f.Tables[i]? = some table)
    (hpi : f.Tables[i - 1]? = some prev) (hc : f.JoinsOn[i - 1]? = some cond)
    (hp : u.has prev = true) (ht : u.has table = false) :
    (∃ (pre : List Element) (x : Element) (post : List Element),
      l.elems = pre ++ x :: post ∧ u.get prev = some x.id ∧
      ((pre = [] ∧ x.Value = prev) ∨
        ∃ jid c0, pre.getLast? = some ⟨jid, " join ".toList ++ prev⟩ ∧
          x.Value = " on ".toList ++ c0) ∧
      sqlJoinBody f i l u =
        .ok (⟨pre ++ x :: ⟨l.nextId, " join ".toList ++ table⟩ ::
                ⟨l.nextId + 1, " on ".toList ++ cond⟩ :: post, l.nextId + 1 + 1⟩,
              u.set table (some (l.nextId + 1)))) ∧
    (filterLoop testReg [[1], [2], [3]] testNames (seed Nat "t1".toList)).map
        (fun s => s.filterList.render) =
      .ok ("t1 join t3 on t1.t3_id = t3.id join t4 on t3.t4_id = t4.id" ++
        " join t2 on t1.t2_id = t2.id").toList := by
  refine ⟨?_, testChain_run⟩
  obtain ⟨L1, L2, pre, x, -, hget, -, hcase, helems, hins1, hins2, -⟩ :=
    h.insert prev table cond hp ht
  refine ⟨pre, x, L2.flatMap Link.elems, helems, hget, ?_, ?_⟩
  · rcases hcase with ⟨h1, -, h2, h3⟩ | ⟨L0, k0, -, h1, h2, h3⟩
    · left
      exact ⟨h2, by rw [h3, h1]⟩
    · right
      refine ⟨k0.joinId, k0.cond, ?_, by rw [h3]⟩
      rw [h2, ← h1]
      exact List.getLast?_concat _
  · simp only [sqlJoinBody, hti, ht, hpi, hins1, hc, hins2, Bool.false_eq_true, if_false]

/-- C2 at the seeded chain of `t1` and the table `t2` of `f1`. -/
theorem sqlJoinBody_inserts_witness :
    (∃ (pre : List Element) (x : Element) (post : List Element),
      (seed Nat "t1".toList).filterList.elems = pre ++ x :: post ∧
      (seed Nat "t1".toList).usedTables.get "t1".toList = some x.id ∧
      ((pre = [] ∧ x.Value = "t1".toList) ∨
        ∃ jid c0, pre.getLast? = some ⟨jid, " join ".toList ++ "t1".toList⟩ ∧
          x.Value = " on ".toList ++ c0) ∧
      sqlJoinBody f1 1 (seed Nat "t1".toList).filterList (seed Nat "t1".toList).usedTables =
        .ok (⟨pre ++ x :: ⟨(seed Nat "t1".toList).filterList.nextId,
                  " join ".toList ++ "t2".toList⟩ ::
                ⟨(seed Nat "t1".toList).filterList.nextId + 1,
                  " on ".toList ++ "t1.t2_id = t2.id".toList⟩ :: post,
              (seed Nat "t1".toList).filterList.nextId + 1 + 1⟩,
              (seed Nat "t1".toList).usedTables.set "t2".toList
                (some ((seed Nat "t1".toList).filterList.nextId + 1)))) ∧
    (filterLoop testReg [[1], [2], [3]] testNames (seed Nat "t1".toList)).map
        (fun s => s.filterList.render) =
      .ok ("t1 join t3 on t1.t3_id = t3.id join t4 on t3.t4_id = t4.id" ++
        " join t2 on t1.t2_id = t2.id").toList :=
  sqlJoinBody_inserts (seed_rep Nat "t1".toList) f1 1 "t2".toList "t1".toList
    "t1.t2_id = t2.id".toList rfl rfl rfl rfl rfl

/-- C3: on success the chain is the first filter's anchor followed by
`(" join T", " on C")` pairs, each pair unbroken, and for every pair the filter
that introduced `T` lists `T` right after a table that occurs earlier in the
chain, as the anchor or as the table of an earlier pair. -/
theorem CreateQuery_chain_shape {α : Type} (reg : Str → Option Filter) (filters : List Str)
    (args : List (List α)) (q : Str) (a : List α)
    (h : CreateQuery reg filters args = .returned q a none) :
    ∃ (f0 : Filter) (more : List Filter) (anchor : Str) (tl : List Str)
      (pairs : List (Str × Str)) (cols wheres : Str),
      resolved reg filters = f0 :: more ∧ f0.Tables = anchor :: tl ∧
      q = Sprintf cols
            (anchor ++ pairs.flatMap (fun p => " join ".toList ++ p.1 ++ " on ".toList ++ p.2))
            wheres ∧
      ∀ (n : Nat) (T C : Str), pairs[n]? = some (T, C) →
        ∃ f ∈ resolved reg filters, ∃ p,
          (p = anchor ∨ p ∈ (pairs.take n).map Prod.fst) ∧ Introduces f p T C := by
  obtain ⟨f0, more, anchor, tl, s, aid, links, hres, hT, hq, hrep, hlinked, -, -⟩ :=
    CreateQuery_ok_chain h
  refine ⟨f0, more, anchor, tl, links.map Link.pair, Join s.selectsSlice ", ".toList,
    Join s.wheresSlice " and ".toList, hres, hT, ?_, ?_⟩
  · rw [hq, hrep.render]
  · intro n T C hn
    obtain ⟨f, hf, p, hp, hi⟩ := Linked.at _ _ _ hlinked n T C hn
    refine ⟨f, hf, p, ?_, hi⟩
    rcases hp with hp | hp
    · exact Or.inl (by simpa using hp)
    · exact Or.inr hp

/-- C3 at the filters `f1`, `f2`, `f3` of the test. -/
theorem CreateQuery_chain_shape_witness :
    ∃ (f0 : Filter) (more : List Filter) (anchor : Str) (tl : List Str)
      (pairs : List (Str × Str)) (cols wheres : Str),
      resolved testReg testNames = f0 :: more ∧ f0.Tables = anchor :: tl ∧
      testQuery = Sprintf cols
            (anchor ++ pairs.flatMap (fun p => " join ".toList ++ p.1 ++ " on ".toList ++ p.2))
            wheres ∧
      ∀ (n : Nat) (T C : Str), pairs[n]? = some (T, C) →
        ∃ f ∈ resolved testReg testNames, ∃ p,
          (p = anchor ∨ p ∈ (pairs.take n).map Prod.fst) ∧ Introduces f p T C :=
  CreateQuery_chain_shape testReg testNames [[1], [2], [3]] testQuery [1, 2, 3] testQuery_run


/-! ## Stepping the filter loop -/

theorem filterLoop_append {α : Type} (reg : Str → Option Filter) (args : List (List α))
    (B : List Str) :
    ∀ (A : List Str) (s : Session α),
      filterLoop reg args (A ++ B) s =
        match filterLoop reg args A s with
        | .ok s' => filterLoop reg args B s'
        | .error e => .error e := by
  intro A
  induction A with
  | nil => intro s; rfl
  | cons key rest ih =>
    intro s
    simp only [List.cons_append, filterLoop]
    cases reg key with
    | none => rfl
    | some filter =>
      simp only
      by_cases hz : filter.Tables.length = 0
      · simp only [hz, if_true]
      · simp only [hz, if_false]
        cases sqlJoin filter s.filterList s.usedTables with
        | error p => rfl
        | ok r =>
          obtain ⟨l1, u1, e⟩ := r
          cases e with
          | some e => rfl
          | none =>
            simp only
            cases whereLoop args filter.WhereClauses (s.argInd, s.retArgs, s.wheresSlice) with
            | error st => rfl
            | ok r =>
              obtain ⟨argInd1, retArgs1, wheres1⟩ := r
              exact ih _

theorem filterLoop_cons_join_err {α : Type} (reg : Str → Option Filter) (args : List (List α))
    (key : Str) (rest : List Str) (s : Session α) (f : Filter) (l : GoList) (u : TableMap)
    (e : Err) (hreg : reg key = some f) (hne : f.Tables ≠ [])
    (hj : sqlJoin f s.filterList s.usedTables = .ok (l, u, some e)) :
    filterLoop reg args (key :: rest) s = .error (.err e) := by
  have hz : ¬ f.Tables.length = 0 := fun h => hne (List.length_eq_zero.1 h)
  simp only [filterLoop, hreg, hz, if_false, hj]

theorem CreateQuery_of_loop_err {α : Type} (reg : Str → Option Filter) (args : List (List α))
    (key0 : Str) (rest : List Str) (f0 : Filter) (anchor : Str) (tl : List Str) (e : Err)
    (h0 : reg key0 = some f0) (hT0 : f0.Tables = anchor :: tl)
    (hl : filterLoop reg args (key0 :: rest) (seed α anchor) = .error (.err e)) :
    CreateQuery reg (key0 :: rest) args = .returned [] [] (some e) := by
  simp only [CreateQuery, h0, hT0, hl]

/-- C9: when the filters before index `k ≥ 1` are processed without error and
the anchor of filter `k` is not among their tables, `CreateQuery` returns the
empty statement, nil arguments and an `ErrCannotJoin` error naming that anchor;
`sqlJoin` on the first filter never returns an error. -/
theorem CreateQuery_unreachable_anchor {α : Type} (reg : Str → Option Filter)
    (args : List (List α)) (key0 : Str) (pre : List Str) (key : Str) (post : List Str)
    (f0 f : Filter) (anchor : Str) (tl0 : List Str) (t0 : Str) (ts : List Str)
    (h0 : reg key0 = some f0) (hT0 : f0.Tables = anchor :: tl0)
    (hk : reg key = some f) (hT : f.Tables = t0 :: ts)
    (hnot : ∀ g ∈ resolved reg (key0 :: pre), t0 ∉ g.Tables)
    (hpre : ∃ s, filterLoop reg args (key0 :: pre) (seed α anchor) = .ok s) :
    (∃ keys e, e = Err.CannotJoinTablesErr t0 keys ∧ e.kind = .ErrCannotJoin ∧
      CreateQuery reg (key0 :: pre ++ key :: post) args = .returned [] [] (some e)) ∧
    ∀ l u e, sqlJoin f0 (seed α anchor).filterList (seed α anchor).usedTables ≠
      .ok (l, u, some e) := by
  constructor
  · obtain ⟨s, hs⟩ := hpre
    obtain ⟨hinv, hkeys⟩ := filterLoop_chain reg args (f :: resolved reg (key0 :: pre)) anchor
      (key0 :: pre) _ s hs (fun g hg => List.mem_cons_of_mem _ hg) (seed_inv α _ anchor)
    have hf0 : f0 ∈ resolved reg (key0 :: pre) := by
      rw [mem_resolved_cons pre h0]; exact List.mem_cons_self _ _
    have hhas : s.usedTables.has t0 = false := by
      cases hh : s.usedTables.has t0 with
      | false => rfl
      | true =>
        exfalso
        rcases (hkeys t0).1 hh with h1 | ⟨g, hg, hgt⟩
        · have := (seed_has α anchor t0).1 h1
          exact hnot f0 hf0 (by rw [hT0, this]; exact List.mem_cons_self _ _)
        · exact hnot g hg hgt
    rcases sqlJoin_spec _ f (List.mem_cons_self _ _) anchor _ _ hinv t0 ts hT with
      ⟨-, hbad⟩ | ⟨h1, -⟩ | ⟨h1, -⟩
    · refine ⟨s.usedTables.keys, _, rfl, rfl, ?_⟩
      have hloop : filterLoop reg args (key0 :: (pre ++ key :: post)) (seed α anchor) =
          .error (.err (.CannotJoinTablesErr t0 s.usedTables.keys)) := by
        rw [← List.cons_append, filterLoop_append, hs]
        exact filterLoop_cons_join_err reg args key post s f _ _ _ hk (by rw [hT]; simp) hbad
      exact CreateQuery_of_loop_err reg args key0 _ f0 anchor tl0 _ h0 hT0 hloop
    · rw [hhas] at h1; simp at h1
    · rw [hhas] at h1; simp at h1
  · intro l u e hj
    have hseed : (seed α anchor).usedTables.has anchor = true := (seed_has α anchor anchor).2 rfl
    rcases sqlJoin_spec [f0] f0 (List.mem_cons_self _ _) anchor _ _ (seed_inv α _ anchor)
        anchor tl0 hT0 with ⟨h1, -⟩ | ⟨-, l', u', hok, -⟩ | ⟨-, hbad, -⟩
    · rw [hseed] at h1; simp at h1
    · rw [hok] at hj; simp at hj
    · rw [hbad] at hj; simp at hj

/-- C9 at the name list `f1`, `f6`: the anchor `table` of `f6` is no table of `f1`. -/
theorem CreateQuery_unreachable_anchor_witness :
    (∃ keys e, e = Err.CannotJoinTablesErr "table".toList keys ∧ e.kind = .ErrCannotJoin ∧
      CreateQuery testReg ("f1".toList :: [] ++ "f6".toList :: []) [[1]] =
        .returned [] [] (some e)) ∧
    ∀ l u e, sqlJoin f1 (seed Nat "t1".toList).filterList (seed Nat "t1".toList).usedTables ≠
      .ok (l, u, some e) :=
  CreateQuery_unreachable_anchor testReg [[1]] "f1".toList [] "f6".toList [] f1 f6
    "t1".toList ["t2".toList] "table".toList [] rfl rfl rfl rfl (by decide) ⟨_, rfl⟩

/-! ## C10: violations of `len(JoinsOn) == len(Tables) - 1` -/

theorem sqlJoinBody_trim (f : Filter) (i : Nat) (hi : 1 ≤ i) (l : GoList) (u : TableMap) :
    sqlJoinBody (trimJoins f) i l u = sqlJoinBody f i l u := by
  unfold sqlJoinBody
  have hT : (trimJoins f).Tables = f.Tables := rfl
  rw [hT]
  cases hti : f.Tables[i]? with
  | none => rfl
  | some table =>
    have hlt : i < f.Tables.length := by
      by_contra hge
      rw [List.getElem?_eq_none (by omega)] at hti
      exact absurd hti (by simp)
    have hJ : (trimJoins f).JoinsOn[i - 1]? = f.JoinsOn[i - 1]? := by
      show (f.JoinsOn.take (f.Tables.length - 1))[i - 1]? = f.JoinsOn[i - 1]?
      exact List.getElem?_take_of_lt (by omega)
    rw [hJ]

theorem sqlJoinLoop_trim (f : Filter) :
    ∀ (n i : Nat), 1 ≤ i → ∀ (l : GoList) (u : TableMap),
      sqlJoinLoop (trimJoins f) n i l u = sqlJoinLoop f n i l u := by
  intro n
  induction n with
  | zero => intro i _ l u; rfl
  | succ n ih =>
    intro i hi l u
    simp only [sqlJoinLoop, sqlJoinBody_trim f i hi]
    cases sqlJoinBody f i l u with
    | error p => rfl
    | ok r => exact ih (i + 1) (by omega) _ _

theorem sqlJoin_trim (f : Filter) (l : GoList) (u : TableMap) :
    sqlJoin (trimJoins f) l u = sqlJoin f l u := by
  unfold sqlJoin
  have hT : (trimJoins f).Tables = f.Tables := rfl
  rw [hT, sqlJoinLoop_trim f _ 1 (le_refl _)]

theorem filterLoop_trim {α : Type} (reg : Str → Option Filter) (args : List (List α)) :
    ∀ (filters : List Str) (s : Session α),
      filterLoop (fun key => (reg key).map trimJoins) args filters s =
        filterLoop reg args filters s := by
  intro filters
  induction filters with
  | nil => intro s; rfl
  | cons key rest ih =>
    intro s
    simp only [filterLoop]
    cases reg key with
    | none => rfl
    | some f =>
      simp only [Option.map_some', sqlJoin_trim, ih]
      rfl

theorem CreateQuery_trim {α : Type} (reg : Str → Option Filter) (filters : List Str)
    (args : List (List α)) :
    CreateQuery (fun key => (reg key).map trimJoins) filters args =
      CreateQuery reg filters args := by
  unfold CreateQuery
  cases filters with
  | nil => rfl
  | cons key0 rest =>
    simp only
    cases reg key0 with
    | none => rfl
    | some f0 =>
      simp only [Option.map_some', filterLoop_trim]
      rfl

theorem filterLoop_cons_zero {α : Type} (reg : Str → Option Filter) (args : List (List α))
    (key : Str) (rest : List Str) (s : Session α) (f : Filter)
    (hreg : reg key = some f) (hT : f.Tables = []) :
    filterLoop reg args (key :: rest) s = .error (.err (.ZeroTablesErr key)) := by
  simp [filterLoop, hreg, hT]

/-- A filter without tables is reported as `ErrZeroTables`, first in the name
list or after a prefix that is processed without error. -/
theorem CreateQuery_zero_tables {α : Type} (reg : Str → Option Filter)
    (args : List (List α)) (key : Str) (post : List Str) (f : Filter)
    (hk : reg key = some f) (hT : f.Tables = []) :
    CreateQuery reg (key :: post) args = .returned [] [] (some (.ZeroTablesErr key)) ∧
    ∀ (key0 : Str) (pre : List Str) (f0 : Filter) (anchor : Str) (tl0 : List Str),
      reg key0 = some f0 → f0.Tables = anchor :: tl0 →
      (∃ s, filterLoop reg args (key0 :: pre) (seed α anchor) = .ok s) →
      CreateQuery reg (key0 :: pre ++ key :: post) args =
        .returned [] [] (some (.ZeroTablesErr key)) := by
  constructor
  · simp [CreateQuery, hk, hT]
  · intro key0 pre f0 anchor tl0 h0 hT0 ⟨s, hs⟩
    have hloop : filterLoop reg args (key0 :: (pre ++ key :: post)) (seed α anchor) =
        .error (.err (.ZeroTablesErr key)) := by
      rw [← List.cons_append, filterLoop_append, hs]
      exact filterLoop_cons_zero reg args key post s f hk hT
    exact CreateQuery_of_loop_err reg args key0 _ f0 anchor tl0 _ h0 hT0 hloop

/-- C10, counterexample: a filter with one table and one join condition violates `len(JoinsOn) == max(len(Tables)-1, 0)`, and composing it returns a statement
and a nil error. -/
theorem surplusFilter_composes :
    surplusFilter.JoinsOn.length ≠ max (surplusFilter.Tables.length - 1) 0 ∧
      CreateQuery surplusReg ["g".toList] ([] : List (List Nat)) =
        .returned "select t.id from t where t.id = 1".toList [] none := by
  constructor
  · decide
  · rfl

/-- C10, as the code has it: surplus join conditions are never read, so a
filter composes exactly like the filter with `JoinsOn` cut to
`len(Tables) - 1` entries and no error reports the surplus; a filter without
tables is reported as `ErrZeroTables`, with the empty statement and nil
arguments, whatever its `JoinsOn`. -/
theorem CreateQuery_surplus_joins {α : Type} (reg : Str → Option Filter)
    (filters : List Str) (args : List (List α)) :
    CreateQuery (fun key => (reg key).map trimJoins) filters args =
        CreateQuery reg filters args ∧
    ∀ (key : Str) (post : List Str) (f : Filter), reg key = some f → f.Tables = [] →
      CreateQuery reg (key :: post) args = .returned [] [] (some (.ZeroTablesErr key)) ∧
      ∀ (key0 : Str) (pre : List Str) (f0 : Filter) (anchor : Str) (tl0 : List Str),
        reg key0 = some f0 → f0.Tables = anchor :: tl0 →
        (∃ s, filterLoop reg args (key0 :: pre) (seed α anchor) = .ok s) →
        CreateQuery reg (key0 :: pre ++ key :: post) args =
          .returned [] [] (some (.ZeroTablesErr key)) :=
  ⟨CreateQuery_trim reg filters args,
    fun key post f hk hT => CreateQuery_zero_tables reg args key post f hk hT⟩

/-- C10 at the filter `f7` of the test, which has no tables. -/
theorem CreateQuery_surplus_joins_witness :
    CreateQuery (fun key => (testReg key).map trimJoins) ["f7".toList]
        ([] : List (List Nat)) =
      CreateQuery testReg ["f7".toList] [] ∧
    CreateQuery testReg ("f7".toList :: []) ([] : List (List Nat)) =
      .returned [] [] (some (.ZeroTablesErr "f7".toList)) :=
  ⟨(CreateQuery_surplus_joins testReg ["f7".toList] []).1,
    ((CreateQuery_surplus_joins testReg ["f7".toList] []).2 "f7".toList [] f7 rfl rfl).1⟩

/-! ## C6: the number of argument groups -/

theorem whereLoop_total {α : Type} (args : List (List α)) (hargs : ∀ a ∈ args, a ≠ []) :
    ∀ (ws : List Str) (i : Nat) (r : List α) (w : List Str), i ≤ args.length →
      (i + (ws.filter (fun x => Contains x qmark)).length ≤ args.length →
        ∃ r' w', whereLoop args ws (i, r, w) =
          .ok (i + (ws.filter (fun x => Contains x qmark)).length, r', w')) ∧
      (args.length < i + (ws.filter (fun x => Contains x qmark)).length →
        ∃ n, whereLoop args ws (i, r, w) = .error (.err (.NotEnoughArgs args.length n))) := by
  intro ws
  induction ws with
  | nil =>
    intro i r w hi
    refine ⟨fun _ => ⟨r, w, by simp [whereLoop]⟩, fun h => ?_⟩
    simp only [List.filter_nil, List.length_nil, Nat.add_zero] at h
    omega
  | cons x rest ih =>
    intro i r w hi
    by_cases hc : Contains x qmark = true
    · have hcnt : ((x :: rest).filter (fun x => Contains x qmark)).length =
          (rest.filter (fun x => Contains x qmark)).length + 1 := by
        simp [List.filter_cons, hc]
      rw [hcnt]
      by_cases hlt : i < args.length
      · have ha : args[i]? = some args[i] := List.getElem?_eq_getElem hlt
        have hz : ¬ (args[i]).length = 0 := by
          intro h0
          exact hargs _ (List.getElem_mem hlt) (List.length_eq_zero.1 h0)
        have hstep : whereLoop args (x :: rest) (i, r, w) =
            whereLoop args rest (i + 1, r ++ args[i],
              w ++ [ReplaceAll x openQ (openQ ++ Repeat ", ?".toList ((args[i]).length - 1))]) := by
          rw [whereLoop]
          simp only [hc, if_true, ha, hz, if_false]
        obtain ⟨h1, h2⟩ := ih (i + 1) (r ++ args[i])
          (w ++ [ReplaceAll x openQ (openQ ++ Repeat ", ?".toList ((args[i]).length - 1))])
          (by omega)
        constructor
        · intro hle
          obtain ⟨r', w', hr⟩ := h1 (by omega)
          refine ⟨r', w', ?_⟩
          rw [hstep, hr]
          congr 2
          omega
        · intro hgt
          obtain ⟨n, hn⟩ := h2 (by omega)
          exact ⟨n, by rw [hstep, hn]⟩
      · have ha : args[i]? = none := List.getElem?_eq_none (by omega)
        constructor
        · intro hle; omega
        · intro _
          refine ⟨i + 1, ?_⟩
          rw [whereLoop]
          simp only [hc, if_true, ha]
    · have hcnt : ((x :: rest).filter (fun x => Contains x qmark)).length =
          (rest.filter (fun x => Contains x qmark)).length := by
        simp [List.filter_cons, hc]
      have hstep : whereLoop args (x :: rest) (i, r, w) =
          whereLoop args rest (i, r, w ++ [x]) := by
        rw [whereLoop]
        simp only [hc, Bool.false_eq_true, if_false]
      rw [hcnt, hstep]
      exact ih i r (w ++ [x]) hi

theorem filterLoop_cons_where_err {α : Type} (reg : Str → Option Filter)
    (args : List (List α)) (key : Str) (rest : List Str) (s : Session α) (f : Filter)
    (l : GoList) (u : TableMap) (st : Stop) (hreg : reg key = some f) (hne : f.Tables ≠ [])
    (hj : sqlJoin f s.filterList s.usedTables = .ok (l, u, none))
    (hw : whereLoop args f.WhereClauses (s.argInd, s.retArgs, s.wheresSlice) = .error st) :
    filterLoop reg args (key :: rest) s = .error st := by
  have hz : ¬ f.Tables.length = 0 := fun h => hne (List.length_eq_zero.1 h)
  simp only [filterLoop, hreg, hz, if_false, hj, hw]

theorem filterLoop_cons_next {α : Type} (reg : Str → Option Filter)
    (args : List (List α)) (key : Str) (rest : List Str) (s : Session α) (f : Filter)
    (l : GoList) (u : TableMap) (i1 : Nat) (r1 : List α) (w1 : List Str)
    (hreg : reg key = some f) (hne : f.Tables ≠ [])
    (hj : sqlJoin f s.filterList s.usedTables = .ok (l, u, none))
    (hw : whereLoop args f.WhereClauses (s.argInd, s.retArgs, s.wheresSlice) =
      .ok (i1, r1, w1)) :
    filterLoop reg args (key :: rest) s =
      filterLoop reg args rest
        { retArgs := r1,
          selectsSet := (selectLoop f.SelectedColumns (s.selectsSet, s.selectsSlice)).1,
          selectsSlice := (selectLoop f.SelectedColumns (s.selectsSet, s.selectsSlice)).2,
          wheresSlice := w1, usedTables := u, filterList := l, argInd := i1 } := by
  have hz : ¬ f.Tables.length = 0 := fun h => hne (List.length_eq_zero.1 h)
  simp only [filterLoop, hreg, hz, if_false, hj, hw]

theorem placeholderCount_cons (f : Filter) (F : List Filter) :
    placeholderCount (f :: F) =
      (f.WhereClauses.filter (fun x => Contains x qmark)).length + placeholderCount F := by
  simp [placeholderCount, List.flatMap_cons, List.filter_append]

theorem filterLoop_total {α : Type} (reg : Str → Option Filter) (args : List (List α))
    (hargs : ∀ a ∈ args, a ≠ []) (F : List Filter) (anchor : Str) :
    ∀ (filters : List Str) (s : Session α) (seen : List Str),
      (∀ key ∈ filters, ∃ f, reg key = some f ∧ f.Tables ≠ [] ∧
        f.JoinsOn.length = f.Tables.length - 1) →
      (∀ f ∈ resolved reg filters, f ∈ F) →
      ChainInv F anchor s.filterList s.usedTables →
      (∀ t ∈ seen, s.usedTables.has t = true) →
      Reachable seen (resolved reg filters) →
      s.argInd ≤ args.length →
      (s.argInd + placeholderCount (resolved reg filters) ≤ args.length →
        ∃ s', filterLoop reg args filters s = .ok s' ∧
          s'.argInd = s.argInd + placeholderCount (resolved reg filters)) ∧
      (args.length < s.argInd + placeholderCount (resolved reg filters) →
        ∃ n, filterLoop reg args filters s = .error (.err (.NotEnoughArgs args.length n))) := by
  intro filters
  induction filters with
  | nil =>
    intro s seen _ _ _ _ _ hi
    have : placeholderCount (resolved reg ([] : List Str)) = 0 := rfl
    rw [this]
    exact ⟨fun _ => ⟨s, rfl, rfl⟩, fun h => by omega⟩
  | cons key rest ih =>
    intro s seen hres hF hinv hseen hreach hi
    obtain ⟨f, hreg, hne, hwf⟩ := hres key (List.mem_cons_self _ _)
    have hcons := mem_resolved_cons rest hreg
    rw [hcons] at hF hreach ⊢
    rw [placeholderCount_cons]
    obtain ⟨⟨t, ts, hT, ht⟩, hreach'⟩ := hreach
    have hlen : f.Tables.length ≠ 0 := fun h => hne (List.length_eq_zero.1 h)
    rcases sqlJoin_spec F f (hF f (List.mem_cons_self _ _)) anchor _ _ hinv t ts hT with
      ⟨h1, -⟩ | ⟨-, l', u', hok, hinv', hkeys⟩ | ⟨-, -, hbad⟩
    · rw [hseen t ht] at h1; simp at h1
    · obtain ⟨hw1, hw2⟩ := whereLoop_total args hargs f.WhereClauses s.argInd s.retArgs
        s.wheresSlice hi
      have hseen' : ∀ x ∈ seen ++ f.Tables, u'.has x = true := by
        intro x hx
        rw [hkeys]
        rcases List.mem_append.1 hx with hx | hx
        · exact Or.inl (hseen x hx)
        · exact Or.inr hx
      have hres' : ∀ key ∈ rest, ∃ f, reg key = some f ∧ f.Tables ≠ [] ∧
          f.JoinsOn.length = f.Tables.length - 1 :=
        fun k hk => hres k (List.mem_cons_of_mem _ hk)
      have hF' : ∀ g ∈ resolved reg rest, g ∈ F := fun g hg => hF g (List.mem_cons_of_mem _ hg)
      constructor
      · intro hle
        obtain ⟨r', w', hw⟩ := hw1 (by omega)
        rw [filterLoop_cons_next reg args key rest s f l' u' _ r' w' hreg hne hok hw]
        obtain ⟨s', hs', hind⟩ := (ih
          { retArgs := r',
            selectsSet := (selectLoop f.SelectedColumns (s.selectsSet, s.selectsSlice)).1,
            selectsSlice := (selectLoop f.SelectedColumns (s.selectsSet, s.selectsSlice)).2,
            wheresSlice := w', usedTables := u', filterList := l',
            argInd := s.argInd + (f.WhereClauses.filter (fun x => Contains x qmark)).length }
          (seen ++ f.Tables) hres' hF' hinv' hseen' hreach'
          (by show s.argInd + _ ≤ args.length; omega)).1 (by show s.argInd + _ + _ ≤ _; omega)
        exact ⟨s', hs', by rw [hind]; show s.argInd + _ + _ = _; omega⟩
      · intro hgt
        by_cases hsmall :
            args.length < s.argInd + (f.WhereClauses.filter (fun x => Contains x qmark)).length
        · obtain ⟨n, hn⟩ := hw2 hsmall
          exact ⟨n, filterLoop_cons_where_err reg args key rest s f l' u' _ hreg hne hok hn⟩
        · obtain ⟨r', w', hw⟩ := hw1 (by omega)
          rw [filterLoop_cons_next reg args key rest s f l' u' _ r' w' hreg hne hok hw]
          exact (ih
            { retArgs := r',
              selectsSet := (selectLoop f.SelectedColumns (s.selectsSet, s.selectsSlice)).1,
              selectsSlice := (selectLoop f.SelectedColumns (s.selectsSet, s.selectsSlice)).2,
              wheresSlice := w', usedTables := u', filterList := l',
              argInd := s.argInd + (f.WhereClauses.filter (fun x => Contains x qmark)).length }
            (seen ++ f.Tables) hres' hF' hinv' hseen' hreach'
            (by show s.argInd + _ ≤ args.length; omega)).2
            (by show _ < s.argInd + _ + _; omega)
    · omega

theorem CreateQuery_by_count {α : Type} (reg : Str → Option Filter) (filters : List Str)
    (args : List (List α)) (hne : filters ≠ [])
    (hres : ∀ key ∈ filters, ∃ f, reg key = some f ∧ f.Tables ≠ [] ∧
      f.JoinsOn.length = f.Tables.length - 1)
    (hreach : AnchorsReachable (resolved reg filters)) (hargs : ∀ a ∈ args, a ≠ []) :
    (args.length = placeholderCount (resolved reg filters) →
      ∃ q a, CreateQuery reg filters args = .returned q a none) ∧
    (args.length < placeholderCount (resolved reg filters) →
      ∃ n, CreateQuery reg filters args =
        .returned [] [] (some (.NotEnoughArgs args.length n))) ∧
    (placeholderCount (resolved reg filters) < args.length →
      CreateQuery reg filters args =
        .returned [] [] (some (.TooManyArgs args.length
          (placeholderCount (resolved reg filters))))) := by
  obtain ⟨key0, rest, rfl⟩ : ∃ key0 rest, filters = key0 :: rest := by
    cases filters with
    | nil => exact absurd rfl hne
    | cons a b => exact ⟨a, b, rfl⟩
  obtain ⟨f0, h0, hne0, -⟩ := hres key0 (List.mem_cons_self _ _)
  obtain ⟨anchor, tl, hT0⟩ : ∃ anchor tl, f0.Tables = anchor :: tl := by
    cases hT : f0.Tables with
    | nil => exact absurd hT hne0
    | cons a b => exact ⟨a, b, rfl⟩
  have hcons := mem_resolved_cons rest h0
  have hreach' : Reachable [anchor] (resolved reg (key0 :: rest)) := by
    rw [hcons] at hreach ⊢
    have : f0.Tables.take 1 = [anchor] := by rw [hT0]; rfl
    rw [← this]
    exact hreach
  obtain ⟨hok, herr⟩ := filterLoop_total reg args hargs (resolved reg (key0 :: rest)) anchor
    (key0 :: rest) (seed α anchor) [anchor] hres (fun f hf => hf) (seed_inv α _ anchor)
    (fun t ht => (seed_has α anchor t).2 (by simpa using ht)) hreach' (Nat.zero_le _)
  have hzero : (seed α anchor).argInd = 0 := rfl
  rw [hzero, Nat.zero_add] at hok herr
  refine ⟨?_, ?_, ?_⟩
  · intro heq
    obtain ⟨s', hs', hind⟩ := hok (by omega)
    have hlt : ¬ s'.argInd < args.length := by omega
    refine ⟨Sprintf (Join s'.selectsSlice ", ".toList) s'.filterList.render
      (Join s'.wheresSlice " and ".toList), s'.retArgs, ?_⟩
    simp only [CreateQuery, h0, hT0, hs', hlt, if_false]
  · intro hlt
    obtain ⟨n, hn⟩ := herr hlt
    exact ⟨n, CreateQuery_of_loop_err reg args key0 rest f0 anchor tl _ h0 hT0 hn⟩
  · intro hgt
    obtain ⟨s', hs', hind⟩ := hok (by omega)
    have hlt : s'.argInd < args.length := by omega
    rw [← hind]
    simp only [CreateQuery, h0, hT0, hs', hlt, if_true]

/-- C6: when every name resolves to a filter with tables and
`len(JoinsOn) == len(Tables) - 1`, every anchor is reachable and no argument
group is empty, `CreateQuery` succeeds exactly when the number of groups is the
number `P` of predicates containing `?`; with fewer groups it returns an
`ErrNotEnoughArgs` error, with more an `ErrTooManyArgs` error. -/
theorem CreateQuery_arg_count {α : Type} (reg : Str → Option Filter) (filters : List Str)
    (args : List (List α)) (hne : filters ≠ [])
    (hres : ∀ key ∈ filters, ∃ f, reg key = some f ∧ f.Tables ≠ [] ∧
      f.JoinsOn.length = f.Tables.length - 1)
    (hreach : AnchorsReachable (resolved reg filters)) (hargs : ∀ a ∈ args, a ≠ []) :
    ((∃ q a, CreateQuery reg filters args = .returned q a none) ↔
      args.length = placeholderCount (resolved reg filters)) ∧
    (args.length < placeholderCount (resolved reg filters) →
      ∃ e, e.kind = .ErrNotEnoughArgs ∧
        CreateQuery reg filters args = .returned [] [] (some e)) ∧
    (placeholderCount (resolved reg filters) < args.length →
      ∃ e, e.kind = .ErrTooManyArgs ∧
        CreateQuery reg filters args = .returned [] [] (some e)) := by
  obtain ⟨h1, h2, h3⟩ := CreateQuery_by_count reg filters args hne hres hreach hargs
  refine ⟨⟨?_, h1⟩, ?_, ?_⟩
  · rintro ⟨q, a, hq⟩
    rcases Nat.lt_trichotomy args.length (placeholderCount (resolved reg filters)) with
      hlt | heq | hgt
    · obtain ⟨n, hn⟩ := h2 hlt
      rw [hn] at hq
      simp at hq
    · exact heq
    · rw [h3 hgt] at hq
      simp at hq
  · intro hlt
    obtain ⟨n, hn⟩ := h2 hlt
    exact ⟨.NotEnoughArgs args.length n, rfl, hn⟩
  · intro hgt
    exact ⟨.TooManyArgs args.length (placeholderCount (resolved reg filters)), rfl, h3 hgt⟩

theorem testNames_resolve :
    ∀ key ∈ testNames, ∃ f, testReg key = some f ∧ f.Tables ≠ [] ∧
      f.JoinsOn.length = f.Tables.length - 1 := by
  intro key hk
  simp only [testNames, List.mem_cons, List.mem_singleton, List.not_mem_nil, or_false] at hk
  rcases hk with rfl | rfl | rfl
  · exact ⟨f1, rfl, by decide, rfl⟩
  · exact ⟨f2, rfl, by decide, rfl⟩
  · exact ⟨f3, rfl, by decide, rfl⟩

theorem testNames_reachable : AnchorsReachable (resolved testReg testNames) :=
  ⟨⟨"t1".toList, ["t2".toList], rfl, by decide⟩, ⟨"t1".toList, [], rfl, by decide⟩,
    ⟨"t1".toList, ["t3".toList, "t4".toList], rfl, by decide⟩, trivial⟩

/-- C6 at the filters `f1`, `f2`, `f3` of the test with three groups. -/
theorem CreateQuery_arg_count_witness :
    ((∃ q a, CreateQuery testReg testNames [[1], [2], [3]] = .returned q a none) ↔
      [[1], [2], [3]].length = placeholderCount (resolved testReg testNames)) ∧
    ([[1], [2], [3]].length < placeholderCount (resolved testReg testNames) →
      ∃ e, e.kind = .ErrNotEnoughArgs ∧
        CreateQuery testReg testNames [[1], [2], [3]] = .returned [] [] (some e)) ∧
    (placeholderCount (resolved testReg testNames) < [[1], [2], [3]].length →
      ∃ e, e.kind = .ErrTooManyArgs ∧
        CreateQuery testReg testNames [[1], [2], [3]] = .returned [] [] (some e)) :=
  CreateQuery_arg_count testReg testNames [[1], [2], [3]] (by decide) testNames_resolve
    testNames_reachable (by decide)

/-! ## C1: markers and arguments -/

theorem count_replaceScan_openQ (new : Str) :
    ∀ (s : Str) (k : Nat),
      (replaceScan openQ new k s).count '?' + countScan openQ k s =
        (s.drop k).count '?' + countScan openQ k s * new.count '?' := by
  intro s
  induction s with
  | nil => intro k; cases k <;> simp [replaceScan, countScan]
  | cons c s ih =>
    intro k
    cases k with
    | succ k =>
      simp only [replaceScan, countScan, List.drop_succ_cons]
      exact ih k
    | zero =>
      by_cases hp : openQ.isPrefixOf (c :: s) = true
      · have hlen : openQ.length - 1 = 1 := rfl
        simp only [replaceScan, countScan, hp, if_true, hlen, List.drop_zero, List.count_append]
        have h1 := ih 1
        obtain ⟨t, hc, hs⟩ : ∃ t, c = '(' ∧ s = '?' :: t := by
          cases s with
          | nil => simp [openQ, List.isPrefixOf] at hp
          | cons d t =>
            simp only [openQ, List.isPrefixOf, Bool.and_true, Bool.and_eq_true,
              beq_iff_eq] at hp
            exact ⟨t, hp.1.symm, by rw [hp.2]⟩
        subst hc hs
        simp only [List.drop_succ_cons, List.drop_zero] at h1
        have h2 : List.count '?' ('(' :: '?' :: t) = 1 + List.count '?' t := by
          rw [List.count_cons_of_ne (by decide), List.count_cons_self]
          omega
        rw [h2, Nat.add_mul, Nat.one_mul]
        omega
      · have h0 := ih 0
        simp only [List.drop_zero] at h0
        simp only [replaceScan, countScan, hp, Bool.false_eq_true, if_false, List.drop_zero,
          List.count_cons]
        omega

theorem count_Repeat (n : Nat) : (Repeat ", ?".toList n).count '?' = n := by
  induction n with
  | zero => rfl
  | succ n ih =>
    rw [Repeat, List.count_append, ih]
    have : List.count '?' ", ?".toList = 1 := by decide
    omega

/-- The markers of an expanded predicate. -/
theorem count_ReplaceAll (w : Str) (K : Nat) :
    (ReplaceAll w openQ (openQ ++ Repeat ", ?".toList (K - 1))).count '?' =
      w.count '?' + Count w openQ * (K - 1) := by
  have h := count_replaceScan_openQ (openQ ++ Repeat ", ?".toList (K - 1)) w 0
  rw [List.count_append, count_Repeat] at h
  have h1 : List.count '?' openQ = 1 := by decide
  rw [h1, List.drop_zero] at h
  unfold ReplaceAll Count
  have h2 : 1 + (K - 1) = (K - 1) + 1 := by omega
  rw [h2, Nat.mul_add, Nat.mul_one] at h
  omega

theorem whereLoop_append {α : Type} (args : List (List α)) (B : List Str) :
    ∀ (A : List Str) (st : Nat × List α × List Str),
      whereLoop args (A ++ B) st =
        match whereLoop args A st with
        | .ok st' => whereLoop args B st'
        | .error e => .error e := by
  intro A
  induction A with
  | nil => intro st; rfl
  | cons x rest ih =>
    intro st
    obtain ⟨i, r, w⟩ := st
    simp only [List.cons_append, whereLoop]
    by_cases hc : Contains x qmark = true
    · simp only [hc, if_true]
      cases args[i]? with
      | none => rfl
      | some a =>
        simp only
        by_cases hz : a.length = 0
        · simp only [hz, if_true]
        · simp only [hz, if_false]
          exact ih _
    · simp only [hc, Bool.false_eq_true, if_false]
      exact ih _

/-- The predicates and arguments of a run of the filter loop are those of one
pass of the predicate loop over all `WhereClauses`, in filter order. -/
theorem filterLoop_wheres {α : Type} (reg : Str → Option Filter) (args : List (List α)) :
    ∀ (filters : List Str) (s s' : Session α),
      filterLoop reg args filters s = .ok s' →
      whereLoop args ((resolved reg filters).flatMap Filter.WhereClauses)
          (s.argInd, s.retArgs, s.wheresSlice) =
        .ok (s'.argInd, s'.retArgs, s'.wheresSlice) := by
  intro filters
  induction filters with
  | nil =>
    intro s s' h
    simp only [filterLoop, Except.ok.injEq] at h
    subst h
    rfl
  | cons key rest ih =>
    intro s s' h
    obtain ⟨filter, l1, u1, argInd1, retArgs1, wheres1, hreg, -, -, hw, hrest⟩ :=
      filterLoop_cons_ok h
    rw [mem_resolved_cons rest hreg, List.flatMap_cons, whereLoop_append, hw]
    exact ih _ _ hrest

/-- The markers of a list of strings. -/
theorem count_Join (sep : Str) (c : Char) (hsep : sep.count c = 0) :
    ∀ L : List Str, (Join L sep).count c = (L.map (List.count c)).sum := by
  intro L
  induction L with
  | nil => rfl
  | cons a L ih =>
    cases L with
    | nil => simp [Join]
    | cons b L =>
      rw [Join, List.count_append, List.count_append, hsep, ih]
      simp

theorem whereLoop_count {α : Type} (args : List (List α)) :
    ∀ (ws : List Str) (i : Nat) (r : List α) (w : List Str) (i' : Nat) (r' : List α)
      (w' : List Str),
      whereLoop args ws (i, r, w) = .ok (i', r', w') →
      (∀ pa ∈ (ws.filter (fun x => Contains x qmark)).zip (args.drop i),
        pa.1.count '?' + Count pa.1 openQ * (pa.2.length - 1) = pa.2.length) →
      (w'.map (List.count '?')).sum + r.length = (w.map (List.count '?')).sum + r'.length := by
  intro ws
  induction ws with
  | nil =>
    intro i r w i' r' w' h _
    simp only [whereLoop, Except.ok.injEq, Prod.mk.injEq] at h
    obtain ⟨-, rfl, rfl⟩ := h
    rfl
  | cons x rest ih =>
    intro i r w i' r' w' h hbal
    unfold whereLoop at h
    by_cases hc : Contains x qmark = true
    · simp only [hc, if_true] at h
      cases ha : args[i]? with
      | none => simp [ha] at h
      | some a =>
        simp only [ha] at h
        by_cases hz : a.length = 0
        · simp [hz] at h
        · simp only [hz, if_false] at h
          have hlt : i < args.length := by
            by_contra hge
            rw [List.getElem?_eq_none (by omega)] at ha
            exact absurd ha (by simp)
          have hdrop : args.drop i = a :: args.drop (i + 1) := by
            rw [List.drop_eq_getElem_cons hlt]
            congr 1
            rw [List.getElem?_eq_getElem hlt] at ha
            exact Option.some.inj ha
          have hfil : (x :: rest).filter (fun x => Contains x qmark) =
              x :: rest.filter (fun x => Contains x qmark) := by
            simp [List.filter_cons, hc]
          rw [hfil, hdrop, List.zip_cons_cons] at hbal
          have hx := hbal (x, a) (List.mem_cons_self _ _)
          have := ih _ _ _ _ _ _ h (fun pa hpa => hbal pa (List.mem_cons_of_mem _ hpa))
          simp only [List.map_append, List.sum_append, List.map_cons, List.map_nil,
            List.sum_cons, List.sum_nil, List.length_append, count_ReplaceAll] at this
          simp only at hx
          omega
    · simp only [hc, Bool.false_eq_true, if_false] at h
      have hfil : (x :: rest).filter (fun x => Contains x qmark) =
          rest.filter (fun x => Contains x qmark) := by
        simp [List.filter_cons, hc]
      rw [hfil] at hbal
      have := ih _ _ _ _ _ _ h hbal
      have hx : x.count '?' = 0 := by
        apply List.count_eq_zero.2
        intro hmem
        exact hc ((Contains_qmark x).2 hmem)
      simp only [List.map_append, List.sum_append, List.map_cons, List.map_nil,
        List.sum_cons, List.sum_nil, hx] at this
      omega

theorem Linked.mem (F : List Filter) :
    ∀ (L : List (Str × Str)) (seen : List Str), Linked F seen L →
      ∀ p ∈ L, ∃ f ∈ F, p.1 ∈ f.Tables ∧ p.2 ∈ f.JoinsOn := by
  intro L
  induction L with
  | nil => intro _ _ p hp; simp at hp
  | cons a L ih =>
    intro seen h p hp
    obtain ⟨t, c⟩ := a
    obtain ⟨⟨f, hf, q, -, i, -, h2, h3⟩, hrest⟩ := h
    rcases List.mem_cons.1 hp with rfl | hp
    · exact ⟨f, hf, List.getElem?_mem h2, List.getElem?_mem h3⟩
    · exact ih _ hrest p hp

theorem sum_count_eq_zero (c : Char) (L : List Str) (h : ∀ x ∈ L, c ∉ x) :
    (L.map (List.count c)).sum = 0 := by
  induction L with
  | nil => rfl
  | cons a L ih =>
    rw [List.map_cons, List.sum_cons, ih (fun x hx => h x (List.mem_cons_of_mem _ hx)),
      List.count_eq_zero.2 (h a (List.mem_cons_self _ _))]

/-- The markers of a statement whose columns, tables and join conditions hold
none are the markers of its predicates. -/
theorem CreateQuery_marks {α : Type} {reg : Str → Option Filter} {filters : List Str}
    {args : List (List α)} {q : Str} {a : List α}
    (h : CreateQuery reg filters args = .returned q a none)
    (hclean : ∀ f ∈ resolved reg filters,
      (∀ c ∈ f.SelectedColumns, '?' ∉ c) ∧ (∀ t ∈ f.Tables, '?' ∉ t) ∧
        (∀ c ∈ f.JoinsOn, '?' ∉ c)) :
    ∃ wheres : List Str,
      whereLoop args ((resolved reg filters).flatMap Filter.WhereClauses) (0, [], []) =
        .ok (args.length, a, wheres) ∧
      q.count '?' = (wheres.map (List.count '?')).sum := by
  obtain ⟨f0, more, anchor, tl, s, aid, links, hres, hT, hq, hrep, hlinked, -, hl, hind, ha⟩ :=
    CreateQuery_ok_chain h
  have hw := filterLoop_wheres reg args filters _ s hl
  have hsel := filterLoop_selects reg args filters _ s [] hl (by simp [seed])
    (by simp [seed, firstOccurrences])
  rw [List.nil_append] at hsel
  have hseed : ((seed α anchor).argInd, (seed α anchor).retArgs, (seed α anchor).wheresSlice) =
      ((0 : Nat), ([] : List α), ([] : List Str)) := rfl
  rw [hseed, hind, ← ha] at hw
  refine ⟨s.wheresSlice, hw, ?_⟩
  have hf0 : f0 ∈ resolved reg filters := by rw [hres]; exact List.mem_cons_self _ _
  have hcols : (Join s.selectsSlice ", ".toList).count '?' = 0 := by
    rw [count_Join _ _ (by decide), hsel]
    apply sum_count_eq_zero
    intro x hx
    rw [mem_firstOccurrences, List.mem_flatMap] at hx
    obtain ⟨f, hf, hxf⟩ := hx
    exact (hclean f hf).1 x hxf
  have hchain : s.filterList.render.count '?' = 0 := by
    rw [hrep.render, List.count_append,
      List.count_eq_zero.2 ((hclean f0 hf0).2.1 anchor (by rw [hT]; exact List.mem_cons_self _ _)),
      Nat.zero_add, List.count_eq_zero]
    intro hmem
    rw [List.mem_flatMap] at hmem
    obtain ⟨p, hp, hmem⟩ := hmem
    obtain ⟨f, hf, h1, h2⟩ := Linked.mem _ _ _ hlinked p hp
    have hj : '?' ∉ " join ".toList := by decide
    have ho : '?' ∉ " on ".toList := by decide
    simp only [List.mem_append] at hmem
    rcases hmem with ((hmem | hmem) | hmem) | hmem
    · exact hj hmem
    · exact (hclean f hf).2.1 _ h1 hmem
    · exact ho hmem
    · exact (hclean f hf).2.2 _ h2 hmem
  have hs : List.count '?' "select ".toList = 0 := by decide
  have hfrom : List.count '?' " from ".toList = 0 := by decide
  have hwhere : List.count '?' " where ".toList = 0 := by decide
  rw [hq, Sprintf, List.count_append, List.count_append, List.count_append, List.count_append,
    List.count_append, hcols, hchain, hs, hfrom, hwhere, count_Join _ _ (by decide)]
  omega

/-- C1, under the conditions it needs: when no selected column, table name or
join condition of the composed filters contains `?`, and every predicate `w`
that contains `?` is matched with a group `g` such that
`count(w, "?") + count(w, "(?") * (len(g) - 1) = len(g)`, the statement of a
successful run holds as many `?` as there are returned arguments. -/
theorem CreateQuery_parity {α : Type} (reg : Str → Option Filter) (filters : List Str)
    (args : List (List α)) (q : Str) (a : List α)
    (h : CreateQuery reg filters args = .returned q a none)
    (hclean : ∀ f ∈ resolved reg filters,
      (∀ c ∈ f.SelectedColumns, '?' ∉ c) ∧ (∀ t ∈ f.Tables, '?' ∉ t) ∧
        (∀ c ∈ f.JoinsOn, '?' ∉ c))
    (hbal : ∀ pa ∈ (placeholderPredicates (resolved reg filters)).zip args,
      pa.1.count '?' + Count pa.1 openQ * (pa.2.length - 1) = pa.2.length) :
    q.count '?' = a.length := by
  obtain ⟨wheres, hw, hq⟩ := CreateQuery_marks h hclean
  have := whereLoop_count args _ 0 [] [] _ _ _ hw (by simpa [placeholderPredicates] using hbal)
  simp only [List.map_nil, List.sum_nil, List.length_nil, Nat.add_zero, Nat.zero_add] at this
  rw [hq, this]

/-- C1, counterexample: the predicate `t.x = ?` with the group `[1, 2]` composes to a
statement with one `?` and two arguments. -/
theorem plainFilter_mismatch :
    ∃ q a, CreateQuery plainReg ["p".toList] [[1, 2]] = .returned q a none ∧
      q.count '?' ≠ a.length :=
  ⟨"select t.id from t where t.x = ?".toList, [1, 2], rfl, by decide⟩

/-- C1 at the filters `f1`, `f2`, `f3` of the test with the groups `[[1], [2], [3]]`. -/
theorem CreateQuery_parity_witness :
    List.count '?' testQuery = [1, 2, 3].length :=
  CreateQuery_parity testReg testNames [[1], [2], [3]] testQuery [1, 2, 3] testQuery_run
    (by decide) (by decide)

/-! ## C11, C12, C13: what a failing call returns -/

/-- C11: whenever `CreateQuery` returns a non-nil error, of whatever kind, the
returned statement is the empty string and the returned argument slice is nil. -/
theorem CreateQuery_error_empty {α : Type} (reg : Str → Option Filter) (filters : List Str)
    (args : List (List α)) (q : Str) (a : List α) (e : Err)
    (h : CreateQuery reg filters args = .returned q a (some e)) :
    q = [] ∧ a = [] := by
  unfold CreateQuery at h
  cases filters with
  | nil =>
    simp only [Outcome.returned.injEq] at h
    exact ⟨h.1.symm, h.2.1.symm⟩
  | cons key0 rest =>
    simp only at h
    cases hr : reg key0 with
    | none =>
      simp only [hr, Outcome.returned.injEq] at h
      exact ⟨h.1.symm, h.2.1.symm⟩
    | some firstFilter =>
      simp only [hr] at h
      cases ht : firstFilter.Tables with
      | nil =>
        simp only [ht, Outcome.returned.injEq] at h
        exact ⟨h.1.symm, h.2.1.symm⟩
      | cons anchor tl =>
        simp only [ht] at h
        cases hl : filterLoop reg args (key0 :: rest) (seed α anchor) with
        | error st =>
          cases st with
          | err e' =>
            simp only [hl, Outcome.returned.injEq] at h
            exact ⟨h.1.symm, h.2.1.symm⟩
          | panic p => simp [hl] at h
        | ok s =>
          simp only [hl] at h
          by_cases hlt : s.argInd < args.length
          · simp only [hlt, if_true, Outcome.returned.injEq] at h
            exact ⟨h.1.symm, h.2.1.symm⟩
          · simp [hlt] at h

/-- C11 at the name list `f1`, `f6` of the test, which fails with `ErrCannotJoin`. -/
theorem CreateQuery_error_empty_witness :
    CreateQuery testReg ["f1".toList, "f6".toList] [[1]] =
        .returned [] [] (some (.CannotJoinTablesErr "table".toList ["t2".toList, "t1".toList])) ∧
      (([] : Str) = [] ∧ ([] : List Nat) = []) :=
  ⟨rfl, CreateQuery_error_empty testReg ["f1".toList, "f6".toList] [[1]] [] []
    (.CannotJoinTablesErr "table".toList ["t2".toList, "t1".toList]) rfl⟩

theorem filterLoop_cons_missing {α : Type} (reg : Str → Option Filter) (args : List (List α))
    (key : Str) (rest : List Str) (s : Session α) (hreg : reg key = none) :
    filterLoop reg args (key :: rest) s = .error (.err (.FilterDoesNotExistErr key)) := by
  simp [filterLoop, hreg]

/-- C12: at the first name that is unregistered or whose filter has no tables,
first in the list or after names that are processed without error,
`CreateQuery` returns an `ErrFilterDoesNotExist` error for the unregistered
name and an `ErrZeroTables` error for the filter without tables; the two
kinds differ. -/
theorem CreateQuery_unresolved {α : Type} (reg : Str → Option Filter)
    (args : List (List α)) (key : Str) (post : List Str) :
    (reg key = none →
      CreateQuery reg (key :: post) args =
          .returned [] [] (some (.FilterDoesNotExistErr key)) ∧
        ∀ (key0 : Str) (pre : List Str) (f0 : Filter) (anchor : Str) (tl0 : List Str),
          reg key0 = some f0 → f0.Tables = anchor :: tl0 →
          (∃ s, filterLoop reg args (key0 :: pre) (seed α anchor) = .ok s) →
          CreateQuery reg (key0 :: pre ++ key :: post) args =
            .returned [] [] (some (.FilterDoesNotExistErr key))) ∧
    (∀ f, reg key = some f → f.Tables = [] →
      CreateQuery reg (key :: post) args = .returned [] [] (some (.ZeroTablesErr key)) ∧
        ∀ (key0 : Str) (pre : List Str) (f0 : Filter) (anchor : Str) (tl0 : List Str),
          reg key0 = some f0 → f0.Tables = anchor :: tl0 →
          (∃ s, filterLoop reg args (key0 :: pre) (seed α anchor) = .ok s) →
          CreateQuery reg (key0 :: pre ++ key :: post) args =
            .returned [] [] (some (.ZeroTablesErr key))) ∧
    (Err.FilterDoesNotExistErr key).kind = .ErrFilterDoesNotExist ∧
    (Err.ZeroTablesErr key).kind = .ErrZeroTables ∧
    ErrKind.ErrFilterDoesNotExist ≠ ErrKind.ErrZeroTables := by
  refine ⟨?_, ?_, rfl, rfl, by decide⟩
  · intro hk
    constructor
    · simp [CreateQuery, hk]
    · intro key0 pre f0 anchor tl0 h0 hT0 ⟨s, hs⟩
      have hloop : filterLoop reg args (key0 :: (pre ++ key :: post)) (seed α anchor) =
          .error (.err (.FilterDoesNotExistErr key)) := by
        rw [← List.cons_append, filterLoop_append, hs]
        exact filterLoop_cons_missing reg args key post s hk
      exact CreateQuery_of_loop_err reg args key0 _ f0 anchor tl0 _ h0 hT0 hloop
  · intro f hk hT
    exact CreateQuery_zero_tables reg args key post f hk hT

/-- C12 at the names of the test: `f8` is unregistered, `f7` has no tables, each
first in the list and after `f1`. -/
theorem CreateQuery_unresolved_witness :
    (CreateQuery testReg ("f8".toList :: ["f6".toList]) ([] : List (List Nat)) =
        .returned [] [] (some (.FilterDoesNotExistErr "f8".toList)) ∧
      CreateQuery testReg ("f1".toList :: [] ++ "f8".toList :: ["f6".toList]) [[1]] =
        .returned [] [] (some (.FilterDoesNotExistErr "f8".toList))) ∧
    (CreateQuery testReg ("f7".toList :: []) ([] : List (List Nat)) =
        .returned [] [] (some (.ZeroTablesErr "f7".toList)) ∧
      CreateQuery testReg ("f1".toList :: [] ++ "f7".toList :: []) [[1]] =
        .returned [] [] (some (.ZeroTablesErr "f7".toList))) :=
  ⟨⟨((CreateQuery_unresolved testReg ([] : List (List Nat)) "f8".toList ["f6".toList]).1 rfl).1,
      ((CreateQuery_unresolved testReg [[1]] "f8".toList ["f6".toList]).1 rfl).2
        "f1".toList [] f1 "t1".toList ["t2".toList] rfl rfl ⟨_, rfl⟩⟩,
    ⟨((CreateQuery_unresolved testReg ([] : List (List Nat)) "f7".toList []).2.1 f7 rfl rfl).1,
      ((CreateQuery_unresolved testReg [[1]] "f7".toList []).2.1 f7 rfl rfl).2
        "f1".toList [] f1 "t1".toList ["t2".toList] rfl rfl ⟨_, rfl⟩⟩⟩

/-- C13: with an empty name list `CreateQuery` returns the empty statement, nil
arguments and `ErrNoFilters`, whatever the registry holds and whatever the
argument groups are. -/
theorem CreateQuery_no_filters {α : Type} (reg : Str → Option Filter)
    (args : List (List α)) :
    CreateQuery reg [] args = .returned [] [] (some .NoFiltersErr) ∧
      Err.NoFiltersErr.kind = .ErrNoFilters :=
  ⟨rfl, rfl⟩

/-! ## C14: the rendered statement -/

theorem whereLoop_shape {α : Type} (args : List (List α)) :
    ∀ (ws : List Str) (i : Nat) (r : List α) (w : List Str) (i' : Nat) (r' : List α)
      (w' : List Str),
      whereLoop args ws (i, r, w) = .ok (i', r', w') →
      ∃ out, w' = w ++ out ∧ out.length = ws.length ∧
        (∀ (n : Nat) (x : Str), ws[n]? = some x → Contains x qmark = false →
          out[n]? = some x) ∧
        i' = i + (ws.filter (fun x => Contains x qmark)).length := by
  intro ws
  induction ws with
  | nil =>
    intro i r w i' r' w' h
    simp only [whereLoop, Except.ok.injEq, Prod.mk.injEq] at h
    obtain ⟨rfl, -, rfl⟩ := h
    exact ⟨[], by simp, rfl, by simp, by simp⟩
  | cons x rest ih =>
    intro i r w i' r' w' h
    unfold whereLoop at h
    by_cases hc : Contains x qmark = true
    · simp only [hc, if_true] at h
      cases ha : args[i]? with
      | none => simp [ha] at h
      | some a =>
        simp only [ha] at h
        by_cases hz : a.length = 0
        · simp [hz] at h
        · simp only [hz, if_false] at h
          obtain ⟨out, hw, hlen, hsame, hi⟩ := ih _ _ _ _ _ _ h
          refine ⟨ReplaceAll x openQ (openQ ++ Repeat ", ?".toList (a.length - 1)) :: out,
            by rw [hw]; simp, by simp [hlen], ?_, ?_⟩
          · intro n y hn hy
            cases n with
            | zero =>
              simp only [List.getElem?_cons_zero, Option.some.injEq] at hn
              rw [← hn, hc] at hy
              exact absurd hy (by simp)
            | succ n =>
              simp only [List.getElem?_cons_succ] at hn ⊢
              exact hsame n y hn hy
          · rw [hi]
            simp only [List.filter_cons, hc, if_true, List.length_cons]
            omega
    · simp only [hc, Bool.false_eq_true, if_false] at h
      obtain ⟨out, hw, hlen, hsame, hi⟩ := ih _ _ _ _ _ _ h
      refine ⟨x :: out, by rw [hw]; simp, by simp [hlen], ?_, ?_⟩
      · intro n y hn hy
        cases n with
        | zero =>
          simp only [List.getElem?_cons_zero, Option.some.injEq] at hn
          simp only [List.getElem?_cons_zero, hn]
        | succ n =>
          simp only [List.getElem?_cons_succ] at hn ⊢
          exact hsame n y hn hy
      · rw [hi]
        simp [List.filter_cons, hc]

/-- C14: the statement of a successful run is `"select "`, the deduplicated
columns joined by `", "`, `" from "`, the chain front to back, `" where "` and
the predicates joined by `" and "`; the predicates are those of one pass of the
predicate loop over all `WhereClauses` in filter order, one per input
predicate, a predicate without `?` unchanged, and the groups are consumed by
the predicates with `?` alone, one each. -/
theorem CreateQuery_statement {α : Type} (reg : Str → Option Filter) (filters : List Str)
    (args : List (List α)) (q : Str) (a : List α)
    (h : CreateQuery reg filters args = .returned q a none) :
    ∃ (f0 : Filter) (more : List Filter) (anchor : Str) (tl : List Str)
      (pairs : List (Str × Str)) (wheres : List Str),
      resolved reg filters = f0 :: more ∧ f0.Tables = anchor :: tl ∧
      q = "select ".toList ++
          Join (firstOccurrences ((resolved reg filters).flatMap Filter.SelectedColumns))
            ", ".toList ++
          " from ".toList ++
          (anchor ++ pairs.flatMap (fun p => " join ".toList ++ p.1 ++ " on ".toList ++ p.2)) ++
          " where ".toList ++ Join wheres " and ".toList ∧
      whereLoop args ((resolved reg filters).flatMap Filter.WhereClauses) (0, [], []) =
        .ok (args.length, a, wheres) ∧
      wheres.length = ((resolved reg filters).flatMap Filter.WhereClauses).length ∧
      (∀ (n : Nat) (w : Str),
        ((resolved reg filters).flatMap Filter.WhereClauses)[n]? = some w →
        Contains w qmark = false → wheres[n]? = some w) ∧
      args.length = placeholderCount (resolved reg filters) := by
  obtain ⟨f0, more, anchor, tl, s, aid, links, hres, hT, hq, hrep, -, -, hl, hind, ha⟩ :=
    CreateQuery_ok_chain h
  have hw := filterLoop_wheres reg args filters _ s hl
  have hsel := filterLoop_selects reg args filters _ s [] hl (by simp [seed])
    (by simp [seed, firstOccurrences])
  rw [List.nil_append] at hsel
  have hseed : ((seed α anchor).argInd, (seed α anchor).retArgs, (seed α anchor).wheresSlice) =
      ((0 : Nat), ([] : List α), ([] : List Str)) := rfl
  rw [hseed, hind, ← ha] at hw
  obtain ⟨out, hout, hlen, hsame, hcount⟩ := whereLoop_shape args _ _ _ _ _ _ _ hw
  rw [List.nil_append] at hout
  subst hout
  refine ⟨f0, more, anchor, tl, links.map Link.pair, s.wheresSlice, hres, hT, ?_, hw, hlen,
    hsame, ?_⟩
  · rw [hq, hsel, hrep.render]
    rfl
  · rw [hcount, Nat.zero_add]
    rfl

/-- C14 at the filters `f1`, `f2`, `f3` of the test. -/
theorem CreateQuery_statement_witness :
    ∃ (f0 : Filter) (more : List Filter) (anchor : Str) (tl : List Str)
      (pairs : List (Str × Str)) (wheres : List Str),
      resolved testReg testNames = f0 :: more ∧ f0.Tables = anchor :: tl ∧
      testQuery = "select ".toList ++
          Join (firstOccurrences ((resolved testReg testNames).flatMap Filter.SelectedColumns))
            ", ".toList ++
          " from ".toList ++
          (anchor ++ pairs.flatMap (fun p => " join ".toList ++ p.1 ++ " on ".toList ++ p.2)) ++
          " where ".toList ++ Join wheres " and ".toList ∧
      whereLoop [[1], [2], [3]] ((resolved testReg testNames).flatMap Filter.WhereClauses)
          (0, [], []) =
        .ok ([[1], [2], [3]].length, [1, 2, 3], wheres) ∧
      wheres.length = ((resolved testReg testNames).flatMap Filter.WhereClauses).length ∧
      (∀ (n : Nat) (w : Str),
        ((resolved testReg testNames).flatMap Filter.WhereClauses)[n]? = some w →
        Contains w qmark = false → wheres[n]? = some w) ∧
      [[1], [2], [3]].length = placeholderCount (resolved testReg testNames) :=
  CreateQuery_statement testReg testNames [[1], [2], [3]] testQuery [1, 2, 3] testQuery_run

/-! ## C15: the staged builder -/

theorem joinChain_eq : ∀ (pairs : List (Str × Str)) (f : Filter),
    joinChain f pairs =
      { f with Tables := f.Tables ++ pairs.map Prod.fst,
               JoinsOn := f.JoinsOn ++ pairs.map Prod.snd } := by
  intro pairs
  induction pairs with
  | nil => intro f; simp [joinChain]
  | cons p rest ih =>
    intro f
    obtain ⟨t, c⟩ := p
    rw [joinChain, ih]
    simp [Filter.Join, Filter.On]

/-- The first filter of `TestCreateFilter`. -/
theorem testBuilder_run :
    (joinChain ((NewFilter.Select ["t1.id".toList]).From "t1".toList)
        [("t2".toList, "t1.t2_id = t2.id".toList)]).Where
        ["t2.col > 7".toList, "t1.col > 8".toList] =
      { SelectedColumns := ["t1.id".toList],
        Tables := ["t1".toList, "t2".toList],
        JoinsOn := ["t1.t2_id = t2.id".toList],
        WhereClauses := ["t2.col > 7".toList, "t1.col > 8".toList] } := by
  rfl

/-- C15: the chain `NewFilter().Select(cols...).From(a).Join(t1).On(c1)...
Join(tn).On(cn).Where(ps...)` yields the filter with `SelectedColumns = cols`,
`Tables = [a, t1, ..., tn]`, `JoinsOn = [c1, ..., cn]` and `WhereClauses = ps`,
for which `len(JoinsOn) == len(Tables) - 1`. -/
theorem builder_chain (cols : List Str) (a : Str) (pairs : List (Str × Str))
    (ps : List Str) :
    (joinChain ((NewFilter.Select cols).From a) pairs).Where ps =
        { SelectedColumns := cols,
          Tables := a :: pairs.map Prod.fst,
          JoinsOn := pairs.map Prod.snd,
          WhereClauses := ps } ∧
      ((joinChain ((NewFilter.Select cols).From a) pairs).Where ps).JoinsOn.length =
        ((joinChain ((NewFilter.Select cols).From a) pairs).Where ps).Tables.length - 1 := by
  have h : (joinChain ((NewFilter.Select cols).From a) pairs).Where ps =
      { SelectedColumns := cols,
        Tables := a :: pairs.map Prod.fst,
        JoinsOn := pairs.map Prod.snd,
        WhereClauses := ps } := by
    rw [joinChain_eq]
    simp [Filter.Where, Filter.From, Filter.Select, NewFilter]
  rw [h]
  exact ⟨rfl, by simp⟩

/-! ## C18, C19: panics -/

/-- C18 fails on the code: composing `f2`, whose predicate `t1.col > ?` holds a
`?`, with the one empty group panics in `strings.Repeat(", ?", -1)`. -/
theorem emptyGroup_panics :
    CreateQuery testReg ["f2".toList] ([[]] : List (List Nat)) =
      .panicked .negativeRepeatCount := by
  rfl

theorem whereLoop_no_panic {α : Type} (args : List (List α)) (hargs : ∀ a ∈ args, a ≠ []) :
    ∀ (ws : List Str) (st : Nat × List α × List Str) (p : Panic),
      whereLoop args ws st ≠ .error (.panic p) := by
  intro ws
  induction ws with
  | nil => intro st p h; simp [whereLoop] at h
  | cons x rest ih =>
    intro st p h
    obtain ⟨i, r, w⟩ := st
    unfold whereLoop at h
    by_cases hc : Contains x qmark = true
    · simp only [hc, if_true] at h
      cases ha : args[i]? with
      | none => simp [ha] at h
      | some a =>
        simp only [ha] at h
        have hz : ¬ a.length = 0 := fun h0 =>
          hargs a (List.getElem?_mem ha) (List.length_eq_zero.1 h0)
        simp only [hz, if_false] at h
        exact ih _ p h
    · simp only [hc, Bool.false_eq_true, if_false] at h
      exact ih _ p h

theorem filterLoop_no_panic {α : Type} (reg : Str → Option Filter) (args : List (List α))
    (hargs : ∀ a ∈ args, a ≠ []) (F : List Filter) (anchor : Str) :
    ∀ (filters : List Str) (s : Session α),
      (∀ f ∈ resolved reg filters, f.Tables.length - 1 ≤ f.JoinsOn.length) →
      (∀ f ∈ resolved reg filters, f ∈ F) →
      ChainInv F anchor s.filterList s.usedTables →
      ∀ p, filterLoop reg args filters s ≠ .error (.panic p) := by
  intro filters
  induction filters with
  | nil => intro s _ _ _ p h; simp [filterLoop] at h
  | cons key rest ih =>
    intro s hJ hF hinv p h
    cases hreg : reg key with
    | none =>
      rw [filterLoop_cons_missing reg args key rest s hreg] at h
      simp at h
    | some f =>
      have hcons := mem_resolved_cons rest hreg
      rw [hcons] at hJ hF
      cases hT : f.Tables with
      | nil =>
        rw [filterLoop_cons_zero reg args key rest s f hreg hT] at h
        simp at h
      | cons t ts =>
        have hne : f.Tables ≠ [] := by rw [hT]; simp
        rcases sqlJoin_spec F f (hF f (List.mem_cons_self _ _)) anchor _ _ hinv t ts hT with
          ⟨-, hbad⟩ | ⟨-, l', u', hok, hinv', -⟩ | ⟨-, -, hbad⟩
        · rw [filterLoop_cons_join_err reg args key rest s f _ _ _ hreg hne hbad] at h
          simp at h
        · cases hw : whereLoop args f.WhereClauses (s.argInd, s.retArgs, s.wheresSlice) with
          | error st =>
            rw [filterLoop_cons_where_err reg args key rest s f l' u' st hreg hne hok hw] at h
            simp only [Except.error.injEq] at h
            exact whereLoop_no_panic args hargs _ _ p (h ▸ hw)
          | ok r =>
            obtain ⟨i1, r1, w1⟩ := r
            rw [filterLoop_cons_next reg args key rest s f l' u' i1 r1 w1 hreg hne hok hw] at h
            exact ih _ (fun g hg => hJ g (List.mem_cons_of_mem _ hg))
              (fun g hg => hF g (List.mem_cons_of_mem _ hg)) hinv' p h
        · have := hJ f (List.mem_cons_self _ _)
          omega

/-- The recorded positions of a chain state: every key of the map points at an
element of the list, and the keys are the anchor and the tables of the
`" join"` elements. -/
theorem Rep.marks {l : GoList} {u : TableMap} {anchor : Str} {aid : Nat} {links : List Link}
    (h : Rep l u anchor aid links) :
    (∀ t, u.has t = true → ∃ x ∈ l.elems, u.get t = some x.id) ∧
    (∀ t, u.has t = true ↔
      (t = anchor ∨ ∃ x ∈ l.elems.tail, x.Value = " join ".toList ++ t)) := by
  constructor
  · intro t ht
    obtain ⟨L1, L2, pre, x, hL, hget, hpre, -⟩ := h.split t ht
    refine ⟨x, ?_, hget⟩
    rw [h.elems_eq, hL, List.flatMap_append, ← List.cons_append, ← hpre]
    simp
  · intro t
    rw [h.has_table_iff, h.elems_eq, List.tail_cons]
    constructor
    · rintro (h1 | h1)
      · exact Or.inl h1
      · right
        obtain ⟨k, hk, hkt⟩ := List.mem_map.1 h1
        refine ⟨⟨k.joinId, " join ".toList ++ k.table⟩, ?_, by rw [hkt]⟩
        exact List.mem_flatMap.2 ⟨k, hk, by simp [Link.elems]⟩
    · rintro (h1 | ⟨x, hx, hv⟩)
      · exact Or.inl h1
      · right
        obtain ⟨k, hk, hxk⟩ := List.mem_flatMap.1 hx
        simp only [Link.elems, List.mem_cons, List.mem_singleton, List.not_mem_nil,
          or_false] at hxk
        rcases hxk with rfl | rfl
        · have : k.table = t := List.append_cancel_left hv
          exact List.mem_map.2 ⟨k, hk, this⟩
        · exfalso
          have h2 : (" on ".toList ++ k.cond)[1]? = (" join ".toList ++ t)[1]? := by
            show (({ id := k.onId, Value := " on ".toList ++ k.cond } : Element).Value)[1]? = _
            rw [hv]
          simp at h2

/-- C19: when every composed filter has `len(JoinsOn) >= len(Tables) - 1` and no
argument group is empty, `CreateQuery` returns: no index is out of range, no
repeat count is negative and no insertion mark is nil or outside the chain (any
of these would be a panic).  After every prefix of the names that is processed
without error, each key of `usedTables` points at an element of the chain and
the keys are the anchor and the tables of the `" join"` elements. -/
theorem CreateQuery_total {α : Type} (reg : Str → Option Filter) (filters : List Str)
    (args : List (List α))
    (hJ : ∀ f ∈ resolved reg filters, f.Tables.length - 1 ≤ f.JoinsOn.length)
    (hargs : ∀ a ∈ args, a ≠ []) :
    (∃ q a e, CreateQuery reg filters args = .returned q a e) ∧
    ∀ (key0 : Str) (pre : List Str) (f0 : Filter) (anchor : Str) (tl0 : List Str)
      (s : Session α),
      reg key0 = some f0 → f0.Tables = anchor :: tl0 →
      filterLoop reg args (key0 :: pre) (seed α anchor) = .ok s →
      (∀ t, s.usedTables.has t = true →
        ∃ x ∈ s.filterList.elems, s.usedTables.get t = some x.id) ∧
      (∀ t, s.usedTables.has t = true ↔
        (t = anchor ∨ ∃ x ∈ s.filterList.elems.tail, x.Value = " join ".toList ++ t)) := by
  constructor
  · cases filters with
    | nil => exact ⟨_, _, _, rfl⟩
    | cons key0 rest =>
      cases h0 : reg key0 with
      | none => exact ⟨[], [], some (.FilterDoesNotExistErr key0), by simp [CreateQuery, h0]⟩
      | some f0 =>
        cases hT0 : f0.Tables with
        | nil => exact ⟨[], [], some (.ZeroTablesErr key0), by simp [CreateQuery, h0, hT0]⟩
        | cons anchor tl =>
          cases hl : filterLoop reg args (key0 :: rest) (seed α anchor) with
          | error st =>
            cases st with
            | err e =>
              exact ⟨[], [], some e,
                CreateQuery_of_loop_err reg args key0 rest f0 anchor tl e h0 hT0 hl⟩
            | panic p =>
              exact absurd hl (filterLoop_no_panic reg args hargs _ anchor _ _ hJ
                (fun f hf => hf) (seed_inv α _ anchor) p)
          | ok s =>
            by_cases hlt : s.argInd < args.length
            · exact ⟨[], [], some (.TooManyArgs args.length s.argInd),
                by simp only [CreateQuery, h0, hT0, hl, hlt, if_true]⟩
            · exact ⟨Sprintf (Join s.selectsSlice ", ".toList) s.filterList.render
                (Join s.wheresSlice " and ".toList), s.retArgs, none,
                by simp only [CreateQuery, h0, hT0, hl, hlt, if_false]⟩
  · intro key0 pre f0 anchor tl0 s _ _ hl
    obtain ⟨⟨aid, links, hrep, -⟩, -⟩ := filterLoop_chain reg args
      (resolved reg (key0 :: pre)) anchor (key0 :: pre) _ s hl (fun f hf => hf)
      (seed_inv α _ anchor)
    exact hrep.marks

/-- C19 at the filters `f1`, `f2`, `f3` of the test with three groups. -/
theorem CreateQuery_total_witness :
    ∃ q a e, CreateQuery testReg testNames [[1], [2], [3]] = .returned q a e :=
  (CreateQuery_total testReg testNames [[1], [2], [3]] (by decide) (by decide)).1

/-! ## C20: predicates with a single marker -/

theorem countScan_openQ_hit (s : Str) :
    countScan openQ 0 ('(' :: '?' :: s) = 1 + countScan openQ 0 s := by
  simp [countScan, openQ, List.isPrefixOf]

theorem countScan_openQ_miss (c : Char) (s : Str)
    (h : c ≠ '(' ∨ s.head? ≠ some '?') :
    countScan openQ 0 (c :: s) = countScan openQ 0 s := by
  have : openQ.isPrefixOf (c :: s) = false := by
    cases s with
    | nil => simp [openQ, List.isPrefixOf]
    | cons d t =>
      simp only [openQ, List.isPrefixOf, Bool.and_true, Bool.and_eq_false_imp, beq_iff_eq]
      intro hc
      rcases h with h | h
      · exact absurd hc.symm h
      · simp only [List.head?_cons, ne_eq, Option.some.injEq] at h
        simpa using fun hd : '?' = d => h hd.symm
  simp [countScan, this]

theorem countScan_openQ_append :
    ∀ (pre s : Str), '?' ∉ pre → s.head? ≠ some '?' →
      countScan openQ 0 (pre ++ s) = countScan openQ 0 s := by
  intro pre
  induction pre with
  | nil => intro s _ _; rfl
  | cons c pre ih =>
    intro s hq hs
    have hq' : '?' ∉ pre := fun h => hq (List.mem_cons_of_mem _ h)
    rw [List.cons_append, countScan_openQ_miss, ih s hq' hs]
    right
    cases pre with
    | nil => simpa using hs
    | cons d t =>
      simp only [List.cons_append, List.head?_cons, ne_eq, Option.some.injEq]
      intro hd
      exact hq (by simp [hd])

theorem countScan_openQ_clean : ∀ s : Str, '?' ∉ s → countScan openQ 0 s = 0 := by
  intro s hs
  have := countScan_openQ_append s [] hs (by simp)
  rw [List.append_nil] at this
  rw [this]
  rfl

/-- A predicate whose only `?` follows a `(` holds `"(?"` once. -/
theorem Count_single (w pre post : Str) (hw : w = pre ++ '(' :: '?' :: post)
    (hone : w.count '?' = 1) : Count w openQ = 1 := by
  subst hw
  have hcount : List.count '?' pre + List.count '?' post = 0 := by
    rw [List.count_append, List.count_cons_of_ne (by decide), List.count_cons_self] at hone
    omega
  have hpre : '?' ∉ pre := List.count_eq_zero.1 (by omega)
  have hpost : '?' ∉ post := List.count_eq_zero.1 (by omega)
  unfold Count
  rw [countScan_openQ_append pre _ hpre (by simp), countScan_openQ_hit,
    countScan_openQ_clean post hpost]

/-- C20: when no selected column, table name or join condition of the composed
filters contains `?`, every predicate that contains `?` contains it once, that
`?` follows a `(` or the matched group has one value, and no group is empty,
the statement of a successful run holds as many `?` as there are returned
arguments. -/
theorem CreateQuery_single_marker_parity {α : Type} (reg : Str → Option Filter)
    (filters : List Str) (args : List (List α)) (q : Str) (a : List α)
    (h : CreateQuery reg filters args = .returned q a none)
    (hclean : ∀ f ∈ resolved reg filters,
      (∀ c ∈ f.SelectedColumns, '?' ∉ c) ∧ (∀ t ∈ f.Tables, '?' ∉ t) ∧
        (∀ c ∈ f.JoinsOn, '?' ∉ c))
    (hone : ∀ w ∈ placeholderPredicates (resolved reg filters), w.count '?' = 1)
    (hshape : ∀ pa ∈ (placeholderPredicates (resolved reg filters)).zip args,
      (∃ pre post, pa.1 = pre ++ '(' :: '?' :: post) ∨ pa.2.length = 1)
    (hargs : ∀ g ∈ args, g ≠ []) :
    q.count '?' = a.length := by
  obtain ⟨wheres, hw, hq⟩ := CreateQuery_marks h hclean
  have hbal : ∀ pa ∈ (((resolved reg filters).flatMap Filter.WhereClauses).filter
      (fun x => Contains x qmark)).zip (args.drop 0),
      pa.1.count '?' + Count pa.1 openQ * (pa.2.length - 1) = pa.2.length := by
    intro pa hpa
    rw [List.drop_zero] at hpa
    have h1 : pa.1.count '?' = 1 := hone pa.1 (List.of_mem_zip hpa).1
    have h2 : pa.2.length ≠ 0 := fun h0 =>
      hargs pa.2 (List.of_mem_zip hpa).2 (List.length_eq_zero.1 h0)
    rcases hshape pa hpa with ⟨pre, post, hpp⟩ | hlen
    · rw [h1, Count_single pa.1 pre post hpp h1]
      omega
    · rw [h1, hlen]
      omega
  have := whereLoop_count args _ 0 [] [] _ _ _ hw hbal
  simp only [List.map_nil, List.sum_nil, List.length_nil, Nat.add_zero, Nat.zero_add] at this
  rw [hq, this]

/-- C20 at the filters `f1`, `f2`, `f3` of the test: each predicate with `?` is
matched with a group of one value. -/
theorem CreateQuery_single_marker_parity_witness :
    List.count '?' testQuery = [1, 2, 3].length :=
  CreateQuery_single_marker_parity testReg testNames [[1], [2], [3]] testQuery [1, 2, 3]
    testQuery_run (by decide) (by decide) (fun pa hpa => Or.inr (by
      simp only [placeholderPredicates, resolved, testNames, testReg] at hpa
      revert pa
      decide)) (by decide)

/-! ## C17: the first join condition of a table wins -/

theorem sqlJoinBody_has_mono (f : Filter) (i : Nat) (l l' : GoList) (u u' : TableMap)
    (T : Str) (h : sqlJoinBody f i l u = .ok (l', u')) (hT : u.has T = true) :
    u'.has T = true := by
  unfold sqlJoinBody at h
  split at h
  · simp at h
  · split at h
    · simp only [Except.ok.injEq, Prod.mk.injEq] at h
      rw [← h.2]; exact hT
    · split at h
      · simp at h
      · split at h
        · simp at h
        · split at h
          · simp at h
          · split at h
            · simp at h
            · simp only [Except.ok.injEq, Prod.mk.injEq] at h
              rw [← h.2, TableMap.has_set]
              exact Or.inr hT

theorem sqlJoinLoop_has_mono (f : Filter) (T : Str) :
    ∀ (n i : Nat) (l l' : GoList) (u u' : TableMap),
      sqlJoinLoop f n i l u = .ok (l', u') → u.has T = true → u'.has T = true := by
  intro n
  induction n with
  | zero =>
    intro i l l' u u' h hT
    simp only [sqlJoinLoop, Except.ok.injEq, Prod.mk.injEq] at h
    rw [← h.2]; exact hT
  | succ n ih =>
    intro i l l' u u' h hT
    simp only [sqlJoinLoop] at h
    cases hb : sqlJoinBody f i l u with
    | error p => simp [hb] at h
    | ok r =>
      obtain ⟨l1, u1⟩ := r
      simp only [hb] at h
      exact ih _ _ _ _ _ h (sqlJoinBody_has_mono f i l l1 u u1 T hb hT)

theorem sqlJoin_has_mono (f : Filter) (T : Str) (l l' : GoList) (u u' : TableMap)
    (e : Option Err) (h : sqlJoin f l u = .ok (l', u', e)) (hT : u.has T = true) :
    u'.has T = true := by
  unfold sqlJoin at h
  cases h0 : f.Tables[0]? with
  | none => simp [h0] at h
  | some first =>
    simp only [h0] at h
    by_cases hf : u.has first = true
    · simp only [hf, Bool.not_true, Bool.false_eq_true, if_false] at h
      cases hl : sqlJoinLoop f (f.Tables.length - 1) 1 l u with
      | error p => simp [hl] at h
      | ok r =>
        obtain ⟨l1, u1⟩ := r
        simp only [hl, Except.ok.injEq, Prod.mk.injEq] at h
        rw [← h.2.1]
        exact sqlJoinLoop_has_mono f T _ _ _ _ _ _ hl hT
    · have hf' : u.has first = false := by simpa using hf
      simp only [hf', Bool.not_false, if_true, Except.ok.injEq, Prod.mk.injEq] at h
      rw [← h.2.1]; exact hT

theorem sqlJoinBody_withCondition (f : Filter) (j : Nat) (c T : Str)
    (hT : f.Tables[j + 1]? = some T) (i : Nat) (hi : 1 ≤ i) (l : GoList) (u : TableMap)
    (hu : u.has T = true) :
    sqlJoinBody (withCondition f j c) i l u = sqlJoinBody f i l u := by
  unfold sqlJoinBody
  have hTab : (withCondition f j c).Tables = f.Tables := rfl
  rw [hTab]
  cases hti : f.Tables[i]? with
  | none => rfl
  | some table =>
    simp only
    by_cases ht : u.has table = true
    · simp only [ht, if_true]
    · have hne : i - 1 ≠ j := by
        intro heq
        have : i = j + 1 := by omega
        rw [this, hT] at hti
        simp only [Option.some.injEq] at hti
        rw [← hti, hu] at ht
        exact ht rfl
      have hJ : (withCondition f j c).JoinsOn[i - 1]? = f.JoinsOn[i - 1]? := by
        show (f.JoinsOn.set j c)[i - 1]? = f.JoinsOn[i - 1]?
        exact List.getElem?_set_ne (Ne.symm hne)
      rw [hJ]

theorem sqlJoinLoop_withCondition (f : Filter) (j : Nat) (c T : Str)
    (hT : f.Tables[j + 1]? = some T) :
    ∀ (n i : Nat), 1 ≤ i → ∀ (l : GoList) (u : TableMap), u.has T = true →
      sqlJoinLoop (withCondition f j c) n i l u = sqlJoinLoop f n i l u := by
  intro n
  induction n with
  | zero => intro i _ l u _; rfl
  | succ n ih =>
    intro i hi l u hu
    simp only [sqlJoinLoop, sqlJoinBody_withCondition f j c T hT i hi l u hu]
    cases hb : sqlJoinBody f i l u with
    | error p => rfl
    | ok r =>
      obtain ⟨l1, u1⟩ := r
      exact ih (i + 1) (by omega) l1 u1 (sqlJoinBody_has_mono f i l l1 u u1 T hb hu)

theorem sqlJoin_withCondition (f : Filter) (j : Nat) (c T : Str)
    (hT : f.Tables[j + 1]? = some T) (l : GoList) (u : TableMap) (hu : u.has T = true) :
    sqlJoin (withCondition f j c) l u = sqlJoin f l u := by
  unfold sqlJoin
  have hTab : (withCondition f j c).Tables = f.Tables := rfl
  rw [hTab, sqlJoinLoop_withCondition f j c T hT _ 1 (le_refl _) l u hu]

theorem filterLoop_cons_congr {α : Type} (reg reg' : Str → Option Filter)
    (args : List (List α)) (k : Str) (rest : List Str) (s : Session α) (f f' : Filter)
    (h' : reg' k = some f') (h : reg k = some f) (hTab : f'.Tables = f.Tables)
    (hSel : f'.SelectedColumns = f.SelectedColumns)
    (hWh : f'.WhereClauses = f.WhereClauses)
    (hj : sqlJoin f' s.filterList s.usedTables = sqlJoin f s.filterList s.usedTables)
    (hnext : ∀ l1 u1, sqlJoin f s.filterList s.usedTables = .ok (l1, u1, none) →
      ∀ s1 : Session α, s1.usedTables = u1 →
        filterLoop reg' args rest s1 = filterLoop reg args rest s1) :
    filterLoop reg' args (k :: rest) s = filterLoop reg args (k :: rest) s := by
  simp only [filterLoop, h', h, hTab, hSel, hWh, hj]
  by_cases hz : f.Tables.length = 0
  · simp only [hz, if_true]
  · simp only [hz, if_false]
    cases hjr : sqlJoin f s.filterList s.usedTables with
    | error p => rfl
    | ok r =>
      obtain ⟨l1, u1, e⟩ := r
      cases e with
      | some e => rfl
      | none =>
        simp only
        cases whereLoop args f.WhereClauses (s.argInd, s.retArgs, s.wheresSlice) with
        | error st => rfl
        | ok r =>
          obtain ⟨i1, r1, w1⟩ := r
          exact hnext l1 u1 hjr _ rfl

theorem filterLoop_agree {α : Type} (reg reg' : Str → Option Filter) (args : List (List α)) :
    ∀ (filters : List Str) (s : Session α), (∀ k ∈ filters, reg' k = reg k) →
      filterLoop reg' args filters s = filterLoop reg args filters s := by
  intro filters
  induction filters with
  | nil => intro s _; rfl
  | cons k rest ih =>
    intro s hag
    have hk := hag k (List.mem_cons_self _ _)
    cases hr : reg k with
    | none =>
      rw [hr] at hk
      simp [filterLoop, hk, hr]
    | some g =>
      rw [hr] at hk
      exact filterLoop_cons_congr reg reg' args k rest s g g hk hr rfl rfl rfl rfl
        (fun _ _ _ s1 _ => ih s1 (fun k' hk' => hag k' (List.mem_cons_of_mem _ hk')))

theorem filterLoop_rebind {α : Type} (reg : Str → Option Filter) (args : List (List α))
    (key : Str) (f : Filter) (j : Nat) (c T : Str) (hreg : reg key = some f)
    (hT : f.Tables[j + 1]? = some T) :
    ∀ (filters : List Str) (s : Session α), s.usedTables.has T = true →
      filterLoop (rebind reg key (withCondition f j c)) args filters s =
        filterLoop reg args filters s := by
  intro filters
  induction filters with
  | nil => intro s _; rfl
  | cons k rest ih =>
    intro s hu
    by_cases hk : k = key
    · subst hk
      have h' : rebind reg k (withCondition f j c) k = some (withCondition f j c) := by
        simp [rebind]
      exact filterLoop_cons_congr reg _ args k rest s f (withCondition f j c) h' hreg rfl rfl
        rfl (sqlJoin_withCondition f j c T hT _ _ hu)
        (fun l1 u1 hj s1 hs1 => ih s1 (by
          rw [hs1]; exact sqlJoin_has_mono f T _ _ _ _ _ hj hu))
    · have h' : rebind reg key (withCondition f j c) k = reg k := by
        simp [rebind, hk]
      cases hr : reg k with
      | none =>
        rw [hr] at h'
        simp [filterLoop, h', hr]
      | some g =>
        rw [hr] at h'
        exact filterLoop_cons_congr reg _ args k rest s g g h' hr rfl rfl rfl rfl
          (fun l1 u1 hj s1 hs1 => ih s1 (by
            rw [hs1]; exact sqlJoin_has_mono g T _ _ _ _ _ hj hu))

theorem CreateQuery_congr {α : Type} (reg reg' : Str → Option Filter) (args : List (List α))
    (key0 : Str) (rest : List Str) (h0 : reg' key0 = reg key0)
    (hloop : ∀ anchor, filterLoop reg' args (key0 :: rest) (seed α anchor) =
      filterLoop reg args (key0 :: rest) (seed α anchor)) :
    CreateQuery reg' (key0 :: rest) args = CreateQuery reg (key0 :: rest) args := by
  simp only [CreateQuery, h0, hloop]

/-- Replacing, in a filter, the join condition of a table that an
earlier-processed filter lists as well does not change what the call returns. -/
theorem CreateQuery_rebind {α : Type} (reg : Str → Option Filter)
    (pre : List Str) (key : Str) (post : List Str) (args : List (List α)) (f : Filter)
    (j : Nat) (T c : Str) (hk : reg key = some f) (hnew : key ∉ pre)
    (hT : f.Tables[j + 1]? = some T) (hseen : ∃ g ∈ resolved reg pre, T ∈ g.Tables) :
    CreateQuery (rebind reg key (withCondition f j c)) (pre ++ key :: post) args =
      CreateQuery reg (pre ++ key :: post) args := by
  cases pre with
  | nil =>
    obtain ⟨g, hg, -⟩ := hseen
    simp [resolved] at hg
  | cons key0 pre =>
    have hag : ∀ k ∈ key0 :: pre, rebind reg key (withCondition f j c) k = reg k := by
      intro k hkm
      have : k ≠ key := fun h => hnew (h ▸ hkm)
      simp [rebind, this]
    rw [List.cons_append]
    apply CreateQuery_congr reg _ args key0 _ (hag key0 (List.mem_cons_self _ _))
    intro anchor
    rw [← List.cons_append, filterLoop_append, filterLoop_append,
      filterLoop_agree reg _ args (key0 :: pre) _ hag]
    cases hs : filterLoop reg args (key0 :: pre) (seed α anchor) with
    | error e => rfl
    | ok s =>
      simp only
      apply filterLoop_rebind reg args key f j c T hk hT
      obtain ⟨-, hkeys⟩ := filterLoop_chain reg args (resolved reg (key0 :: pre)) anchor
        (key0 :: pre) _ s hs (fun g hg => hg) (seed_inv α _ anchor)
      exact (hkeys T).2 (Or.inr hseen)

theorem conflict_run :
    CreateQuery conflictReg ["f1".toList, "g".toList] [[1]] =
      .returned ("select t1.id, t2.id from t1 join t2 on t1.t2_id = t2.id" ++
        " where t2.col > ? and t1.col2 = 'colcol' and t2.col = 1").toList [1] none := by
  rfl


/-! ## C16: the two-phase variant -/

theorem mergeLoop_cons_ok {reg : Str → Option Filter} {key : Str} {rest : List Str}
    {l l' : GoList} {u u' : TableMap}
    (h : mergeLoop reg (key :: rest) (l, u) = .ok (l', u')) :
    ∃ filter l1 u1, reg key = some filter ∧ filter.Tables ≠ [] ∧
      sqlJoin filter l u = .ok (l1, u1, none) ∧ mergeLoop reg rest (l1, u1) = .ok (l', u') := by
  unfold mergeLoop at h
  cases hr : reg key with
  | none => simp [hr] at h
  | some filter =>
    simp only [hr] at h
    by_cases hz : filter.Tables.length = 0
    · simp [hz] at h
    · simp only [hz, if_false] at h
      cases hj : sqlJoin filter l u with
      | error p => simp [hj] at h
      | ok r =>
        obtain ⟨l1, u1, e⟩ := r
        cases e with
        | some e => simp [hj] at h
        | none =>
          simp only [hj] at h
          exact ⟨filter, l1, u1, rfl, fun h0 => hz (by simp [h0]), hj, h⟩

theorem mergeLoop_cons_next (reg : Str → Option Filter) (key : Str) (rest : List Str)
    (l l1 : GoList) (u u1 : TableMap) (f : Filter) (hreg : reg key = some f)
    (hne : f.Tables ≠ []) (hj : sqlJoin f l u = .ok (l1, u1, none)) :
    mergeLoop reg (key :: rest) (l, u) = mergeLoop reg rest (l1, u1) := by
  have hz : ¬ f.Tables.length = 0 := fun h => hne (List.length_eq_zero.1 h)
  simp only [mergeLoop, hreg, hz, if_false, hj]

theorem composeLoop_cons_ok {α : Type} {reg : Str → Option Filter} {args : List (List α)}
    {key : Str} {rest : List Str} {c c' : Composition α}
    (h : composeLoop reg args (key :: rest) c = .ok c') :
    ∃ filter argInd1 retArgs1 wheres1, reg key = some filter ∧
      whereLoop args filter.WhereClauses (c.argInd, c.retArgs, c.wheresSlice) =
        .ok (argInd1, retArgs1, wheres1) ∧
      composeLoop reg args rest
          { selectsSet := (selectLoop filter.SelectedColumns (c.selectsSet, c.selectsSlice)).1,
            selectsSlice := (selectLoop filter.SelectedColumns (c.selectsSet, c.selectsSlice)).2,
            wheresSlice := wheres1, retArgs := retArgs1, argInd := argInd1 } = .ok c' := by
  unfold composeLoop at h
  cases hr : reg key with
  | none => simp [hr] at h
  | some filter =>
    simp only [hr] at h
    cases hw : whereLoop args filter.WhereClauses (c.argInd, c.retArgs, c.wheresSlice) with
    | error st => simp [hw] at h
    | ok r =>
      obtain ⟨argInd1, retArgs1, wheres1⟩ := r
      simp only [hw] at h
      exact ⟨filter, argInd1, retArgs1, wheres1, rfl, hw, h⟩

theorem composeLoop_cons_next {α : Type} (reg : Str → Option Filter) (args : List (List α))
    (key : Str) (rest : List Str) (c : Composition α) (f : Filter) (i1 : Nat)
    (r1 : List α) (w1 : List Str) (hreg : reg key = some f)
    (hw : whereLoop args f.WhereClauses (c.argInd, c.retArgs, c.wheresSlice) =
      .ok (i1, r1, w1)) :
    composeLoop reg args (key :: rest) c =
      composeLoop reg args rest
        { selectsSet := (selectLoop f.SelectedColumns (c.selectsSet, c.selectsSlice)).1,
          selectsSlice := (selectLoop f.SelectedColumns (c.selectsSet, c.selectsSlice)).2,
          wheresSlice := w1, retArgs := r1, argInd := i1 } := by
  simp only [composeLoop, hreg, hw]

/-- A run of the filter loop is a run of the merge and a run of the composition. -/
theorem filterLoop_two_phase {α : Type} (reg : Str → Option Filter) (args : List (List α)) :
    ∀ (filters : List Str) (s s' : Session α),
      filterLoop reg args filters s = .ok s' ↔
        (mergeLoop reg filters (s.filterList, s.usedTables) =
            .ok (s'.filterList, s'.usedTables) ∧
          composeLoop reg args filters s.composition = .ok s'.composition) := by
  intro filters
  induction filters with
  | nil =>
    intro s s'
    simp only [filterLoop, mergeLoop, composeLoop, Except.ok.injEq, Prod.mk.injEq]
    constructor
    · rintro rfl
      exact ⟨⟨rfl, rfl⟩, rfl⟩
    · rintro ⟨⟨h1, h2⟩, h3⟩
      cases s; cases s'
      simp only [Session.composition, Composition.mk.injEq] at h1 h2 h3
      obtain ⟨h3, h4, h5, h6, h7⟩ := h3
      subst h1 h2 h3 h4 h5 h6 h7
      rfl
  | cons key rest ih =>
    intro s s'
    constructor
    · intro h
      obtain ⟨filter, l1, u1, argInd1, retArgs1, wheres1, hreg, hne, hj, hw, hrest⟩ :=
        filterLoop_cons_ok h
      obtain ⟨h1, h2⟩ := (ih _ _).1 hrest
      refine ⟨?_, ?_⟩
      · rw [mergeLoop_cons_next reg key rest _ l1 _ u1 filter hreg hne hj]
        exact h1
      · rw [composeLoop_cons_next reg args key rest _ filter argInd1 retArgs1 wheres1 hreg hw]
        exact h2
    · rintro ⟨h1, h2⟩
      obtain ⟨filter, l1, u1, hreg, hne, hj, hmrest⟩ := mergeLoop_cons_ok h1
      obtain ⟨filter', argInd1, retArgs1, wheres1, hreg', hw, hcrest⟩ := composeLoop_cons_ok h2
      have : filter' = filter := by
        rw [hreg] at hreg'
        exact (Option.some.inj hreg').symm
      subst this
      rw [filterLoop_cons_next reg args key rest s filter' l1 u1 argInd1 retArgs1 wheres1 hreg
        hne hj hw]
      exact (ih _ _).2 ⟨hmrest, hcrest⟩

theorem CreateQueryTwoPhase_ok_inv {α : Type} {reg : Str → Option Filter}
    {filters : List Str} {args : List (List α)} {q : Str} {a : List α}
    (h : CreateQueryTwoPhase reg filters args = .returned q a none) :
    ∃ key0 rest firstFilter anchor tl l u c,
      filters = key0 :: rest ∧ reg key0 = some firstFilter ∧
      firstFilter.Tables = anchor :: tl ∧
      mergeLoop reg filters ((seed α anchor).filterList, (seed α anchor).usedTables) =
        .ok (l, u) ∧
      composeLoop reg args filters (seed α anchor).composition = .ok c ∧
      ¬ c.argInd < args.length ∧
      q = Sprintf (Join c.selectsSlice ", ".toList) l.render
            (Join c.wheresSlice " and ".toList) ∧
      a = c.retArgs := by
  unfold CreateQueryTwoPhase at h
  cases filters with
  | nil => simp at h
  | cons key0 rest =>
    simp only at h
    cases hr : reg key0 with
    | none => simp [hr] at h
    | some firstFilter =>
      simp only [hr] at h
      cases ht : firstFilter.Tables with
      | nil => simp [ht] at h
      | cons anchor tl =>
        simp only [ht] at h
        cases hm : mergeLoop reg (key0 :: rest)
            ((seed α anchor).filterList, (seed α anchor).usedTables) with
        | error st => cases st <;> simp [hm] at h
        | ok r =>
          obtain ⟨l, u⟩ := r
          simp only [hm] at h
          cases hc : composeLoop reg args (key0 :: rest) (seed α anchor).composition with
          | error st => cases st <;> simp [hc] at h
          | ok c =>
            simp only [hc] at h
            by_cases hlt : c.argInd < args.length
            · simp [hlt] at h
            · simp only [hlt, if_false, Outcome.returned.injEq, and_true] at h
              exact ⟨key0, rest, firstFilter, anchor, tl, l, u, c, rfl, hr, ht, hm, hc, hlt,
                h.1.symm, h.2.symm⟩

/-- C16: `CreateQuery` returns a statement and arguments exactly when the
two-phase variant (all merges first, all compositions afterwards) does, and
then both return the same statement and the same arguments; on every other
input both fail, so they differ at most in the failure reported. -/
theorem CreateQuery_two_phase {α : Type} (reg : Str → Option Filter) (filters : List Str)
    (args : List (List α)) (q : Str) (a : List α) :
    CreateQuery reg filters args = .returned q a none ↔
      CreateQueryTwoPhase reg filters args = .returned q a none := by
  constructor
  · intro h
    obtain ⟨key0, rest, firstFilter, anchor, tl, s, hf, hreg, hT, hl, hlt, hq, ha⟩ :=
      CreateQuery_ok_inv h
    subst hf
    obtain ⟨hm, hc⟩ := (filterLoop_two_phase reg args _ _ _).1 hl
    have hlt' : ¬ s.composition.argInd < args.length := hlt
    simp only [CreateQueryTwoPhase, hreg, hT, hm, hc, hlt', if_false]
    rw [hq, ha]
    rfl
  · intro h
    obtain ⟨key0, rest, firstFilter, anchor, tl, l, u, c, hf, hreg, hT, hm, hc, hlt, hq, ha⟩ :=
      CreateQueryTwoPhase_ok_inv h
    subst hf
    have hl : filterLoop reg args (key0 :: rest) (seed α anchor) =
        .ok { retArgs := c.retArgs, selectsSet := c.selectsSet, selectsSlice := c.selectsSlice,
              wheresSlice := c.wheresSlice, usedTables := u, filterList := l,
              argInd := c.argInd } :=
      (filterLoop_two_phase reg args _ _ _).2 ⟨hm, hc⟩
    simp only [CreateQuery, hreg, hT, hl, hlt, if_false]
    rw [hq, ha]

/-- C16 at the filters `f1`, `f2`, `f3` of the test. -/
theorem CreateQuery_two_phase_witness :
    CreateQueryTwoPhase testReg testNames [[1], [2], [3]] =
      .returned testQuery [1, 2, 3] none :=
  (CreateQuery_two_phase testReg testNames [[1], [2], [3]] testQuery [1, 2, 3]).1
    testQuery_run

/-- The names `f1`, `f6` without argument groups: `CreateQuery` reports the
missing group of `f1`, the two-phase variant the unreachable anchor of `f6`. -/
theorem two_phase_error_differs :
    CreateQuery testReg ["f1".toList, "f6".toList] ([] : List (List Nat)) =
        .returned [] [] (some (.NotEnoughArgs 0 1)) ∧
      CreateQueryTwoPhase testReg ["f1".toList, "f6".toList] ([] : List (List Nat)) =
        .returned [] [] (some (.CannotJoinTablesErr "table".toList
          ["t2".toList, "t1".toList])) :=
  ⟨rfl, rfl⟩

/-! ## C7: a variadic predicate -/

theorem sqlJoin_single_table (α : Type) (f : Filter) (t : Str) (hT : f.Tables = [t]) :
    sqlJoin f (seed α t).filterList (seed α t).usedTables =
      .ok ((seed α t).filterList, (seed α t).usedTables, none) := by
  have h0 : f.Tables[0]? = some t := by rw [hT]; simp
  have hhas : (seed α t).usedTables.has t = true := (seed_has α t t).2 rfl
  have hlen : f.Tables.length - 1 = 0 := by rw [hT]; rfl
  simp only [sqlJoin, h0, hhas, hlen, sqlJoinLoop, Bool.not_true, Bool.false_eq_true, if_false]

/-- C7: for a prefix `col` without `?` and a group `a` of `K ≥ 1` values, the
predicate loop turns `col ++ " in (?)"` into `col ++ " in (?, ..., ?)"` with `K`
comma-separated markers, appends it to the predicates, appends the `K` values,
in order, to the arguments and moves the cursor by one; composing a one-table
filter with this one predicate and the one group `a` returns the statement
with the expanded predicate and the arguments `a`. -/
theorem whereLoop_variadic {α : Type} (args : List (List α)) (col : Str)
    (argInd : Nat) (retArgs : List α) (wheres : List Str) (a : List α)
    (hcol : '?' ∉ col) (ha : args[argInd]? = some a) (hK : 1 ≤ a.length) :
    whereLoop args [col ++ " in (?)".toList] (argInd, retArgs, wheres) =
      .ok (argInd + 1, retArgs ++ a,
        wheres ++ [col ++ " in (".toList ++
          Join (List.replicate a.length qmark) ", ".toList ++ ")".toList]) ∧
    (∀ rest : List Str,
      whereLoop args ((col ++ " in (?)".toList) :: rest) (argInd, retArgs, wheres) =
        whereLoop args rest
          (argInd + 1, retArgs ++ a,
            wheres ++ [col ++ " in (".toList ++
              Join (List.replicate a.length qmark) ", ".toList ++ ")".toList])) ∧
    (col ++ " in (".toList ++
        Join (List.replicate a.length qmark) ", ".toList ++ ")".toList).count '?' =
      a.length ∧
    ∀ (reg : Str → Option Filter) (key : Str) (f : Filter) (t : Str),
      reg key = some f → f.Tables = [t] → f.WhereClauses = [col ++ " in (?)".toList] →
      CreateQuery reg [key] [a] =
        .returned
          (Sprintf (Join (firstOccurrences f.SelectedColumns) ", ".toList) t
            (col ++ " in (".toList ++
              Join (List.replicate a.length qmark) ", ".toList ++ ")".toList))
          a none := by
  have hstep := fun rest =>
    (whereLoop_variadic_step args col rest argInd retArgs wheres a hcol ha hK).1
  refine ⟨?_, hstep, (whereLoop_variadic_step args col [] argInd retArgs wheres a hcol ha hK).2,
    ?_⟩
  · rw [hstep []]
    rfl
  · intro reg key f t hreg hT hW
    have hw : whereLoop [a] f.WhereClauses
        ((seed α t).argInd, (seed α t).retArgs, (seed α t).wheresSlice) =
        .ok (1, a, [col ++ " in (".toList ++
          Join (List.replicate a.length qmark) ", ".toList ++ ")".toList]) := by
      rw [hW]
      exact ((whereLoop_variadic_step [a] col [] 0 [] [] a hcol rfl hK).1).trans rfl
    have hne : f.Tables ≠ [] := by rw [hT]; simp
    have hsel := (selectLoop_spec f.SelectedColumns [] [] [] (by simp)
      (by simp [firstOccurrences])).2
    rw [List.nil_append] at hsel
    have hl : filterLoop reg [a] [key] (seed α t) =
        .ok { retArgs := a,
              selectsSet := (selectLoop f.SelectedColumns ([], [])).1,
              selectsSlice := (selectLoop f.SelectedColumns ([], [])).2,
              wheresSlice := [col ++ " in (".toList ++
                Join (List.replicate a.length qmark) ", ".toList ++ ")".toList],
              usedTables := (seed α t).usedTables, filterList := (seed α t).filterList,
              argInd := 1 } :=
      (filterLoop_cons_next reg [a] key [] (seed α t) f _ _ _ _ _ hreg hne
        (sqlJoin_single_table α f t hT) hw).trans rfl
    have hlt : ¬ (1 < [a].length) := by simp
    have hrender : (seed α t).filterList.render = t := by
      simp [seed, GoList.PushBack, GoList.New, GoList.render]
    simp only [CreateQuery, hreg, hT, hl, hlt, if_false, hsel, hrender]
    rfl

/-- C7 at the predicate `country.code in (?)` with a group of three values. -/
theorem whereLoop_variadic_witness :
    whereLoop [[10, 20, 30]] ["country.code".toList ++ " in (?)".toList]
        (0, ([] : List Nat), []) =
      .ok (1, [10, 20, 30], ["country.code in (?, ?, ?)".toList]) :=
  (whereLoop_variadic [[10, 20, 30]] "country.code".toList 0 [] [] [10, 20, 30]
    (by decide) rfl (by decide)).1

/-! ## C4: every table once -/

/-- The values of the chain elements: the anchor, then `" join T"` and `" on C"`
for every pair. -/
theorem Rep.values {l : GoList} {u : TableMap} {anchor : Str} {aid : Nat} {links : List Link}
    (h : Rep l u anchor aid links) :
    l.elems.map Element.Value = anchor :: (links.map Link.pair).flatMap
      (fun p => [" join ".toList ++ p.1, " on ".toList ++ p.2]) := by
  rw [h.elems_eq, List.map_cons]
  congr 1
  clear h
  induction links with
  | nil => rfl
  | cons k ks ih =>
    rw [List.flatMap_cons, List.map_append, ih, List.map_cons, List.flatMap_cons]
    rfl

theorem count_join_values (t : Str) :
    ∀ pairs : List (Str × Str),
      (pairs.flatMap (fun p => [" join ".toList ++ p.1, " on ".toList ++ p.2])).count
          (" join ".toList ++ t) =
        (pairs.map Prod.fst).count t := by
  intro pairs
  induction pairs with
  | nil => rfl
  | cons p ps ih =>
    have hon : (" on ".toList ++ p.2 == " join ".toList ++ t) = false := by
      rw [beq_eq_false_iff_ne]
      intro heq
      have h2 : (" on ".toList ++ p.2)[1]? = (" join ".toList ++ t)[1]? := by rw [heq]
      simp at h2
    rw [List.flatMap_cons, List.count_append, ih, List.map_cons, List.count_cons,
      List.count_cons, List.count_cons, hon]
    by_cases hp : p.1 = t
    · simp [hp]
      omega
    · have : (" join ".toList ++ p.1 == " join ".toList ++ t) = false := by
        rw [beq_eq_false_iff_ne]
        intro heq
        exact hp (List.append_cancel_left heq)
      have hp' : (p.1 == t) = false := by rw [beq_eq_false_iff_ne]; exact hp
      simp [this, hp']

theorem count_of_nodup (t : Str) :
    ∀ l : List Str, l.Nodup → l.count t = if t ∈ l then 1 else 0 := by
  intro l
  induction l with
  | nil => intro _; rfl
  | cons x xs ih =>
    intro hnd
    rw [List.nodup_cons] at hnd
    rw [List.count_cons, ih hnd.2]
    by_cases hx : x = t
    · subst hx
      simp [hnd.1]
    · have hx' : ¬ t = x := fun e => hx e.symm
      simp [hx, hx']

/-- C4: in the chain a successful run ends with (the list of `filterLoop`'s
final session, which the statement renders), every table listed by a composed
filter stands once: the first element is the bare anchor of the first filter,
the others are the `" join T"`, `" on C"` elements of the pairs, the tables of
the pairs differ from each other and from the anchor, each `" join T"` element
occurs once, and the pairs number the distinct table names minus one. -/
theorem CreateQuery_tables_once {α : Type} (reg : Str → Option Filter) (filters : List Str)
    (args : List (List α)) (q : Str) (a : List α)
    (h : CreateQuery reg filters args = .returned q a none) :
    ∃ (f0 : Filter) (more : List Filter) (anchor : Str) (tl : List Str) (s : Session α)
      (pairs : List (Str × Str)),
      resolved reg filters = f0 :: more ∧ f0.Tables = anchor :: tl ∧
      filterLoop reg args filters (seed α anchor) = .ok s ∧
      q = Sprintf (Join s.selectsSlice ", ".toList) s.filterList.render
            (Join s.wheresSlice " and ".toList) ∧
      s.filterList.elems.map Element.Value =
        anchor :: pairs.flatMap (fun p => [" join ".toList ++ p.1, " on ".toList ++ p.2]) ∧
      s.filterList.render =
        anchor ++ pairs.flatMap (fun p => " join ".toList ++ p.1 ++ " on ".toList ++ p.2) ∧
      (anchor :: pairs.map Prod.fst).Nodup ∧
      (∀ t, t ∈ anchor :: pairs.map Prod.fst ↔ ∃ f ∈ resolved reg filters, t ∈ f.Tables) ∧
      (∀ t, (s.filterList.elems.tail.map Element.Value).count (" join ".toList ++ t) =
        if t ∈ pairs.map Prod.fst then 1 else 0) ∧
      (∀ p ∈ pairs, ∃ f ∈ resolved reg filters, p.1 ∈ f.Tables ∧ p.2 ∈ f.JoinsOn) ∧
      pairs.length = ((resolved reg filters).flatMap Filter.Tables).dedup.length - 1 := by
  obtain ⟨f0, more, anchor, tl, s, aid, links, hres, hT, hq, hrep, hlinked, hkeys, hl, -, -⟩ :=
    CreateQuery_ok_chain h
  have hmap : (links.map Link.pair).map Prod.fst = links.map Link.table := by
    rw [List.map_map]; rfl
  have hnd : (anchor :: (links.map Link.pair).map Prod.fst).Nodup := by
    rw [hmap]; exact hrep.tables_nodup
  have hmem : ∀ t, t ∈ anchor :: (links.map Link.pair).map Prod.fst ↔
      ∃ f ∈ resolved reg filters, t ∈ f.Tables := by
    intro t
    rw [hmap, List.mem_cons]
    exact hkeys t
  refine ⟨f0, more, anchor, tl, s, links.map Link.pair, hres, hT, hl, hq, hrep.values,
    hrep.render, hnd, hmem, ?_, Linked.mem _ _ _ hlinked, ?_⟩
  · intro t
    have htail : s.filterList.elems.tail.map Element.Value =
        (links.map Link.pair).flatMap
          (fun p => [" join ".toList ++ p.1, " on ".toList ++ p.2]) := by
      have hv := congrArg List.tail hrep.values
      rw [← List.map_tail] at hv
      exact hv.trans rfl
    rw [htail, count_join_values]
    exact count_of_nodup t _ (List.nodup_cons.1 hnd).2
  · have hperm : (anchor :: (links.map Link.pair).map Prod.fst).Perm
        ((resolved reg filters).flatMap Filter.Tables).dedup := by
      rw [List.perm_ext_iff_of_nodup hnd (List.nodup_dedup _)]
      intro t
      rw [hmem, List.mem_dedup, List.mem_flatMap]
    have := hperm.length_eq
    simp only [List.length_cons, List.length_map] at this
    simp only [List.length_map]
    omega

theorem testSession_run :
    (filterLoop testReg [[1], [2], [3]] testNames (seed Nat "t1".toList)).map
        (fun s => s.filterList.elems.map Element.Value) =
      .ok ["t1".toList, " join t3".toList, " on t1.t3_id = t3.id".toList, " join t4".toList,
        " on t3.t4_id = t4.id".toList, " join t2".toList, " on t1.t2_id = t2.id".toList] := by
  rfl

/-- C4 at the filters `f1`, `f2`, `f3` of the test, whose chain is `t1`,
`join t3`, `on ...`, `join t4`, `on ...`, `join t2`, `on ...`. -/
theorem CreateQuery_tables_once_witness :
    (filterLoop testReg [[1], [2], [3]] testNames (seed Nat "t1".toList)).map
        (fun s => s.filterList.elems.map Element.Value) =
      .ok ["t1".toList, " join t3".toList, " on t1.t3_id = t3.id".toList, " join t4".toList,
        " on t3.t4_id = t4.id".toList, " join t2".toList, " on t1.t2_id = t2.id".toList] ∧
    ∃ (f0 : Filter) (more : List Filter) (anchor : Str) (tl : List Str) (s : Session Nat)
      (pairs : List (Str × Str)),
      resolved testReg testNames = f0 :: more ∧ f0.Tables = anchor :: tl ∧
      filterLoop testReg [[1], [2], [3]] testNames (seed Nat anchor) = .ok s ∧
      testQuery = Sprintf (Join s.selectsSlice ", ".toList) s.filterList.render
            (Join s.wheresSlice " and ".toList) ∧
      s.filterList.elems.map Element.Value =
        anchor :: pairs.flatMap (fun p => [" join ".toList ++ p.1, " on ".toList ++ p.2]) ∧
      s.filterList.render =
        anchor ++ pairs.flatMap (fun p => " join ".toList ++ p.1 ++ " on ".toList ++ p.2) ∧
      (anchor :: pairs.map Prod.fst).Nodup ∧
      (∀ t, t ∈ anchor :: pairs.map Prod.fst ↔ ∃ f ∈ resolved testReg testNames, t ∈ f.Tables) ∧
      (∀ t, (s.filterList.elems.tail.map Element.Value).count (" join ".toList ++ t) =
        if t ∈ pairs.map Prod.fst then 1 else 0) ∧
      (∀ p ∈ pairs, ∃ f ∈ resolved testReg testNames, p.1 ∈ f.Tables ∧ p.2 ∈ f.JoinsOn) ∧
      pairs.length = ((resolved testReg testNames).flatMap Filter.Tables).dedup.length - 1 :=
  ⟨testSession_run,
    CreateQuery_tables_once testReg testNames [[1], [2], [3]] testQuery [1, 2, 3] testQuery_run⟩

/-! ## C17: the first condition stays in the chain -/

theorem not_mem_take_getElem? {α : Type} (L : List α) (T : α) (m : Nat)
    (h : T ∉ L.take (m + 1)) : ∀ k, k ≤ m → L[k]? ≠ some T := by
  intro k hk hget
  apply h
  have : (L.take (m + 1))[k]? = some T := by
    rw [List.getElem?_take_of_lt (by omega)]; exact hget
  exact List.getElem?_mem this

theorem sqlJoinBody_grows {l : GoList} {u : TableMap} {anchor : Str} {aid : Nat}
    {links : List Link} (h : Rep l u anchor aid links) (f : Filter) (i : Nat)
    (table prev : Str) (hti : f.Tables[i]? = some table) (hpi : f.Tables[i - 1]? = some prev)
    (hp : u.has prev = true) (l' : GoList) (u' : TableMap)
    (hb : sqlJoinBody f i l u = .ok (l', u')) :
    ∃ links', Rep l' u' anchor aid links' ∧ (∀ k ∈ links, k ∈ links') ∧
      u'.has table = true ∧ (∀ t, u'.has t = true → u.has t = true ∨ t = table) ∧
      (u.has table = false →
        ∃ cond, f.JoinsOn[i - 1]? = some cond ∧ (table, cond) ∈ links'.map Link.pair) := by
  by_cases ht : u.has table = true
  · rw [sqlJoinBody_skip f i l u table hti ht] at hb
    simp only [Except.ok.injEq, Prod.mk.injEq] at hb
    obtain ⟨rfl, rfl⟩ := hb
    exact ⟨links, h, fun k hk => hk, ht, fun t h1 => Or.inl h1,
      fun hf => absurd ht (by rw [hf]; simp)⟩
  · have ht' : u.has table = false := by simpa using ht
    rcases sqlJoinBody_spec h f i table prev hti hpi hp ht' with
      ⟨-, hbad⟩ | ⟨cond, L1, L2, l2, hc, hL, -, hbody, hrep2⟩
    · rw [hbad] at hb; simp at hb
    · rw [hbody] at hb
      simp only [Except.ok.injEq, Prod.mk.injEq] at hb
      obtain ⟨rfl, rfl⟩ := hb
      refine ⟨_, hrep2, ?_, ?_, ?_, ?_⟩
      · intro k hk
        rw [hL] at hk
        rcases List.mem_append.1 hk with h1 | h1
        · exact List.mem_append.2 (Or.inl h1)
        · exact List.mem_append.2 (Or.inr (List.mem_cons_of_mem _ h1))
      · rw [TableMap.has_set]; exact Or.inl rfl
      · intro t h1
        rw [TableMap.has_set] at h1
        exact h1.symm
      · intro _
        refine ⟨cond, hc, List.mem_map.2 ⟨⟨table, cond, l.nextId, l.nextId + 1⟩, ?_, rfl⟩⟩
        exact List.mem_append.2 (Or.inr (List.mem_cons_self _ _))

theorem sqlJoinLoop_grows (f : Filter) (anchor : Str) (aid : Nat) :
    ∀ (n i : Nat) (l : GoList) (u : TableMap) (links : List Link),
      Rep l u anchor aid links → 1 ≤ i → i + n = f.Tables.length →
      (∃ prev, f.Tables[i - 1]? = some prev ∧ u.has prev = true) →
      ∀ (l' : GoList) (u' : TableMap), sqlJoinLoop f n i l u = .ok (l', u') →
      ∃ links', Rep l' u' anchor aid links' ∧ (∀ k ∈ links, k ∈ links') ∧
        ∀ (m : Nat) (T C : Str), i ≤ m + 1 → f.Tables[m + 1]? = some T →
          f.JoinsOn[m]? = some C → u.has T = false →
          (∀ k, i ≤ k → k ≤ m → f.Tables[k]? ≠ some T) →
          (T, C) ∈ links'.map Link.pair := by
  intro n
  induction n with
  | zero =>
    intro i l u links hrep _ hlen _ l' u' hloop
    simp only [sqlJoinLoop, Except.ok.injEq, Prod.mk.injEq] at hloop
    obtain ⟨rfl, rfl⟩ := hloop
    refine ⟨links, hrep, fun k hk => hk, ?_⟩
    intro m T C hm hT _ _ _
    have : f.Tables[m + 1]? = none := List.getElem?_eq_none_iff.2 (by omega)
    rw [this] at hT
    exact absurd hT (by simp)
  | succ n ih =>
    intro i l u links hrep hi hlen ⟨prev, hpi, hp⟩ l' u' hloop
    have hlt : i < f.Tables.length := by omega
    obtain ⟨table, hti⟩ : ∃ table, f.Tables[i]? = some table :=
      ⟨f.Tables[i], List.getElem?_eq_getElem hlt⟩
    have hti' : f.Tables[i + 1 - 1]? = some table := by simpa using hti
    simp only [sqlJoinLoop] at hloop
    cases hb : sqlJoinBody f i l u with
    | error p => simp [hb] at hloop
    | ok r =>
      obtain ⟨l1, u1⟩ := r
      simp only [hb] at hloop
      obtain ⟨links1, hrep1, hsub1, hhas1, hkeys1, hnew1⟩ :=
        sqlJoinBody_grows hrep f i table prev hti hpi hp l1 u1 hb
      obtain ⟨links2, hrep2, hsub2, hnew2⟩ :=
        ih (i + 1) l1 u1 links1 hrep1 (by omega) (by omega) ⟨table, hti', hhas1⟩ l' u' hloop
      refine ⟨links2, hrep2, fun k hk => hsub2 k (hsub1 k hk), ?_⟩
      intro m T C hm hT hC hu hfirst
      by_cases hmi : m + 1 = i
      · have him : i - 1 = m := by omega
        rw [← hmi] at hti
        rw [hti] at hT
        simp only [Option.some.injEq] at hT
        subst hT
        obtain ⟨cond, hc, hin⟩ := hnew1 hu
        rw [him, hC] at hc
        simp only [Option.some.injEq] at hc
        subst hc
        obtain ⟨k, hk, hkp⟩ := List.mem_map.1 hin
        exact List.mem_map.2 ⟨k, hsub2 k hk, hkp⟩
      · apply hnew2 m T C (by omega) hT hC
        · cases hu1 : u1.has T with
          | false => rfl
          | true =>
            rcases hkeys1 T hu1 with h1 | h1
            · rw [hu] at h1; simp at h1
            · exact absurd (h1 ▸ hti) (hfirst i (le_refl _) (by omega))
        · intro k hk1 hk2
          exact hfirst k (by omega) hk2

theorem sqlJoin_grows {l : GoList} {u : TableMap} {anchor : Str} {aid : Nat}
    {links : List Link} (hrep : Rep l u anchor aid links) (f : Filter) (l' : GoList)
    (u' : TableMap) (h : sqlJoin f l u = .ok (l', u', none)) :
    ∃ links', Rep l' u' anchor aid links' ∧ (∀ k ∈ links, k ∈ links') ∧
      ∀ (m : Nat) (T C : Str), f.Tables[m + 1]? = some T → f.JoinsOn[m]? = some C →
        u.has T = false → (∀ k, k ≤ m → f.Tables[k]? ≠ some T) →
        (T, C) ∈ links'.map Link.pair := by
  unfold sqlJoin at h
  cases h0 : f.Tables[0]? with
  | none => simp [h0] at h
  | some first =>
    simp only [h0] at h
    by_cases hf : u.has first = true
    · simp only [hf, Bool.not_true, Bool.false_eq_true, if_false] at h
      cases hl : sqlJoinLoop f (f.Tables.length - 1) 1 l u with
      | error p => simp [hl] at h
      | ok r =>
        obtain ⟨l1, u1⟩ := r
        simp only [hl, Except.ok.injEq, Prod.mk.injEq, and_true] at h
        obtain ⟨rfl, rfl⟩ := h
        have hlen : 0 < f.Tables.length := by
          rcases Nat.eq_zero_or_pos f.Tables.length with hz | hz
          · have : f.Tables[0]? = none := List.getElem?_eq_none_iff.2 (by omega)
            rw [this] at h0
            exact absurd h0 (by simp)
          · exact hz
        obtain ⟨links', hrep', hsub, hnew⟩ :=
          sqlJoinLoop_grows f anchor aid (f.Tables.length - 1) 1 l u links hrep (le_refl _)
            (by omega) ⟨first, by simpa using h0, hf⟩ l1 u1 hl
        refine ⟨links', hrep', hsub, ?_⟩
        intro m T C hT hC hu hfirst
        exact hnew m T C (by omega) hT hC hu (fun k _ hk => hfirst k hk)
    · have hf' : u.has first = false := by simpa using hf
      simp [hf'] at h

theorem filterLoop_grows {α : Type} (reg : Str → Option Filter) (args : List (List α))
    (anchor : Str) (aid : Nat) :
    ∀ (filters : List Str) (s s' : Session α) (links : List Link),
      filterLoop reg args filters s = .ok s' →
      Rep s.filterList s.usedTables anchor aid links →
      ∃ links', Rep s'.filterList s'.usedTables anchor aid links' ∧
        ∀ k ∈ links, k ∈ links' := by
  intro filters
  induction filters with
  | nil =>
    intro s s' links h hrep
    simp only [filterLoop, Except.ok.injEq] at h
    subst h
    exact ⟨links, hrep, fun k hk => hk⟩
  | cons key rest ih =>
    intro s s' links h hrep
    obtain ⟨filter, l1, u1, argInd1, retArgs1, wheres1, -, -, hj, -, hrest⟩ :=
      filterLoop_cons_ok h
    obtain ⟨links1, hrep1, hsub1, -⟩ := sqlJoin_grows hrep filter l1 u1 hj
    obtain ⟨links2, hrep2, hsub2⟩ := ih _ s' links1 hrest hrep1
    exact ⟨links2, hrep2, fun k hk => hsub2 k (hsub1 k hk)⟩

/-- The chain of a successful run has the pair of `T` with the condition `C` of
the first filter, in the processing order, that lists `T`. -/
theorem filterLoop_first_condition {α : Type} (reg : Str → Option Filter)
    (args : List (List α)) (pre1 : List Str) (keyg : Str) (rest : List Str) (g : Filter)
    (i : Nat) (T C anchor : Str) (s : Session α) (hg : reg keyg = some g)
    (hgT : g.Tables[i + 1]? = some T) (hgC : g.JoinsOn[i]? = some C)
    (hfirst : T ∉ g.Tables.take (i + 1))
    (hnew : ∀ f ∈ resolved reg pre1, T ∉ f.Tables) (hanchor : T ≠ anchor)
    (hl : filterLoop reg args (pre1 ++ keyg :: rest) (seed α anchor) = .ok s) :
    ∃ links, Rep s.filterList s.usedTables anchor 0 links ∧
      (T, C) ∈ links.map Link.pair := by
  rw [filterLoop_append] at hl
  cases h1 : filterLoop reg args pre1 (seed α anchor) with
  | error e => simp [h1] at hl
  | ok s1 =>
    simp only [h1] at hl
    obtain ⟨links1, hrep1, -⟩ :=
      filterLoop_grows reg args anchor 0 pre1 _ s1 [] h1 (seed_rep α anchor)
    have hu : s1.usedTables.has T = false := by
      cases hb : s1.usedTables.has T with
      | false => rfl
      | true =>
        obtain ⟨-, hkeys⟩ := filterLoop_chain reg args (resolved reg pre1) anchor pre1 _ s1 h1
          (fun f hf => hf) (seed_inv α _ anchor)
        rcases (hkeys T).1 hb with h2 | ⟨f, hf, hT⟩
        · exact absurd ((seed_has α anchor T).1 h2) hanchor
        · exact absurd hT (hnew f hf)
    obtain ⟨filter, l2, u2, argInd2, retArgs2, wheres2, hreg, -, hj, -, hrest⟩ :=
      filterLoop_cons_ok hl
    rw [hg] at hreg
    simp only [Option.some.injEq] at hreg
    subst hreg
    obtain ⟨links2, hrep2, -, hin2⟩ := sqlJoin_grows hrep1 g l2 u2 hj
    have hTC := hin2 i T C hgT hgC hu (not_mem_take_getElem? g.Tables T i hfirst)
    obtain ⟨links3, hrep3, hsub3⟩ := filterLoop_grows reg args anchor 0 rest _ s links2 hrest hrep2
    refine ⟨links3, hrep3, ?_⟩
    obtain ⟨k, hk, hkp⟩ := List.mem_map.1 hTC
    exact List.mem_map.2 ⟨k, hsub3 k hk, hkp⟩

/-- C17: let `T` be first listed, in the processing order, by the filter of
`keyg`, with the join condition `C`, and let the filter of a later name `key`
list `T` again. Whatever condition `c` that later filter gives for `T`, the
call returns the same as for the filter as registered, so no conflict is
reported; and when the call succeeds, the chain its statement renders holds
the pair `" join T"`, `" on C"`, holds no pair of `T` with another condition,
and holds `" join T"` once: a different condition of the later filter is no
element of the chain for `T`. -/
theorem CreateQuery_first_condition_wins {α : Type} (reg : Str → Option Filter)
    (pre1 : List Str) (keyg : Str) (mid : List Str) (key : Str) (post : List Str)
    (args : List (List α)) (g f : Filter) (i j : Nat) (T C : Str)
    (hg : reg keyg = some g) (hgT : g.Tables[i + 1]? = some T)
    (hgC : g.JoinsOn[i]? = some C) (hfirst : T ∉ g.Tables.take (i + 1))
    (hnew : ∀ f0 ∈ resolved reg pre1, T ∉ f0.Tables)
    (hf : reg key = some f) (hk : key ∉ pre1 ++ keyg :: mid)
    (hfT : f.Tables[j + 1]? = some T) :
    (∀ c, CreateQuery (rebind reg key (withCondition f j c))
        (pre1 ++ keyg :: (mid ++ key :: post)) args =
      CreateQuery reg (pre1 ++ keyg :: (mid ++ key :: post)) args) ∧
    ∀ (q : Str) (a : List α),
      CreateQuery reg (pre1 ++ keyg :: (mid ++ key :: post)) args = .returned q a none →
      ∃ (anchor : Str) (s : Session α) (pairs : List (Str × Str)),
        filterLoop reg args (pre1 ++ keyg :: (mid ++ key :: post)) (seed α anchor) = .ok s ∧
        q = Sprintf (Join s.selectsSlice ", ".toList) s.filterList.render
              (Join s.wheresSlice " and ".toList) ∧
        s.filterList.elems.map Element.Value =
          anchor :: pairs.flatMap (fun p => [" join ".toList ++ p.1, " on ".toList ++ p.2]) ∧
        s.filterList.render =
          anchor ++ pairs.flatMap (fun p => " join ".toList ++ p.1 ++ " on ".toList ++ p.2) ∧
        (T, C) ∈ pairs ∧ (∀ c, (T, c) ∈ pairs → c = C) ∧
        (pairs.map Prod.fst).count T = 1 ∧
        ∀ c, f.JoinsOn[j]? = some c → c ≠ C → (T, c) ∉ pairs := by
  constructor
  · intro c
    have hTg : T ∈ g.Tables := List.getElem?_mem hgT
    have hseen : ∃ g0 ∈ resolved reg (pre1 ++ keyg :: mid), T ∈ g0.Tables := by
      refine ⟨g, ?_, hTg⟩
      simp only [resolved, List.mem_filterMap]
      exact ⟨keyg, by simp, hg⟩
    have := CreateQuery_rebind reg (pre1 ++ keyg :: mid) key post args f j T c hf hk hfT hseen
    simpa only [List.append_assoc, List.cons_append] using this
  · intro q a h
    obtain ⟨key0, rest, firstFilter, anchor, tl, s, hfl, hreg0, hT0, hl, -, hq, -⟩ :=
      CreateQuery_ok_inv h
    have hanchor : T ≠ anchor := by
      intro heq
      cases pre1 with
      | nil =>
        simp only [List.nil_append, List.cons.injEq] at hfl
        rw [← hfl.1, hg] at hreg0
        simp only [Option.some.injEq] at hreg0
        subst hreg0
        apply hfirst
        rw [hT0, heq]
        simp
      | cons k0 pre1 =>
        simp only [List.cons_append, List.cons.injEq] at hfl
        rw [← hfl.1] at hreg0
        refine hnew firstFilter ?_ ?_
        · simp only [resolved, List.mem_filterMap]
          exact ⟨k0, List.mem_cons_self _ _, hreg0⟩
        · rw [hT0, heq]; simp
    obtain ⟨links, hrep, hin⟩ := filterLoop_first_condition reg args pre1 keyg
      (mid ++ key :: post) g i T C anchor s hg hgT hgC hfirst hnew hanchor hl
    have hnd : ((links.map Link.pair).map Prod.fst).Nodup := by
      have := (List.nodup_cons.1 hrep.tables_nodup).2
      rw [List.map_map]
      exact this
    have huniq : ∀ c, (T, c) ∈ links.map Link.pair → c = C := by
      intro c hc
      have := List.inj_on_of_nodup_map hnd hc hin rfl
      exact (Prod.mk.inj this).2
    refine ⟨anchor, s, links.map Link.pair, hl, hq, hrep.values, hrep.render, hin, huniq, ?_, ?_⟩
    · rw [count_of_nodup T _ hnd, if_pos]
      exact List.mem_map.2 ⟨(T, C), hin, rfl⟩
    · intro c _ hne hc
      exact hne (huniq c hc)

theorem clash_run :
    CreateQuery clashReg ([] ++ "f1".toList :: ([] ++ "g".toList :: [])) [[1]] =
      .returned ("select t1.id, t2.id from t1 join t2 on t1.t2_id = t2.id" ++
        " where t2.col > ? and t1.col2 = 'colcol' and t2.col = 1").toList [1] none := by
  rfl

/-- C17 at `f1`, which introduces `t2` with `t1.t2_id = t2.id`, followed by the
filter `g3`, which lists `t2` with `t1.other = t2.id`: the call succeeds, its
statement keeps `on t1.t2_id = t2.id`, and the chain holds that pair for `t2`
and none with the condition of `g3`. -/
theorem CreateQuery_first_condition_wins_witness :
    CreateQuery clashReg ([] ++ "f1".toList :: ([] ++ "g".toList :: [])) [[1]] =
      .returned ("select t1.id, t2.id from t1 join t2 on t1.t2_id = t2.id" ++
        " where t2.col > ? and t1.col2 = 'colcol' and t2.col = 1").toList [1] none ∧
    (∀ c, CreateQuery (rebind clashReg "g".toList (withCondition g3 0 c))
        ([] ++ "f1".toList :: ([] ++ "g".toList :: [])) [[1]] =
      CreateQuery clashReg ([] ++ "f1".toList :: ([] ++ "g".toList :: [])) [[1]]) ∧
    ∃ (anchor : Str) (s : Session Nat) (pairs : List (Str × Str)),
      filterLoop clashReg [[1]] ([] ++ "f1".toList :: ([] ++ "g".toList :: []))
        (seed Nat anchor) = .ok s ∧
      ("select t1.id, t2.id from t1 join t2 on t1.t2_id = t2.id" ++
        " where t2.col > ? and t1.col2 = 'colcol' and t2.col = 1").toList =
        Sprintf (Join s.selectsSlice ", ".toList) s.filterList.render
          (Join s.wheresSlice " and ".toList) ∧
      s.filterList.elems.map Element.Value =
        anchor :: pairs.flatMap (fun p => [" join ".toList ++ p.1, " on ".toList ++ p.2]) ∧
      s.filterList.render =
        anchor ++ pairs.flatMap (fun p => " join ".toList ++ p.1 ++ " on ".toList ++ p.2) ∧
      ("t2".toList, "t1.t2_id = t2.id".toList) ∈ pairs ∧
      (∀ c, ("t2".toList, c) ∈ pairs → c = "t1.t2_id = t2.id".toList) ∧
      (pairs.map Prod.fst).count "t2".toList = 1 ∧
      ∀ c, g3.JoinsOn[0]? = some c → c ≠ "t1.t2_id = t2.id".toList →
        ("t2".toList, c) ∉ pairs :=
  ⟨clash_run,
    (CreateQuery_first_condition_wins clashReg [] "f1".toList [] "g".toList [] [[1]] f1 g3
      0 0 "t2".toList "t1.t2_id = t2.id".toList rfl rfl rfl (by decide)
      (fun f0 h0 => absurd h0 (by simp [resolved])) rfl (by decide) rfl).1,
    (CreateQuery_first_condition_wins clashReg [] "f1".toList [] "g".toList [] [[1]] f1 g3
      0 0 "t2".toList "t1.t2_id = t2.id".toList rfl rfl rfl (by decide)
      (fun f0 h0 => absurd h0 (by simp [resolved])) rfl (by decide) rfl).2 _ _ clash_run⟩

end Sqltor
